import Mathlib

/-! API Gateway proxy integration: request decoder and response capture

A shallow embedding of `lambda/proxy-integration/proxy_integration.go`.

* Go strings and byte slices are lists of bytes (`GoString`).
* A Go map is an association list; the order of the list is the order in which
  a `range` loop visits the entries, so a statement proved for every list is a
  statement about every enumeration order.  A nil map and an empty map are both `[]`.
* The standard-library functions the file calls (`textproto`, `net/http`
  header methods, `net/url` query escaping and parsing, `encoding/base64`
  decoding, `bytes.Buffer`) are embedded from their Go sources.
* `json.Unmarshal` is embedded from its Go source as far as it stores a JSON
  value into a `Request`; the JSON grammar itself is a parameter, as is
  `url.Parse`, so that every statement holds for every grammar and parser.
-/

namespace ProxyIntegration

/-! ## Bytes, strings and maps -/

/-- A Go `byte`. -/
abbrev Byte := Fin 256

/-- A Go `string` or `[]byte`: a finite sequence of bytes. -/
abbrev GoString := List Byte

/-- The bytes of a string literal (UTF-8, as in a Go source file). -/
def str (s : String) : GoString := s.toUTF8.data.toList.map (fun b => b.val)

/-- A Go `map[string]β`; the list order is the enumeration order of `range`. -/
abbrev GoMap (β : Type) := List (GoString × β)

/-- Map read `m[k]`, with `none` for a missing key. -/
def GoMap.get {β : Type} : GoMap β → GoString → Option β
  | [], _ => none
  | (k', v) :: m, k => if k' = k then some v else GoMap.get m k

/-- Map write `m[k] = v`. -/
def GoMap.set {β : Type} : GoMap β → GoString → β → GoMap β
  | [], k, v => [(k, v)]
  | (k', v') :: m, k, v => if k' = k then (k', v) :: m else (k', v') :: GoMap.set m k v

/-- Builtin `delete(m, k)`. -/
def GoMap.delete {β : Type} (m : GoMap β) (k : GoString) : GoMap β :=
  m.filter (fun e => decide (e.1 ≠ k))

/-- The keys of a map, in enumeration order. -/
def GoMap.keys {β : Type} (m : GoMap β) : List GoString := m.map Prod.fst

/-- A list represents a map when no key occurs twice. -/
def GoMap.WF {β : Type} (m : GoMap β) : Prop := m.keys.Nodup

instance {β : Type} (m : GoMap β) : Decidable m.WF := by
  unfold GoMap.WF; infer_instance

/-! ## net/textproto: canonical header keys -/

/-- The punctuation bytes of an RFC 7230 token. -/
def tokenMarks : GoString := str "!#$%&'*+-.^_`|~"

/-- Go `textproto.validHeaderFieldByte`: the bytes of an RFC 7230 token. -/
def validHeaderFieldByte (c : Byte) : Bool :=
  (97 ≤ c && c ≤ 122) || (65 ≤ c && c ≤ 90) || (48 ≤ c && c ≤ 57) || decide (c ∈ tokenMarks)

/-- The case-mapping loop of Go `textproto.canonicalMIMEHeaderKey`: the first
letter and every letter after a dash in upper case, every other letter in lower case. -/
def canonLoop : Bool → GoString → GoString
  | _, [] => []
  | upper, c :: rest =>
    let c' : Byte :=
      if upper && (97 ≤ c && c ≤ 122) then c - 32
      else if !upper && (65 ≤ c && c ≤ 90) then c + 32
      else c
    c' :: canonLoop (c' == 45) rest

/-- Go `textproto.CanonicalMIMEHeaderKey`: a key holding a byte that is not a
token byte is returned unchanged, any other key is case-mapped. -/
def CanonicalMIMEHeaderKey (s : GoString) : GoString :=
  if s.all validHeaderFieldByte then canonLoop true s else s

/-! ## net/http: Header -/

/-- Go `http.Header`, a `map[string][]string`. -/
abbrev Header := GoMap (List GoString)

/-- Go `Header.Add`: append the value to the list stored under the canonical key. -/
def Header.Add (h : Header) (key value : GoString) : Header :=
  let key := CanonicalMIMEHeaderKey key
  h.set key ((h.get key).getD [] ++ [value])

/-- Go `Header.Set`: replace the list stored under the canonical key. -/
def Header.Set (h : Header) (key value : GoString) : Header :=
  h.set (CanonicalMIMEHeaderKey key) [value]

/-- Go `Header.Get`: the first value stored under the canonical key, `""` when there is none. -/
def Header.Get (h : Header) (key : GoString) : GoString :=
  match h.get (CanonicalMIMEHeaderKey key) with
  | some (v :: _) => v
  | _ => []

/-- Go `Header.Del`: delete the canonical key. -/
def Header.Del (h : Header) (key : GoString) : Header :=
  h.delete (CanonicalMIMEHeaderKey key)

/-! ## Response capture -/

/-- The `Response` envelope of the source. -/
structure Response where
  StatusCode : Int
  Headers : GoMap GoString
  Body : GoString
  deriving DecidableEq

/-- The `ResponseWriter` of the source.  `Buffer` is the content of the embedded
`bytes.Buffer` (its unread bytes). -/
structure ResponseWriter where
  Buffer : GoString
  header : Header
  statusCode : Int
  deriving DecidableEq

/-- Source `NewResponseWriter`: empty buffer, status `http.StatusOK`, empty header map. -/
def NewResponseWriter : ResponseWriter :=
  { Buffer := [], statusCode := 200, header := [] }

/-- Source `ResponseWriter.Header`: the live header map. -/
def ResponseWriter.Header (w : ResponseWriter) : Header := w.header

/-- Source `ResponseWriter.WriteHeader`. -/
def ResponseWriter.WriteHeader (w : ResponseWriter) (code : Int) : ResponseWriter :=
  { w with statusCode := code }

/-- The promoted `bytes.Buffer.Write`: append `p`; returns the new state, `len(p)`
and the error, which is always nil. -/
def ResponseWriter.Write (w : ResponseWriter) (p : GoString) :
    ResponseWriter × Nat × Option Unit :=
  ({ w with Buffer := w.Buffer ++ p }, p.length, none)

/-- The loop of source `ResponseWriter.Response`: `h[key] = w.header.Get(key)` for
the keys in the order `keys` in which `range w.header` visits them. -/
def collectHeaders (header : Header) (keys : List GoString) : GoMap GoString :=
  keys.foldl (fun h key => h.set key (header.Get key)) []

/-- Source `ResponseWriter.Response`, for a given enumeration `keys` of the header
map.  The writer state is returned next to the envelope. -/
def ResponseWriter.ResponseIn (w : ResponseWriter) (keys : List GoString) :
    ResponseWriter × Response :=
  (w, { StatusCode := w.statusCode, Headers := collectHeaders w.header keys, Body := w.Buffer })

/-- Source `ResponseWriter.Response`, enumerating the header map in list order. -/
def ResponseWriter.Response (w : ResponseWriter) : ResponseWriter × Response :=
  w.ResponseIn w.header.keys

/-- What a handler can do with a response writer: mutate the live header map
(through the `http.Header` methods or by direct map assignment and deletion),
set the status, write body bytes. -/
inductive Op where
  | headerAdd (key value : GoString)
  | headerSet (key value : GoString)
  | headerDel (key : GoString)
  | headerAssign (key : GoString) (values : List GoString)
  | headerDelete (key : GoString)
  | writeHeader (code : Int)
  | write (p : GoString)
  deriving DecidableEq

/-- One handler operation applied to a writer. -/
def ResponseWriter.step (w : ResponseWriter) : Op → ResponseWriter
  | .headerAdd k v => { w with header := w.Header.Add k v }
  | .headerSet k v => { w with header := w.Header.Set k v }
  | .headerDel k => { w with header := w.Header.Del k }
  | .headerAssign k vs => { w with header := w.Header.set k vs }
  | .headerDelete k => { w with header := w.Header.delete k }
  | .writeHeader c => w.WriteHeader c
  | .write p => (w.Write p).1

/-- A sequence of handler operations applied in order. -/
def ResponseWriter.run (w : ResponseWriter) (ops : List Op) : ResponseWriter :=
  ops.foldl ResponseWriter.step w

/-- Whether an operation is a `WriteHeader` call. -/
def Op.isWriteHeader : Op → Bool
  | .writeHeader _ => true
  | _ => false

/-! ## net/url: query escaping -/

/-- Go `url.shouldEscape` in mode `encodeQueryComponent`: only letters, digits
and `-`, `_`, `.`, `~` are left unescaped. -/
def shouldEscape (c : Byte) : Bool :=
  if (97 ≤ c && c ≤ 122) || (65 ≤ c && c ≤ 90) || (48 ≤ c && c ≤ 57) then false
  else if c = 45 || c = 95 || c = 46 || c = 126 then false
  else true

/-- Go `url.upperhex`. -/
def upperhex : GoString := str "0123456789ABCDEF"

/-- The first hex digit of an escaped byte, `upperhex[c>>4]`. -/
def hexHigh (c : Byte) : Byte := upperhex.getD (c >>> 4).val 0

/-- The second hex digit of an escaped byte, `upperhex[c&15]`. -/
def hexLow (c : Byte) : Byte := upperhex.getD (c &&& 15).val 0

/-- One step of the output loop of Go `url.escape` in mode `encodeQueryComponent`:
a space becomes `+`, an escaped byte becomes `%XX`, another byte is copied. -/
def escapeByte (c : Byte) : GoString :=
  if c = 32 then [43]
  else if shouldEscape c then [37, hexHigh c, hexLow c]
  else [c]

/-- Go `url.QueryEscape`. -/
def QueryEscape : GoString → GoString
  | [] => []
  | c :: rest => escapeByte c ++ QueryEscape rest

/-- Go `url.ishex`. -/
def ishex (c : Byte) : Bool :=
  (48 ≤ c && c ≤ 57) || (97 ≤ c && c ≤ 102) || (65 ≤ c && c ≤ 70)

/-- Go `url.unhex`. -/
def unhex (c : Byte) : Byte :=
  if 48 ≤ c && c ≤ 57 then c - 48
  else if 97 ≤ c && c ≤ 102 then c - 97 + 10
  else if 65 ≤ c && c ≤ 70 then c - 65 + 10
  else 0

/-- The errors of `url.ParseQuery`: a malformed `%` escape (with the offending
bytes), a semicolon in a segment, or more parameters than the limit allows
(`number of URL query parameters exceeded limit`). -/
inductive QueryError where
  | escape (s : GoString)
  | semicolon
  | tooManyParams
  deriving DecidableEq

/-- First loop of Go `url.unescape`: every `%` must be followed by two hex digits. -/
def unescapeScan : GoString → Option QueryError
  | [] => none
  | c :: rest =>
    if c = 37 then
      match rest with
      | a :: b :: rest' =>
        if ishex a && ishex b then unescapeScan rest' else some (.escape [c, a, b])
      | _ => some (.escape (c :: rest))
    else unescapeScan rest

/-- Second loop of Go `url.unescape` in mode `encodeQueryComponent`: `%XX` becomes
the byte `unhex(X)<<4 | unhex(X)`, `+` becomes a space. -/
def unescapeBuild : GoString → GoString
  | [] => []
  | c :: rest =>
    if c = 37 then
      match rest with
      | a :: b :: rest' => (unhex a <<< 4 ||| unhex b) :: unescapeBuild rest'
      | _ => []
    else if c = 43 then 32 :: unescapeBuild rest
    else c :: unescapeBuild rest

deriving instance DecidableEq for Except

/-- Go `url.QueryUnescape`. -/
def QueryUnescape (s : GoString) : Except QueryError GoString :=
  match unescapeScan s with
  | some e => .error e
  | none => .ok (unescapeBuild s)

/-! ## net/url: Values -/

/-- Go `url.Values`, a `map[string][]string`. -/
abbrev Values := GoMap (List GoString)

/-- Go `Values.Add`: append the value to the list stored under the key. -/
def Values.Add (v : Values) (key value : GoString) : Values :=
  v.set key ((v.get key).getD [] ++ [value])

/-- Go `sort.Strings`: ascending bytewise lexicographic order. -/
def sortStrings (keys : List GoString) : List GoString :=
  keys.insertionSort (fun a b => a ≤ b)

/-- The inner loop of Go `Values.Encode` for one key: `key=value` for every value,
with `&` in front when the buffer is not empty. -/
def encodeKey (keyEscaped : GoString) (vs : List GoString) (buf : GoString) : GoString :=
  vs.foldl (fun buf v =>
    (if buf.length > 0 then buf ++ [38] else buf) ++ keyEscaped ++ [61] ++ QueryEscape v) buf

/-- Go `Values.Encode`: the keys sorted, every key and value query-escaped. -/
def Values.Encode (v : Values) : GoString :=
  if v.length = 0 then []
  else (sortStrings v.keys).foldl
    (fun buf k => encodeKey (QueryEscape k) ((v.get k).getD []) buf) []

/-- Go `strings.Cut` for a one-byte separator: the text before the first
separator, the text after it, and whether it was found. -/
def cut (sep : Byte) : GoString → GoString × GoString × Bool
  | [] => ([], [], false)
  | c :: rest =>
    if c = sep then ([], rest, true)
    else let r := cut sep rest; (c :: r.1, r.2.1, r.2.2)

/-- The loop of Go `url.parseQuery`; `fuel` bounds the number of iterations. -/
def parseQueryLoop : Nat → Values → Option QueryError → GoString → Values × Option QueryError
  | 0, m, err, _ => (m, err)
  | fuel + 1, m, err, query =>
    if query = [] then (m, err)
    else
      let seg := cut 38 query
      if (59 : Byte) ∈ seg.1 then parseQueryLoop fuel m (some .semicolon) seg.2.1
      else if seg.1 = [] then parseQueryLoop fuel m err seg.2.1
      else
        let kv := cut 61 seg.1
        match QueryUnescape kv.1 with
        | .error e1 => parseQueryLoop fuel m (if err = none then some e1 else err) seg.2.1
        | .ok key =>
          match QueryUnescape kv.2.1 with
          | .error e1 => parseQueryLoop fuel m (if err = none then some e1 else err) seg.2.1
          | .ok value =>
            parseQueryLoop fuel (m.set key ((m.get key).getD [] ++ [value])) err seg.2.1

/-- Go `strings.Count(s, sep)` for a one-byte separator. -/
def countByte (sep : Byte) (s : GoString) : Nat := s.count sep

/-- Go `url.defaultMaxParams`, the largest number of parameters `url.ParseQuery`
accepts. -/
def defaultMaxParams : Nat := 10000

/-- Go `url.urlParamsWithinMax`, with the debug setting `urlmaxqueryparams` left
unset, as it is unless the program is started with it. -/
def urlParamsWithinMax (params : Nat) : Bool := decide (params ≤ defaultMaxParams)

/-- Go `url.parseQuery`: a query with more parameters than the limit (one more than
its `&` bytes) is refused before anything is stored; otherwise the loop runs.
Every iteration of the loop removes at least one byte of the query, so
`len(query) + 1` iterations are enough. -/
def parseQuery (m : Values) (query : GoString) : Values × Option QueryError :=
  if urlParamsWithinMax (countByte 38 query + 1) then
    parseQueryLoop (query.length + 1) m none query
  else (m, some .tooManyParams)

/-- Go `url.ParseQuery`: `parseQuery` on an empty map. -/
def ParseQuery (query : GoString) : Values × Option QueryError :=
  parseQuery [] query

/-! ## encoding/base64: StdEncoding.Decode -/

/-- Go `base64.encodeStd`, the standard alphabet. -/
def encodeStd : GoString :=
  str "ABCDEFGHIJKLMNOPQRSTUVWXYZabcdefghijklmnopqrstuvwxyz0123456789+/"

/-- The `decodeMap` of Go `base64.StdEncoding`: the position of a byte in the
alphabet, `0xff` for a byte outside it. -/
def decodeMap (c : Byte) : Byte :=
  if encodeStd.indexOf c < 64 then Fin.ofNat (encodeStd.indexOf c) else 255

/-- Go `base64.CorruptInputError`: the offset of the offending input byte. -/
abbrev CorruptInputError := Nat

/-- What a Go call that returns a value and an error does: return a value with
a nil error, return an error, or panic at run time (index out of range). -/
inductive Outcome (α : Type) where
  | ok (a : α)
  | error (e : CorruptInputError)
  | panic
  deriving DecidableEq

/-- The return values `(nsi, n, err)` of Go `decodeQuantum`, with the unread rest
of the source and the `n` bytes stored in `dst[0:n]`; or a panic on a store
past the end of `dst`. -/
inductive Quantum where
  | ret (rest : GoString) (nsi : Nat) (stored : GoString) (err : Option CorruptInputError)
  | panic
  deriving DecidableEq

/-- The two newline-skipping loops of Go `decodeQuantum`:
`for si < len(src) && (src[si] == '\n' || src[si] == '\r') { si++ }`. -/
def skipNewlines : GoString → Nat → GoString × Nat
  | [], si => ([], si)
  | c :: rest, si =>
    if c = 10 ∨ c = 13 then skipNewlines rest (si + 1) else (c :: rest, si)

/-- The end of Go `decodeQuantum`: the four 6-bit values are packed into 24 bits,
the first `dlen - 1` of the three bytes are stored in `dst` (a store past
`len(dst)` panics), and `(si, dlen - 1, err)` is returned. -/
def storeQuantum (dstLen : Nat) (dbuf : List Byte) (dlen : Nat) (rest : GoString) (si : Nat)
    (err : Option CorruptInputError) : Quantum :=
  let val : Nat := (dbuf.getD 0 0).val <<< 18 ||| (dbuf.getD 1 0).val <<< 12 |||
    (dbuf.getD 2 0).val <<< 6 ||| (dbuf.getD 3 0).val
  let b2 : Byte := Fin.ofNat (val >>> 0)
  let b1 : Byte := Fin.ofNat (val >>> 8)
  let b0 : Byte := Fin.ofNat (val >>> 16)
  if dstLen < dlen - 1 then .panic
  else .ret rest si ([b0, b1, b2].take (dlen - 1)) err

/-- The rest of the padding branch of Go `decodeQuantum` once the padding is
consumed: skip newlines, flag trailing garbage, and store with `dlen = j`. -/
def afterPadding (dstLen : Nat) (dbuf : List Byte) (j : Nat) (rest : GoString) (si : Nat) :
    Quantum :=
  let r := skipNewlines rest si
  storeQuantum dstLen dbuf j r.1 r.2 (if r.1 = [] then none else some r.2)

/-- The loop `for j := 0; j < len(dbuf); j++` of Go `decodeQuantum` for
`StdEncoding` (padding `=`, not strict), reading the source from offset `si`
where `rest = src[si:]`; `srcLen = len(src)` and `dstLen = len(dst)`. -/
def decodeQuantumLoop (srcLen dstLen : Nat) :
    GoString → Nat → Nat → List Byte → Quantum
  | [], si, j, _ =>
    if j = 0 then .ret [] si [] none
    else .ret [] si [] (some (si - j))
  | c :: rest, si, j, dbuf =>
    let si := si + 1
    let out := decodeMap c
    if out ≠ 255 then
      if j + 1 < 4 then decodeQuantumLoop srcLen dstLen rest si (j + 1) (dbuf.set j out)
      else storeQuantum dstLen (dbuf.set j out) 4 rest si none
    else if c = 10 ∨ c = 13 then decodeQuantumLoop srcLen dstLen rest si j dbuf
    else if c ≠ 61 then .ret rest si [] (some (si - 1))
    else if j = 0 ∨ j = 1 then .ret rest si [] (some (si - 1))
    else if j = 2 then
      let r := skipNewlines rest si
      match r.1 with
      | [] => .ret [] r.2 [] (some srcLen)
      | c2 :: rest2 =>
        if c2 ≠ 61 then .ret (c2 :: rest2) r.2 [] (some (r.2 - 1))
        else afterPadding dstLen dbuf j rest2 (r.2 + 1)
    else afterPadding dstLen dbuf j rest si

/-- Go `decodeQuantum(dst, src, si)` with `len(dst) = dstLen` and `rest = src[si:]`. -/
def decodeQuantum (srcLen dstLen : Nat) (rest : GoString) (si : Nat) : Quantum :=
  decodeQuantumLoop srcLen dstLen rest si 0 [0, 0, 0, 0]

/-- The loop `for si < len(src)` of Go `Encoding.Decode`, `out` being `dst[0:n]`;
`fuel` bounds the number of iterations.  (The two loops in front of it decode
eight or four alphabet bytes at a time exactly as `decodeQuantum` does and only
run while `dst` has room; they are not separate cases of the function.) -/
def decodeLoop (srcLen dstLen : Nat) : Nat → GoString → Nat → GoString → Outcome GoString
  | 0, _, _, out => .ok out
  | fuel + 1, rest, si, out =>
    if rest = [] then .ok out
    else
      match decodeQuantum srcLen (dstLen - out.length) rest si with
      | .panic => .panic
      | .ret rest' si' stored err =>
        match err with
        | some e => .error e
        | none => decodeLoop srcLen dstLen fuel rest' si' (out ++ stored)

/-- Go `base64.StdEncoding.Decode(dst, src)` with `len(dst) = dstLen`: the bytes
`dst[0:n]` when the error is nil.  Every iteration reads at least one byte of
the source, so `len(src)` iterations are enough. -/
def Decode (dstLen : Nat) (src : GoString) : Outcome GoString :=
  if src.length = 0 then .ok []
  else decodeLoop src.length dstLen src.length src 0 []

/-! ## The request decoder -/

/-- The `RequestContext` of the source. -/
structure RequestContext where
  AccountID : GoString
  ApiID : GoString
  HTTPMethod : GoString
  Identity : GoMap GoString
  RequestID : GoString
  ResourceID : GoString
  ResourcePath : GoString
  Stage : GoString
  deriving DecidableEq

/-- The `Request` of the source, the incoming event. -/
structure Request where
  Body : GoString
  Headers : GoMap GoString
  HTTPMethod : GoString
  Path : GoString
  PathParameters : GoMap GoString
  QueryStringParameters : GoMap GoString
  Resource : GoString
  StageVariables : GoMap GoString
  RequestContext : RequestContext
  IsBase64Encoded : Bool
  deriving DecidableEq

/-- The fields of Go `http.Request` that the source sets.  `Body` is the byte
sequence the body reader yields before end of file; `URL` is nil (`none`) when
`url.Parse` fails.  `U` is the type of a parsed URL. -/
structure HttpRequest (U : Type) where
  Method : GoString
  Proto : GoString
  ProtoMajor : Int
  ProtoMinor : Int
  Header : Header
  ContentLength : Int
  Body : GoString
  RemoteAddr : GoString
  Host : GoString
  RequestURI : GoString
  URL : Option U
  deriving DecidableEq

/-- The first loop of source `httpRequest`: `header.Add(key, value)` for every entry. -/
def addHeaders (headers : GoMap GoString) (header : Header) : Header :=
  headers.foldl (fun h e => h.Add e.1 e.2) header

/-- The second loop of source `httpRequest`: `v.Add(key, value)` for every entry. -/
def addValues (params : GoMap GoString) (v : Values) : Values :=
  params.foldl (fun v e => v.Add e.1 e.2) v

/-- Source `Request.httpRequest`.  `urlParse` is `url.Parse`, whose error the
source discards. -/
def Request.httpRequest {U : Type} (urlParse : GoString → Option U) (r : Request) :
    Outcome (HttpRequest U) :=
  let header := addHeaders r.Headers []
  let host := header.Get (str "Host")
  let header := header.Del (str "Host")
  let v := addValues r.QueryStringParameters []
  let uri := if r.QueryStringParameters.length > 0 then r.Path ++ str "?" ++ v.Encode else r.Path
  let u := urlParse uri
  let mk (contentLength : Int) (b : GoString) : HttpRequest U :=
    { Method := r.HTTPMethod
      Proto := str "HTTP/1.1"
      ProtoMajor := 1
      ProtoMinor := 1
      Header := header
      ContentLength := contentLength
      Body := b
      RemoteAddr := (r.RequestContext.Identity.get (str "sourceIp")).getD []
      Host := host
      RequestURI := uri
      URL := u }
  if r.IsBase64Encoded then
    match Decode r.Body.length r.Body with
    | .ok raw => .ok (mk raw.length raw)
    | .error e => .error e
    | .panic => .panic
  else .ok (mk r.Body.length r.Body)

/-! ## Reference notions used to state the properties -/

/-- Whether a byte belongs to the standard base64 alphabet. -/
def isAlphabet (c : Byte) : Bool := decide (c ∈ encodeStd)

/-- The 6-bit value of an alphabet byte: its position in the alphabet. -/
def sextet (c : Byte) : Nat := encodeStd.indexOf c

/-- RFC 4648 syntax of standard padded base64: groups of four alphabet bytes,
where the last group may end in `=` or `==`. -/
def IsStdBase64 : GoString → Bool
  | [] => true
  | a :: b :: c :: d :: rest =>
    if rest = [] then
      isAlphabet a && isAlphabet b &&
        ((c = 61 && d = 61) || (isAlphabet c && (d = 61 || isAlphabet d)))
    else isAlphabet a && isAlphabet b && isAlphabet c && isAlphabet d && IsStdBase64 rest
  | _ => false

/-- The three bytes of a 24-bit group. -/
def groupBytes (n : Nat) : GoString :=
  [Fin.ofNat (n / 2 ^ 16), Fin.ofNat (n / 2 ^ 8), Fin.ofNat n]

/-- RFC 4648 decoding of a standard padded base64 string: every group of four
bytes gives 24 bits, of which a group ending in `==` keeps the first 8 and a
group ending in `=` the first 16. -/
def stdDecoded : GoString → GoString
  | a :: b :: c :: d :: rest =>
    let n := sextet a * 2 ^ 18 + sextet b * 2 ^ 12 +
      (if c = 61 then 0 else sextet c) * 2 ^ 6 + (if d = 61 then 0 else sextet d)
    (groupBytes n).take (if c = 61 then 1 else if d = 61 then 2 else 3) ++ stdDecoded rest
  | _ => []

/-- The alphabet byte of a 6-bit value. -/
def encodeChar (n : Nat) : Byte := encodeStd.getD (n % 64) 0

/-- RFC 4648 encoding (what Go `StdEncoding.EncodeToString` returns): three bytes
give four alphabet bytes, a last group of one or two bytes is padded with `=`. -/
def stdEncoded : GoString → GoString
  | [] => []
  | [a] =>
    let val := a.val * 2 ^ 16
    [encodeChar (val / 2 ^ 18), encodeChar (val / 2 ^ 12), 61, 61]
  | [a, b] =>
    let val := a.val * 2 ^ 16 + b.val * 2 ^ 8
    [encodeChar (val / 2 ^ 18), encodeChar (val / 2 ^ 12), encodeChar (val / 2 ^ 6), 61]
  | a :: b :: c :: rest =>
    let val := a.val * 2 ^ 16 + b.val * 2 ^ 8 + c.val
    [encodeChar (val / 2 ^ 18), encodeChar (val / 2 ^ 12), encodeChar (val / 2 ^ 6),
      encodeChar val] ++ stdEncoded rest

/-- A string without its carriage returns and line feeds. -/
def stripNewlines (s : GoString) : GoString :=
  s.filter (fun c => decide (¬ (c = 10 ∨ c = 13)))

/-- ASCII lower case of a byte. -/
def toLowerByte (c : Byte) : Byte := if 65 ≤ c && c ≤ 90 then c + 32 else c

/-- Whether a header name is `Host` in some letter case. -/
def isHostName (k : GoString) : Bool := decide (k.map toLowerByte = str "host")

/-- The value of the first entry, in enumeration order, whose name is `Host` in
some letter case; `""` when there is none. -/
def hostValue (headers : GoMap GoString) : GoString :=
  match headers.find? (fun e => isHostName e.1) with
  | some e => e.2
  | none => []

/-- Drop the error value of an outcome, keeping only its kind. -/
def Outcome.forget {α : Type} : Outcome α → Outcome α
  | .ok a => .ok a
  | .error _ => .error 0
  | .panic => .panic

/-- Drop the source offsets of a quantum result: the rest without its newlines,
the stored bytes, and whether there is an error. -/
def Quantum.norm : Quantum → Quantum
  | .ret rest _ stored err => .ret (stripNewlines rest) 0 stored (err.map (fun _ => 0))
  | .panic => .panic

/-! ## Auxiliary definitions

Events used as examples, and notions used only in proofs. -/

/-- The header map source `httpRequest` builds before it removes `Host`. -/
def builtHeader (r : Request) : Header := addHeaders r.Headers []

/-- The request URI source `httpRequest` composes. -/
def builtURI (r : Request) : GoString :=
  if r.QueryStringParameters.length > 0 then
    r.Path ++ str "?" ++ (addValues r.QueryStringParameters []).Encode
  else r.Path

/-- The segment `key=value` of an encoded query. -/
def segment (p : GoString × GoString) : GoString :=
  QueryEscape p.1 ++ 61 :: QueryEscape p.2

/-- Segments joined by `&`. -/
def joinSegments : List (GoString × GoString) → GoString
  | [] => []
  | p :: ps => segment p ++ (if ps = [] then [] else 38 :: joinSegments ps)

/-- The buffer of `Values.Encode` after more segments are written to it. -/
def appendSegments (buf : GoString) (ps : List (GoString × GoString)) : GoString :=
  if ps = [] then buf
  else if buf = [] then joinSegments ps
  else buf ++ 38 :: joinSegments ps

/-- A request context with every field empty. -/
def emptyContext : RequestContext :=
  { AccountID := [], ApiID := [], HTTPMethod := [], Identity := [], RequestID := [],
    ResourceID := [], ResourcePath := [], Stage := [] }

/-- The zero value of `Request`: what decoding the JSON object `{}` gives. -/
def emptyEvent : Request :=
  { Body := [], Headers := [], HTTPMethod := [], Path := [], PathParameters := [],
    QueryStringParameters := [], Resource := [], StageVariables := [],
    RequestContext := emptyContext, IsBase64Encoded := false }

/-- A `url.Parse` that fails on every input; its result is only stored in the request. -/
def noParse : GoString → Option Unit := fun _ => none

/-- An event without query parameters whose path holds a question mark. -/
def questionPathEvent : Request := { emptyEvent with Path := str "/a?b" }

/-- An event with a `Host` header in upper case and two query parameters. -/
def sampleEvent : Request :=
  { emptyEvent with
    Body := str "hello"
    HTTPMethod := str "GET"
    Path := str "/p"
    Headers := [(str "HOST", str "a.example"), (str "x-a", str "1")]
    QueryStringParameters := [(str "k 2", str "&=%+é"), (str "", str "")] }

/-- What `httpRequest` returns for `sampleEvent`. -/
def sampleRequest : HttpRequest Unit :=
  { Method := str "GET"
    Proto := str "HTTP/1.1"
    ProtoMajor := 1
    ProtoMinor := 1
    Header := [(str "X-A", [str "1"])]
    ContentLength := 5
    Body := str "hello"
    RemoteAddr := []
    Host := str "a.example"
    RequestURI := str "/p?=&k+2=%26%3D%25%2B%C3%A9"
    URL := none }

/-- The error outcome of a quantum: nothing stored, an error set. -/
def Quantum.failed (q : Quantum) : Prop :=
  ∃ rest si e, q = .ret rest si [] (some e)

/-- The event of the concrete scenario of the specification, reduced to its
base64 body `eyJhIjoxfQ==`. -/
def base64Event : Request :=
  { emptyEvent with Body := str "eyJhIjoxfQ==", IsBase64Encoded := true }

/-- An event whose base64 body is followed by a line feed. -/
def newlineEvent : Request :=
  { emptyEvent with Body := str "QQ==\n", IsBase64Encoded := true }

/-- An event whose base64 body lacks its padding. -/
def unpaddedEvent : Request :=
  { emptyEvent with Body := str "QQ", IsBase64Encoded := true }

/-! ## Operation sequences, sample events and enumeration orders -/

/-- The bytes an operation appends to the body: those of a write, none otherwise. -/
def Op.written : Op → GoString
  | .write p => p
  | _ => []

/-- The event of the concrete scenario of the specification. -/
def scenarioEvent : Request :=
  { emptyEvent with
    Body := str "eyJhIjoxfQ=="
    IsBase64Encoded := true
    HTTPMethod := str "POST"
    Path := str "/items"
    QueryStringParameters := [(str "q", str "1")]
    Headers := [(str "Host", str "api.example.com"), (str "Content-Type", str "application/json")]
    RequestContext := { emptyContext with Identity := [(str "sourceIp", str "10.0.0.1")] } }

/-- The scenario event with its two headers enumerated in the other order. -/
def scenarioEventSwapped : Request :=
  { scenarioEvent with
    Headers := [(str "Content-Type", str "application/json"), (str "Host", str "api.example.com")] }

/-- The properties the concrete scenario names, for a returned request. -/
def scenarioHolds {U : Type} (req : HttpRequest U) : Prop :=
  req.Method = str "POST" ∧ req.RequestURI = str "/items?q=1" ∧
  req.Body = str "\x7b\"a\":1\x7d" ∧ req.ContentLength = 7 ∧
  req.RemoteAddr = str "10.0.0.1" ∧ req.Host = str "api.example.com" ∧
  req.Proto = str "HTTP/1.1" ∧ req.ProtoMajor = 1 ∧ req.ProtoMinor = 1 ∧
  req.Header.get (str "Host") = none ∧ req.Header.Get (str "Host") = [] ∧
  req.Header.Get (str "Content-Type") = str "application/json" ∧
  req.Header = [(str "Content-Type", [str "application/json"])]

/-- An event whose path `%zz` is no valid percent-encoding. -/
def percentEvent : Request := { emptyEvent with Path := str "%zz" }

/-- What `httpRequest` returns for `percentEvent` when `url.Parse` fails. -/
def percentRequest : HttpRequest Unit :=
  { Method := [], Proto := str "HTTP/1.1", ProtoMajor := 1, ProtoMinor := 1, Header := [],
    ContentLength := 0, Body := [], RemoteAddr := [], Host := [], RequestURI := str "%zz",
    URL := none }

/-- Go `base64.assemble32`: the four 6-bit values packed into the top 24 bits of
a `uint32`; not ok when one of them is `0xff`, which their bitwise or then is. -/
def assemble32 (n1 n2 n3 n4 : Byte) : Option Nat :=
  if n1 ||| n2 ||| n3 ||| n4 = 255 then none
  else some ((n1.val <<< 26 ||| n2.val <<< 20 ||| n3.val <<< 14 ||| n4.val <<< 8) % 2 ^ 32)

/-- Go `base64.assemble64`: the eight 6-bit values packed into the top 48 bits of
a `uint64`; not ok when one of them is `0xff`. -/
def assemble64 (n1 n2 n3 n4 n5 n6 n7 n8 : Byte) : Option Nat :=
  if n1 ||| n2 ||| n3 ||| n4 ||| n5 ||| n6 ||| n7 ||| n8 = 255 then none
  else some ((n1.val <<< 58 ||| n2.val <<< 52 ||| n3.val <<< 46 ||| n4.val <<< 40 |||
    n5.val <<< 34 ||| n6.val <<< 28 ||| n7.val <<< 22 ||| n8.val <<< 16) % 2 ^ 64)

/-- The four bytes Go `binary.BigEndian.PutUint32` stores. -/
def putUint32 (v : Nat) : GoString :=
  [Fin.ofNat (v >>> 24), Fin.ofNat (v >>> 16), Fin.ofNat (v >>> 8), Fin.ofNat v]

/-- The eight bytes Go `binary.BigEndian.PutUint64` stores. -/
def putUint64 (v : Nat) : GoString :=
  [Fin.ofNat (v >>> 56), Fin.ofNat (v >>> 48), Fin.ofNat (v >>> 40), Fin.ofNat (v >>> 32),
    Fin.ofNat (v >>> 24), Fin.ofNat (v >>> 16), Fin.ofNat (v >>> 8), Fin.ofNat v]

/-- The second loop of Go `Encoding.Decode`,
`for len(src)-si >= 4 && len(dst)-n >= 4`: four alphabet bytes are decoded at
once with `assemble32` and `PutUint32` (four bytes stored, `n += 3`), anything
else goes through `decodeQuantum`; when the condition fails the third loop
(`decodeLoop`) takes over.  `fuel` bounds the number of iterations. -/
def decodeLoop32 (srcLen dstLen : Nat) : Nat → GoString → Nat → GoString → Outcome GoString
  | 0, rest, si, out => decodeLoop srcLen dstLen rest.length rest si out
  | fuel + 1, rest, si, out =>
    match rest with
    | a :: b :: c :: e :: rest4 =>
      if dstLen - out.length ≥ 4 then
        match assemble32 (decodeMap a) (decodeMap b) (decodeMap c) (decodeMap e) with
        | some dn =>
          decodeLoop32 srcLen dstLen fuel rest4 (si + 4) (out ++ (putUint32 dn).take 3)
        | none =>
          match decodeQuantum srcLen (dstLen - out.length) (a :: b :: c :: e :: rest4) si with
          | .panic => .panic
          | .ret rest' si' stored err =>
            match err with
            | some e1 => .error e1
            | none => decodeLoop32 srcLen dstLen fuel rest' si' (out ++ stored)
      else decodeLoop srcLen dstLen rest.length rest si out
    | _ => decodeLoop srcLen dstLen rest.length rest si out

/-- The first loop of Go `Encoding.Decode`,
`for strconv.IntSize >= 64 && len(src)-si >= 8 && len(dst)-n >= 8`: eight
alphabet bytes are decoded at once with `assemble64` and `PutUint64` (eight bytes
stored, `n += 6`), anything else goes through `decodeQuantum`; when the
condition fails the second loop takes over. -/
def decodeLoop64 (intSize64 : Bool) (srcLen dstLen : Nat) :
    Nat → GoString → Nat → GoString → Outcome GoString
  | 0, rest, si, out => decodeLoop32 srcLen dstLen rest.length rest si out
  | fuel + 1, rest, si, out =>
    match rest with
    | a1 :: a2 :: a3 :: a4 :: a5 :: a6 :: a7 :: a8 :: rest8 =>
      if intSize64 = true ∧ dstLen - out.length ≥ 8 then
        match assemble64 (decodeMap a1) (decodeMap a2) (decodeMap a3) (decodeMap a4)
            (decodeMap a5) (decodeMap a6) (decodeMap a7) (decodeMap a8) with
        | some dn =>
          decodeLoop64 intSize64 srcLen dstLen fuel rest8 (si + 8)
            (out ++ (putUint64 dn).take 6)
        | none =>
          match decodeQuantum srcLen (dstLen - out.length)
              (a1 :: a2 :: a3 :: a4 :: a5 :: a6 :: a7 :: a8 :: rest8) si with
          | .panic => .panic
          | .ret rest' si' stored err =>
            match err with
            | some e1 => .error e1
            | none => decodeLoop64 intSize64 srcLen dstLen fuel rest' si' (out ++ stored)
      else decodeLoop32 srcLen dstLen rest.length rest si out
    | _ => decodeLoop32 srcLen dstLen rest.length rest si out

/-- Go `base64.StdEncoding.Decode(dst, src)` with its three loops, on a platform
whose `int` has 64 bits (`intSize64`) or 32 bits. -/
def DecodeFast (intSize64 : Bool) (dstLen : Nat) (src : GoString) : Outcome GoString :=
  if src.length = 0 then .ok []
  else decodeLoop64 intSize64 src.length dstLen src.length src 0 []

/-- A value of `decodeMap`: a 6-bit value or `0xff`. -/
def sixOrFF (x : Byte) : Prop := x.val < 64 ∨ x = 255

/-- The values, in enumeration order, of the event headers whose canonical name is `K`. -/
def valuesFor (K : GoString) (hs : GoMap GoString) : List GoString :=
  (hs.filter (fun e => decide (CanonicalMIMEHeaderKey e.1 = K))).map Prod.snd

/-- The canonical names of the headers of an event, in enumeration order. -/
def canonicalKeys (hs : GoMap GoString) : List GoString :=
  hs.map (fun e => CanonicalMIMEHeaderKey e.1)

/-- An event with two header names that differ only in letter case. -/
def collidingEvent : Request :=
  { emptyEvent with Headers := [(str "x-a", str "1"), (str "X-A", str "2")] }

/-- An event with the `Host` header in two letter cases. -/
def twoHostsEvent : Request :=
  { emptyEvent with Headers := [(str "Host", str "a"), (str "host", str "b")] }

/-- The same event with its header and query mappings enumerated as `hs` and `qs`. -/
def Request.reordered (r : Request) (hs qs : GoMap GoString) : Request :=
  { r with Headers := hs, QueryStringParameters := qs }

/-- Two requests with the same fields and the same header mapping. -/
def sameRequest {U : Type} (a b : HttpRequest U) : Prop :=
  a.Method = b.Method ∧ a.Proto = b.Proto ∧ a.ProtoMajor = b.ProtoMajor ∧
  a.ProtoMinor = b.ProtoMinor ∧ a.ContentLength = b.ContentLength ∧ a.Body = b.Body ∧
  a.RemoteAddr = b.RemoteAddr ∧ a.Host = b.Host ∧ a.RequestURI = b.RequestURI ∧
  a.URL = b.URL ∧ ∀ K, a.Header.get K = b.Header.get K

/-- Two outcomes of `httpRequest` that are the same error, or requests with the
same fields and the same header mapping. -/
def sameOutcome {U : Type} : Outcome (HttpRequest U) → Outcome (HttpRequest U) → Prop
  | .ok a, .ok b => sameRequest a b
  | .error e1, .error e2 => e1 = e2
  | .panic, .panic => True
  | _, _ => False

/-! ## Events with many query parameters -/

/-- The key of parameter number `i`: four letters `A` to `P`, the hexadecimal
digits of `i`. -/
def paramKey (i : Nat) : GoString :=
  [Fin.ofNat (65 + i / 4096 % 16), Fin.ofNat (65 + i / 256 % 16),
    Fin.ofNat (65 + i / 16 % 16), Fin.ofNat (65 + i % 16)]

/-- A mapping of `n` parameters with the keys `paramKey 0`, ..., `paramKey (n - 1)`
and empty values. -/
def manyParams (n : Nat) : GoMap GoString :=
  (List.range n).map (fun i => (paramKey i, []))

/-- The event with the path `/` and the query parameters `ps`. -/
def paramsEvent (ps : GoMap GoString) : Request :=
  { emptyEvent with Path := str "/", QueryStringParameters := ps }

/-- An event with 10001 query parameters. -/
def manyParamsEvent : Request := paramsEvent (manyParams 10001)

/-! ## encoding/json: Unmarshal into Request -/

/-- A JSON value: what a well-formed JSON text denotes.  A string holds its
decoded bytes, a number its literal text, an object its members in text order,
repeated keys included. -/
inductive Json where
  | null
  | bool (b : Bool)
  | number (text : GoString)
  | string (s : GoString)
  | array (items : List Json)
  | object (members : List (GoString × Json))

/-- The two kinds of error of `json.Unmarshal`: a `SyntaxError` for a text that is
not valid JSON, and an `UnmarshalTypeError` for a JSON value that cannot be
stored in a Go value of the type of its field. -/
inductive JSONError where
  | malformed
  | typeMismatch
  deriving DecidableEq

/-- The fold of an ASCII byte in Go `json.foldName`: a lower-case letter becomes
upper case, any other byte stays. -/
def foldByte (c : Byte) : Byte :=
  if 97 ≤ c && c ≤ 122 then c - 32 else c

/-- Go `json.foldName`: the name with every rune replaced by the smallest rune of
its case-folding class.  An ASCII lower-case letter becomes upper case.  Of the
runes outside ASCII exactly two fold into ASCII: U+017F (long s, the bytes
`C5 BF`) gives `S` and U+212A (Kelvin sign, the bytes `E2 84 AA`) gives `K`;
neither `C5` nor `E2` can continue another rune, so the two byte sequences are
those runes wherever they stand.  Every other rune outside ASCII, and every byte
that is not valid UTF-8, folds to a rune outside ASCII; the model keeps such a
byte, which is 0x80 or more, so that a name with one never equals the folded
name of a field. -/
def foldName : GoString → GoString
  | [] => []
  | [c] => [foldByte c]
  | [c, d] =>
    if c = 197 && d = 191 then [83]
    else foldByte c :: foldName [d]
  | c :: d :: e :: rest =>
    if c = 197 && d = 191 then 83 :: foldName (e :: rest)
    else if c = 226 && d = 132 && e = 170 then 75 :: foldName rest
    else foldByte c :: foldName (d :: e :: rest)

/-- The field that the member `key` of a JSON object is stored into, as Go
`decodeState.object` selects it from the `json` names of the struct: the field
of exactly that name, else the first field in declaration order whose folded
name is the folded key, else none (the member is skipped). -/
def findField (names : List GoString) (key : GoString) : Option GoString :=
  if key ∈ names then some key
  else names.find? (fun n => decide (foldName n = foldName key))

/-- Go `json` decoding into a field of type `string` (`literalStore`): a JSON
string is stored; a JSON null leaves the field as it is; any other value is an
`UnmarshalTypeError` (`true`) and leaves the field as it is. -/
def decodeStringField (old : GoString) : Json → GoString × Bool
  | .string s => (s, false)
  | .null => (old, false)
  | _ => (old, true)

/-- Go `json` decoding into a field of type `bool`: a JSON boolean is stored; a
JSON null leaves the field as it is; any other value is an
`UnmarshalTypeError`. -/
def decodeBoolField (old : Bool) : Json → Bool × Bool
  | .bool b => (b, false)
  | .null => (old, false)
  | _ => (old, true)

/-- Go `decodeState.object` on a `map[string]string`: for every member in text
order the value is decoded into a fresh empty string, which is then stored
under the key, also when the value was null or of the wrong type. -/
def decodeMembers : List (GoString × Json) → GoMap GoString → Bool → GoMap GoString × Bool
  | [], m, err => (m, err)
  | (k, v) :: rest, m, err =>
    decodeMembers rest (m.set k (decodeStringField [] v).1) (err || (decodeStringField [] v).2)

/-- Go `json` decoding into a field of type `map[string]string`: the members of a
JSON object are added to the map the field holds; a JSON null sets the field to
the nil map; any other value is an `UnmarshalTypeError`. -/
def decodeMapField (old : GoMap GoString) : Json → GoMap GoString × Bool
  | .object ms => decodeMembers ms old false
  | .null => ([], false)
  | _ => (old, true)

/-- The `json` names of the fields of source `RequestContext`, in declaration order. -/
def contextFields : List GoString :=
  [str "accountId", str "apiId", str "httpMethod", str "identity", str "requestId",
    str "resourceId", str "resourcePath", str "stage"]

/-- A JSON value decoded into the field of `RequestContext` with the `json` name
`name`, each field by its Go type. -/
def storeContextField (c : RequestContext) (name : GoString) (v : Json) :
    RequestContext × Bool :=
  if name = str "accountId" then
    ({ c with AccountID := (decodeStringField c.AccountID v).1 }, (decodeStringField c.AccountID v).2)
  else if name = str "apiId" then
    ({ c with ApiID := (decodeStringField c.ApiID v).1 }, (decodeStringField c.ApiID v).2)
  else if name = str "httpMethod" then
    ({ c with HTTPMethod := (decodeStringField c.HTTPMethod v).1 },
      (decodeStringField c.HTTPMethod v).2)
  else if name = str "identity" then
    ({ c with Identity := (decodeMapField c.Identity v).1 }, (decodeMapField c.Identity v).2)
  else if name = str "requestId" then
    ({ c with RequestID := (decodeStringField c.RequestID v).1 },
      (decodeStringField c.RequestID v).2)
  else if name = str "resourceId" then
    ({ c with ResourceID := (decodeStringField c.ResourceID v).1 },
      (decodeStringField c.ResourceID v).2)
  else if name = str "resourcePath" then
    ({ c with ResourcePath := (decodeStringField c.ResourcePath v).1 },
      (decodeStringField c.ResourcePath v).2)
  else if name = str "stage" then
    ({ c with Stage := (decodeStringField c.Stage v).1 }, (decodeStringField c.Stage v).2)
  else (c, false)

/-- One member of the `requestContext` object: stored into the field its key
selects, skipped when it selects none. -/
def setContextField (c : RequestContext) (k : GoString) (v : Json) : RequestContext × Bool :=
  match findField contextFields k with
  | some name => storeContextField c name v
  | none => (c, false)

/-- Go `decodeState.object` on a `RequestContext`: the members stored in text
order; after an `UnmarshalTypeError` decoding goes on and the error is kept. -/
def decodeContextMembers :
    List (GoString × Json) → RequestContext → Bool → RequestContext × Bool
  | [], c, err => (c, err)
  | (k, v) :: rest, c, err =>
    decodeContextMembers rest (setContextField c k v).1 (err || (setContextField c k v).2)

/-- Go `json` decoding into the field of type `RequestContext`: a JSON object
fills the struct; a JSON null leaves it as it is; any other value is an
`UnmarshalTypeError`. -/
def decodeContextField (old : RequestContext) : Json → RequestContext × Bool
  | .object ms => decodeContextMembers ms old false
  | .null => (old, false)
  | _ => (old, true)

/-- The `json` names of the fields of source `Request`, in declaration order. -/
def eventFields : List GoString :=
  [str "body", str "headers", str "httpMethod", str "path", str "pathParameters",
    str "queryStringParameters", str "resource", str "stageVariables", str "requestContext",
    str "isBase64Encoded"]

/-- A JSON value decoded into the field of `Request` with the `json` name `name`,
each field by its Go type. -/
def storeEventField (r : Request) (name : GoString) (v : Json) : Request × Bool :=
  if name = str "body" then
    ({ r with Body := (decodeStringField r.Body v).1 }, (decodeStringField r.Body v).2)
  else if name = str "headers" then
    ({ r with Headers := (decodeMapField r.Headers v).1 }, (decodeMapField r.Headers v).2)
  else if name = str "httpMethod" then
    ({ r with HTTPMethod := (decodeStringField r.HTTPMethod v).1 },
      (decodeStringField r.HTTPMethod v).2)
  else if name = str "path" then
    ({ r with Path := (decodeStringField r.Path v).1 }, (decodeStringField r.Path v).2)
  else if name = str "pathParameters" then
    ({ r with PathParameters := (decodeMapField r.PathParameters v).1 },
      (decodeMapField r.PathParameters v).2)
  else if name = str "queryStringParameters" then
    ({ r with QueryStringParameters := (decodeMapField r.QueryStringParameters v).1 },
      (decodeMapField r.QueryStringParameters v).2)
  else if name = str "resource" then
    ({ r with Resource := (decodeStringField r.Resource v).1 },
      (decodeStringField r.Resource v).2)
  else if name = str "stageVariables" then
    ({ r with StageVariables := (decodeMapField r.StageVariables v).1 },
      (decodeMapField r.StageVariables v).2)
  else if name = str "requestContext" then
    ({ r with RequestContext := (decodeContextField r.RequestContext v).1 },
      (decodeContextField r.RequestContext v).2)
  else if name = str "isBase64Encoded" then
    ({ r with IsBase64Encoded := (decodeBoolField r.IsBase64Encoded v).1 },
      (decodeBoolField r.IsBase64Encoded v).2)
  else (r, false)

/-- One member of the event object: stored into the field its key selects,
skipped when it selects none. -/
def setEventField (r : Request) (k : GoString) (v : Json) : Request × Bool :=
  match findField eventFields k with
  | some name => storeEventField r name v
  | none => (r, false)

/-- Go `decodeState.object` on a `Request`: the members stored in text order;
after an `UnmarshalTypeError` decoding goes on and the error is kept. -/
def decodeEventMembers : List (GoString × Json) → Request → Bool → Request × Bool
  | [], r, err => (r, err)
  | (k, v) :: rest, r, err =>
    decodeEventMembers rest (setEventField r k v).1 (err || (setEventField r k v).2)

/-- Go `json` decoding of a JSON value into a zero `Request`: an object fills the
fields its members select, a JSON null leaves the zero value, any other value is
an `UnmarshalTypeError`. -/
def decodeEvent : Json → Request × Bool
  | .object ms => decodeEventMembers ms emptyEvent false
  | .null => (emptyEvent, false)
  | _ => (emptyEvent, true)

/-- Go `json.Unmarshal(event, &r)` on a zero `r`: the text is first checked as a
whole, then decoded.  `parseJson` stands for the JSON grammar of the library:
the value a text denotes, `none` for a text that is not valid JSON.  The result
is `r` after the call and the error. -/
def Unmarshal (parseJson : GoString → Option Json) (event : GoString) :
    Request × Option JSONError :=
  match parseJson event with
  | none => (emptyEvent, some .malformed)
  | some j => ((decodeEvent j).1, if (decodeEvent j).2 then some .typeMismatch else none)

/-- The errors source `NewRequest` returns: the error of `json.Unmarshal`, or
the `base64.CorruptInputError` of `httpRequest`. -/
inductive RequestError where
  | unmarshal (e : JSONError)
  | corruptInput (e : CorruptInputError)
  deriving DecidableEq

/-- What a call with results `(*http.Request, error)` does: return the two
results, `none` being nil, or panic. -/
inductive Call (U : Type) where
  | returns (request : Option (HttpRequest U)) (err : Option RequestError)
  | panics

/-- The results of source `httpRequest` as the pair it returns: `nil, err` where
decoding fails, `&req, nil` at the end. -/
def Outcome.call {U : Type} : Outcome (HttpRequest U) → Call U
  | .ok req => .returns (some req) none
  | .error e => .returns none (some (.corruptInput e))
  | .panic => .panics

/-- Source `NewRequest`: `nil, err` when `json.Unmarshal` fails, the results of
`r.httpRequest()` otherwise. -/
def NewRequest {U : Type} (parseJson : GoString → Option Json)
    (urlParse : GoString → Option U) (event : GoString) : Call U :=
  match (Unmarshal parseJson event).2 with
  | some err => .returns none (some (.unmarshal err))
  | none => ((Unmarshal parseJson event).1.httpRequest urlParse).call

/-! ## The schema of the event, used to state the properties -/

/-- The JSON types of the fields of the Incoming Event schema. -/
inductive FieldType where
  | string
  | boolean
  | stringMap
  | context
  deriving DecidableEq

/-- The JSON type the schema gives the field `name` of `requestContext`:
`identity` is an object of strings, every other field a string. -/
def contextFieldType (name : GoString) : FieldType :=
  if name = str "identity" then .stringMap else .string

/-- The JSON type the schema gives the field `name` of the event. -/
def eventFieldType (name : GoString) : FieldType :=
  if name = str "headers" ∨ name = str "pathParameters" ∨
      name = str "queryStringParameters" ∨ name = str "stageVariables" then .stringMap
  else if name = str "requestContext" then .context
  else if name = str "isBase64Encoded" then .boolean
  else .string

/-- A JSON string. -/
def Json.isString : Json → Bool
  | .string _ => true
  | _ => false

/-- A JSON boolean. -/
def Json.isBool : Json → Bool
  | .bool _ => true
  | _ => false

/-- A JSON null. -/
def Json.isNull : Json → Bool
  | .null => true
  | _ => false

/-- A JSON object whose values are all strings. -/
def Json.isStringObject : Json → Bool
  | .object ms => ms.all (fun kv => kv.2.isString)
  | _ => false

/-- A JSON object whose values are strings or null, or a JSON null: the values a
field of type `map[string]string` takes without error. -/
def Json.isStringMap : Json → Bool
  | .object ms => ms.all (fun kv => kv.2.isString || kv.2.isNull)
  | .null => true
  | _ => false

/-- Whether a value has the JSON type the schema gives a field of
`requestContext`; null is not of any of these types. -/
def contextValueStrict (t : FieldType) (v : Json) : Bool :=
  match t with
  | .stringMap => v.isStringObject
  | _ => v.isString

/-- Whether a field of `requestContext` takes a value without error: a value of
the type of the field, or null (inside `identity` as well). -/
def contextValueOk (t : FieldType) (v : Json) : Bool :=
  match t with
  | .stringMap => v.isStringMap
  | _ => v.isString || v.isNull

/-- Whether a member of the `requestContext` object has the JSON type the schema
gives the field it selects; a member that selects no field has. -/
def contextMemberStrict (k : GoString) (v : Json) : Bool :=
  match findField contextFields k with
  | some name => contextValueStrict (contextFieldType name) v
  | none => true

/-- Whether a member of the `requestContext` object is stored without error. -/
def contextMemberOk (k : GoString) (v : Json) : Bool :=
  match findField contextFields k with
  | some name => contextValueOk (contextFieldType name) v
  | none => true

/-- A JSON object all of whose members that select a field of `requestContext`
have the JSON type the schema gives it. -/
def Json.isContextObject : Json → Bool
  | .object ms => ms.all (fun kv => contextMemberStrict kv.1 kv.2)
  | _ => false

/-- A JSON object all of whose members are stored into `requestContext` without
error, or a JSON null. -/
def Json.isContext : Json → Bool
  | .object ms => ms.all (fun kv => contextMemberOk kv.1 kv.2)
  | .null => true
  | _ => false

/-- Whether a value has the JSON type `t` of the schema; null is not of any of
these types. -/
def eventValueStrict (t : FieldType) (v : Json) : Bool :=
  match t with
  | .string => v.isString
  | .boolean => v.isBool
  | .stringMap => v.isStringObject
  | .context => v.isContextObject

/-- Whether a field of the event of type `t` takes a value without error: a
value of that type, or null in place of the value or of a string inside it. -/
def eventValueOk (t : FieldType) (v : Json) : Bool :=
  match t with
  | .string => v.isString || v.isNull
  | .boolean => v.isBool || v.isNull
  | .stringMap => v.isStringMap
  | .context => v.isContext

/-- Whether a member of the event object has the JSON type the schema gives the
field it selects; a member that selects no field has. -/
def eventMemberStrict (k : GoString) (v : Json) : Bool :=
  match findField eventFields k with
  | some name => eventValueStrict (eventFieldType name) v
  | none => true

/-- Whether a member of the event object is stored without error. -/
def eventMemberOk (k : GoString) (v : Json) : Bool :=
  match findField eventFields k with
  | some name => eventValueOk (eventFieldType name) v
  | none => true

/-- Whether a JSON value has the JSON types of the Incoming Event schema: an
object in which every member that selects a field has the type of the field,
string, boolean or object; a JSON null has none of these types. -/
def Json.hasSchemaTypes : Json → Bool
  | .object ms => ms.all (fun kv => eventMemberStrict kv.1 kv.2)
  | _ => false

/-- Whether a JSON value has the JSON types of the schema up to null: a JSON
null may stand for the whole value, for the value of any field, and for a
string inside a mapping. -/
def Json.hasSchemaTypesOrNull : Json → Bool
  | .object ms => ms.all (fun kv => eventMemberOk kv.1 kv.2)
  | .null => true
  | _ => false

/-- Whether no member of the object selects the field `name`. -/
def fieldAbsent (names : List GoString) (name : GoString) (ms : List (GoString × Json)) :
    Prop :=
  ∀ kv ∈ ms, findField names kv.1 ≠ some name

/-- The fields of `r` that no member of the object selects have their zero values. -/
def absentFieldsZero (ms : List (GoString × Json)) (r : Request) : Prop :=
  (fieldAbsent eventFields (str "body") ms → r.Body = []) ∧
  (fieldAbsent eventFields (str "headers") ms → r.Headers = []) ∧
  (fieldAbsent eventFields (str "httpMethod") ms → r.HTTPMethod = []) ∧
  (fieldAbsent eventFields (str "path") ms → r.Path = []) ∧
  (fieldAbsent eventFields (str "pathParameters") ms → r.PathParameters = []) ∧
  (fieldAbsent eventFields (str "queryStringParameters") ms → r.QueryStringParameters = []) ∧
  (fieldAbsent eventFields (str "resource") ms → r.Resource = []) ∧
  (fieldAbsent eventFields (str "stageVariables") ms → r.StageVariables = []) ∧
  (fieldAbsent eventFields (str "requestContext") ms → r.RequestContext = emptyContext) ∧
  (fieldAbsent eventFields (str "isBase64Encoded") ms → r.IsBase64Encoded = false)

/-- The JSON value of the event text of the concrete scenario of the specification. -/
def scenarioJson : Json :=
  .object
    [(str "body", .string (str "eyJhIjoxfQ==")), (str "isBase64Encoded", .bool true),
      (str "httpMethod", .string (str "POST")), (str "path", .string (str "/items")),
      (str "queryStringParameters", .object [(str "q", .string (str "1"))]),
      (str "headers", .object [(str "Host", .string (str "api.example.com")),
        (str "Content-Type", .string (str "application/json"))]),
      (str "requestContext",
        .object [(str "identity", .object [(str "sourceIp", .string (str "10.0.0.1"))])])]

/-- The JSON value of an object whose member `body` is the number 5. -/
def numberBodyJson : Json := .object [(str "body", .number (str "5"))]

/-- The JSON value of an object whose member `BODY`, in upper case, is the number 5. -/
def upperBodyJson : Json := .object [(str "BODY", .number (str "5"))]

/-- The JSON value of an object whose members `body` and `isBase64Encoded` are null. -/
def nullBodyJson : Json := .object [(str "body", .null), (str "isBase64Encoded", .null)]

/-- The request `NewRequest` returns for an event without any content. -/
def emptyRequest : HttpRequest Unit :=
  { Method := []
    Proto := str "HTTP/1.1"
    ProtoMajor := 1
    ProtoMinor := 1
    Header := []
    ContentLength := 0
    Body := []
    RemoteAddr := []
    Host := []
    RequestURI := []
    URL := none }

/-- The JSON grammar restricted to four texts. -/
def sampleGrammar (text : GoString) : Option Json :=
  if text = str "\x7b\x7d" then some (.object [])
  else if text = str "\x7b\"body\": 5\x7d" then some numberBodyJson
  else if text = str "\x7b\"BODY\": 5\x7d" then some upperBodyJson
  else if text = str "\x7b\"body\": null, \"isBase64Encoded\": null\x7d" then some nullBodyJson
  else none

/-! # Theorems -/

set_option maxRecDepth 100000

/-! ## Maps -/

theorem GoMap.get_set {β : Type} (m : GoMap β) (k k' : GoString) (v : β) :
    (m.set k v).get k' = if k = k' then some v else m.get k' := by
  induction m with
  | nil => simp [GoMap.set, GoMap.get]
  | cons e m ih =>
    obtain ⟨k0, v0⟩ := e
    by_cases h0 : k0 = k
    · subst h0
      by_cases h1 : k0 = k' <;> simp [GoMap.set, GoMap.get, h1]
    · by_cases h1 : k0 = k'
      · subst h1
        have : ¬ k = k0 := fun h => h0 h.symm
        simp [GoMap.set, GoMap.get, h0, this]
      · simp [GoMap.set, GoMap.get, h0, h1, ih]

theorem GoMap.get_delete {β : Type} (m : GoMap β) (k k' : GoString) :
    (m.delete k).get k' = if k = k' then none else m.get k' := by
  induction m with
  | nil => simp [GoMap.delete, GoMap.get]
  | cons e m ih =>
    obtain ⟨k0, v0⟩ := e
    simp only [GoMap.delete, ne_eq, decide_not] at ih ⊢
    by_cases h0 : k0 = k
    · subst h0
      by_cases h1 : k0 = k'
      · subst h1; simpa [List.filter_cons] using ih
      · simpa [List.filter_cons, GoMap.get, h1] using ih
    · by_cases h1 : k0 = k'
      · subst h1
        have : ¬ k = k0 := fun h => h0 h.symm
        simp [List.filter_cons, GoMap.get, h0, this]
      · simp [List.filter_cons, GoMap.get, h0, h1, ih]

theorem GoMap.get_eq_none_iff {β : Type} (m : GoMap β) (k : GoString) :
    m.get k = none ↔ k ∉ m.keys := by
  induction m with
  | nil => simp [GoMap.get, GoMap.keys]
  | cons e m ih =>
    obtain ⟨k0, v0⟩ := e
    by_cases h0 : k0 = k
    · simp [GoMap.get, GoMap.keys, h0]
    · have : ¬ k = k0 := fun h => h0 h.symm
      simp only [GoMap.keys] at ih
      simp [GoMap.get, GoMap.keys, h0, this, ih]

theorem GoMap.keys_set {β : Type} (m : GoMap β) (k : GoString) (v : β) :
    (m.set k v).keys = if k ∈ m.keys then m.keys else m.keys ++ [k] := by
  induction m with
  | nil => simp [GoMap.set, GoMap.keys]
  | cons e m ih =>
    obtain ⟨k0, v0⟩ := e
    simp only [GoMap.keys] at ih
    by_cases h0 : k0 = k
    · simp [GoMap.set, GoMap.keys, h0]
    · have : ¬ k = k0 := fun h => h0 h.symm
      by_cases h1 : k ∈ List.map Prod.fst m <;> simp [GoMap.set, GoMap.keys, h0, this, ih, h1]

theorem GoMap.wf_set {β : Type} (m : GoMap β) (k : GoString) (v : β) (h : m.WF) :
    (m.set k v).WF := by
  unfold GoMap.WF at h ⊢
  rw [GoMap.keys_set]
  split
  · exact h
  · rename_i hk
    exact List.Nodup.append h (by simp) (by simpa using hk)

/-! ## The header loop of Response -/

theorem foldl_collect_get (header : Header) (keys : List GoString) (acc : GoMap GoString)
    (k : GoString) :
    (keys.foldl (fun h key => h.set key (header.Get key)) acc).get k =
      if k ∈ keys then some (header.Get k) else acc.get k := by
  induction keys generalizing acc with
  | nil => simp
  | cons key keys ih =>
    simp only [List.foldl_cons, ih, GoMap.get_set, List.mem_cons]
    by_cases h1 : k ∈ keys
    · simp [h1]
    · by_cases h2 : key = k
      · subst h2; simp
      · have : ¬ k = key := fun h => h2 h.symm
        simp [h1, h2, this]

theorem collectHeaders_get (header : Header) (keys : List GoString) (k : GoString) :
    (collectHeaders header keys).get k = if k ∈ keys then some (header.Get k) else none := by
  unfold collectHeaders
  rw [foldl_collect_get]
  simp [GoMap.get]

/-! ## Canonical header keys -/

/-- One step of the case-mapping loop. -/
theorem canon_byte_facts : ∀ (u : Bool) (c : Byte),
    let c' : Byte := if u && (97 ≤ c && c ≤ 122) then c - 32
      else if !u && (65 ≤ c && c ≤ 90) then c + 32 else c
    validHeaderFieldByte c' = validHeaderFieldByte c ∧
    (if u && (97 ≤ c' && c' ≤ 122) then c' - 32
      else if !u && (65 ≤ c' && c' ≤ 90) then c' + 32 else c') = c' ∧
    toLowerByte c' = toLowerByte c := by
  decide

theorem canonLoop_all_valid (u : Bool) (s : GoString) :
    (canonLoop u s).all validHeaderFieldByte = s.all validHeaderFieldByte := by
  induction s generalizing u with
  | nil => simp [canonLoop]
  | cons c s ih =>
    have h := (canon_byte_facts u c).1
    simp only [canonLoop, List.all_cons, ih]
    simp only at h
    rw [h]

theorem canonLoop_idem (u : Bool) (s : GoString) :
    canonLoop u (canonLoop u s) = canonLoop u s := by
  induction s generalizing u with
  | nil => simp [canonLoop]
  | cons c s ih =>
    have h := (canon_byte_facts u c).2.1
    simp only at h
    simp only [canonLoop]
    rw [h, ih]

theorem canonLoop_lower (u : Bool) (s : GoString) :
    (canonLoop u s).map toLowerByte = s.map toLowerByte := by
  induction s generalizing u with
  | nil => simp [canonLoop]
  | cons c s ih =>
    have h := (canon_byte_facts u c).2.2
    simp only at h
    simp only [canonLoop, List.map_cons, ih, h]

theorem canonical_idem (s : GoString) :
    CanonicalMIMEHeaderKey (CanonicalMIMEHeaderKey s) = CanonicalMIMEHeaderKey s := by
  unfold CanonicalMIMEHeaderKey
  by_cases h : s.all validHeaderFieldByte = true
  · simp only [h, if_true, canonLoop_all_valid, canonLoop_idem]
  · simp [h]

theorem canonical_lower (s : GoString) :
    (CanonicalMIMEHeaderKey s).map toLowerByte = s.map toLowerByte := by
  unfold CanonicalMIMEHeaderKey
  split
  · exact canonLoop_lower true s
  · rfl

theorem toLower_host_bytes : ∀ c : Byte,
    (toLowerByte c = 104 → c = 72 ∨ c = 104) ∧ (toLowerByte c = 111 → c = 79 ∨ c = 111) ∧
    (toLowerByte c = 115 → c = 83 ∨ c = 115) ∧ (toLowerByte c = 116 → c = 84 ∨ c = 116) := by
  decide

theorem canonical_eq_host_iff (k : GoString) :
    CanonicalMIMEHeaderKey k = str "Host" ↔ isHostName k = true := by
  constructor
  · intro h
    have h2 := canonical_lower k
    rw [h] at h2
    simp only [isHostName, decide_eq_true_eq]
    rw [← h2]
    decide
  · intro h
    simp only [isHostName, decide_eq_true_eq] at h
    have hs : str "host" = [104, 111, 115, 116] := by decide
    rw [hs] at h
    have hl : k.length = 4 := by
      have := congrArg List.length h
      simpa using this
    obtain ⟨a, b, c, d, rfl⟩ : ∃ a b c d, k = [a, b, c, d] := by
      rcases k with _ | ⟨a, _ | ⟨b, _ | ⟨c, _ | ⟨d, _ | ⟨e, r⟩⟩⟩⟩⟩ <;> simp at hl
      exact ⟨_, _, _, _, rfl⟩
    simp only [List.map_cons, List.map_nil, List.cons.injEq, and_true] at h
    obtain ⟨ha, hb, hc, hd⟩ := h
    rcases (toLower_host_bytes a).1 ha with rfl | rfl <;>
    rcases (toLower_host_bytes b).2.1 hb with rfl | rfl <;>
    rcases (toLower_host_bytes c).2.2.1 hc with rfl | rfl <;>
    rcases (toLower_host_bytes d).2.2.2 hd with rfl | rfl <;> decide

/-! ## Response capture -/

theorem run_cons (w : ResponseWriter) (op : Op) (ops : List Op) :
    w.run (op :: ops) = (w.step op).run ops := rfl

theorem run_statusCode (ops : List Op) (w : ResponseWriter)
    (h : ∀ op ∈ ops, op.isWriteHeader = false) : (w.run ops).statusCode = w.statusCode := by
  induction ops generalizing w with
  | nil => rfl
  | cons op ops ih =>
    rw [run_cons, ih _ (fun o ho => h o (List.mem_cons_of_mem _ ho))]
    have := h op (List.mem_cons_self _ _)
    cases op <;> first | rfl | simp [Op.isWriteHeader] at this

theorem header_get_add (h : Header) (k v : GoString) :
    (h.Add k v).get (CanonicalMIMEHeaderKey k) =
      some ((h.get (CanonicalMIMEHeaderKey k)).getD [] ++ [v]) := by
  simp [Header.Add, GoMap.get_set]

theorem run_adds_get (vs : List GoString) (w : ResponseWriter) (k : GoString) (old : List GoString)
    (h : (w.header.get (CanonicalMIMEHeaderKey k)).getD [] = old) (hvs : vs ≠ []) :
    ((w.run (vs.map (Op.headerAdd k))).header.get (CanonicalMIMEHeaderKey k)) =
      some (old ++ vs) := by
  induction vs generalizing w old with
  | nil => exact absurd rfl hvs
  | cons v vs ih =>
    simp only [List.map_cons, run_cons]
    have h1 : ((w.step (Op.headerAdd k v)).header.get (CanonicalMIMEHeaderKey k)) =
        some (old ++ [v]) := by
      simp only [ResponseWriter.step, ResponseWriter.Header, header_get_add, h]
    by_cases hv : vs = []
    · subst hv
      simpa [ResponseWriter.run] using h1
    · rw [ih _ (old ++ [v]) (by rw [h1]; rfl) hv]
      simp

theorem response_get (w : ResponseWriter) (k : GoString) :
    w.Response.2.Headers.get k = if k ∈ w.header.keys then some (w.header.Get k) else none := by
  simp [ResponseWriter.Response, ResponseWriter.ResponseIn, collectHeaders_get]

/-- Claim C7: for every canonical header name `k`, value `v`, status `c` and
bytes `b`: on a fresh writer, setting header `k` to `v` (with `Set`, with `Add`
or by direct assignment), then `WriteHeader(c)`, then writing `b`, and then
`Response()`, gives exactly the envelope with status `c`, the single header
`k: v` and body `b`. -/
theorem response_roundtrip (k v : GoString) (c : Int) (b : GoString)
    (hk : CanonicalMIMEHeaderKey k = k) :
    (NewResponseWriter.run [.headerSet k v, .writeHeader c, .write b]).Response.2 =
        { StatusCode := c, Headers := [(k, v)], Body := b } ∧
    (NewResponseWriter.run [.headerAdd k v, .writeHeader c, .write b]).Response.2 =
        { StatusCode := c, Headers := [(k, v)], Body := b } ∧
    (NewResponseWriter.run [.headerAssign k [v], .writeHeader c, .write b]).Response.2 =
        { StatusCode := c, Headers := [(k, v)], Body := b } := by
  simp [ResponseWriter.run, ResponseWriter.step, NewResponseWriter, ResponseWriter.Header,
    Header.Set, Header.Add, ResponseWriter.WriteHeader, ResponseWriter.Write,
    ResponseWriter.Response, ResponseWriter.ResponseIn, collectHeaders, GoMap.keys, GoMap.set,
    GoMap.get, Header.Get, hk]

theorem response_roundtrip_witness :
    CanonicalMIMEHeaderKey (str "X-Test") = str "X-Test" ∧
    (NewResponseWriter.run
        [.headerSet (str "X-Test") (str "a"), .writeHeader 201, .write (str "hello")]).Response.2 =
      { StatusCode := 201, Headers := [(str "X-Test", str "a")], Body := str "hello" } :=
  ⟨by decide, (response_roundtrip (str "X-Test") (str "a") 201 (str "hello") (by decide)).1⟩

/-- Claim C8 as stated fails: after `Add("X-A", "1")` and `Add("X-A", "2")` on a
fresh writer, `Response()` exports `1` for `X-A`, not the last-written `2`. -/
theorem response_last_value_counterexample :
    ¬ ∀ (k v1 v2 : GoString),
      (NewResponseWriter.run [.headerAdd k v1, .headerAdd k v2]).Response.2.Headers.get
        (CanonicalMIMEHeaderKey k) = some v2 := by
  intro h
  exact absurd (h (str "X-A") (str "1") (str "2")) (by decide)

/-- Claim C8, amended: for every header name given the values `v1, ..., vn` by
successive `Add` calls on a writer whose header map held no value for that name,
the map then holds the list `v1, ..., vn` under the canonical name and the single
string that `Response()` exports for it is the first-written value `v1`. -/
theorem response_exports_first_value (w : ResponseWriter) (k v1 : GoString)
    (vs : List GoString) (h : w.header.get (CanonicalMIMEHeaderKey k) = none) :
    ((w.run ((v1 :: vs).map (Op.headerAdd k))).header.get (CanonicalMIMEHeaderKey k)) =
        some (v1 :: vs) ∧
    (w.run ((v1 :: vs).map (Op.headerAdd k))).Response.2.Headers.get
        (CanonicalMIMEHeaderKey k) = some v1 := by
  have h1 := run_adds_get (v1 :: vs) w k [] (by rw [h]; rfl) (by simp)
  simp only [List.nil_append] at h1
  refine ⟨h1, ?_⟩
  rw [response_get]
  have hmem : CanonicalMIMEHeaderKey k ∈ (w.run ((v1 :: vs).map (Op.headerAdd k))).header.keys := by
    by_contra hc
    rw [← GoMap.get_eq_none_iff, h1] at hc
    exact absurd hc (by simp)
  simp only [hmem, if_true, Header.Get, canonical_idem, h1]

theorem response_exports_first_value_witness :
    (NewResponseWriter.header.get (CanonicalMIMEHeaderKey (str "x-a")) = none) ∧
    (NewResponseWriter.run ([str "1", str "2", str "3"].map (Op.headerAdd (str "x-a")))).Response.2.Headers.get
        (CanonicalMIMEHeaderKey (str "x-a")) = some (str "1") :=
  ⟨by decide, (response_exports_first_value NewResponseWriter (str "x-a") (str "1")
    [str "2", str "3"] (by decide)).2⟩

/-- Claim C9: for every writer state, `Response()` is read-only and idempotent:
it returns the writer unchanged, and two consecutive calls, whatever the orders
`keys1` and `keys2` in which they enumerate the header map, return the same
status code, the same body and the same headers mapping. -/
theorem response_read_only_idempotent (w : ResponseWriter) (keys1 keys2 : List GoString)
    (h1 : keys1.Perm w.header.keys) (h2 : keys2.Perm w.header.keys) :
    (w.ResponseIn keys1).1 = w ∧
    ((w.ResponseIn keys1).1.ResponseIn keys2).1 = w ∧
    ((w.ResponseIn keys1).1.ResponseIn keys2).2.StatusCode = (w.ResponseIn keys1).2.StatusCode ∧
    ((w.ResponseIn keys1).1.ResponseIn keys2).2.Body = (w.ResponseIn keys1).2.Body ∧
    (∀ k, ((w.ResponseIn keys1).1.ResponseIn keys2).2.Headers.get k =
      (w.ResponseIn keys1).2.Headers.get k) ∧
    w.Response.1.Response.2 = w.Response.2 := by
  refine ⟨rfl, rfl, rfl, rfl, ?_, rfl⟩
  intro k
  simp only [ResponseWriter.ResponseIn, collectHeaders_get, h1.mem_iff, h2.mem_iff]

theorem response_read_only_idempotent_witness :
    let w := NewResponseWriter.run [.headerAdd (str "A") (str "1"), .headerAdd (str "B") (str "2")]
    [str "A", str "B"].Perm w.header.keys ∧ [str "B", str "A"].Perm w.header.keys ∧
    ∀ k, ((w.ResponseIn [str "A", str "B"]).1.ResponseIn [str "B", str "A"]).2.Headers.get k =
      (w.ResponseIn [str "A", str "B"]).2.Headers.get k :=
  ⟨by decide, by decide,
    (response_read_only_idempotent _ [str "A", str "B"] [str "B", str "A"]
      (by decide) (by decide)).2.2.2.2.1⟩

/-- Claim C10: for every sequence of header mutations and body writes applied
to a fresh writer that contains no `WriteHeader` call, `Response()` returns
status 200; and a fresh writer exports status 200, no headers and an empty body. -/
theorem response_default_status (ops : List Op) (h : ∀ op ∈ ops, op.isWriteHeader = false) :
    (NewResponseWriter.run ops).Response.2.StatusCode = 200 ∧
    NewResponseWriter.Response.2 = { StatusCode := 200, Headers := [], Body := [] } := by
  refine ⟨?_, rfl⟩
  show (NewResponseWriter.run ops).statusCode = 200
  rw [run_statusCode ops _ h]; rfl

theorem response_default_status_witness :
    (∀ op ∈ [Op.headerAdd (str "A") (str "1"), Op.write (str "x"), Op.headerDel (str "A")],
      op.isWriteHeader = false) ∧
    (NewResponseWriter.run [Op.headerAdd (str "A") (str "1"), Op.write (str "x"),
      Op.headerDel (str "A")]).Response.2.StatusCode = 200 :=
  ⟨by decide, (response_default_status _ (by decide)).1⟩

/-! ## The request decoder: fields of a returned request -/

theorem httpRequest_fields {U : Type} (urlParse : GoString → Option U) (r : Request)
    (req : HttpRequest U) (h : r.httpRequest urlParse = .ok req) :
    req.Method = r.HTTPMethod ∧ req.Proto = str "HTTP/1.1" ∧ req.ProtoMajor = 1 ∧
    req.ProtoMinor = 1 ∧ req.Header = (builtHeader r).Del (str "Host") ∧
    req.Host = (builtHeader r).Get (str "Host") ∧ req.RequestURI = builtURI r ∧
    req.URL = urlParse (builtURI r) ∧
    req.RemoteAddr = (r.RequestContext.Identity.get (str "sourceIp")).getD [] ∧
    req.ContentLength = req.Body.length := by
  unfold Request.httpRequest at h
  by_cases hb : r.IsBase64Encoded = true
  · simp only [hb, if_true] at h
    split at h
    · injection h with h
      subst h
      simp [builtHeader, builtURI]
    · exact absurd h (by simp)
    · exact absurd h (by simp)
  · simp only [hb] at h
    injection h with h
    subst h
    simp [builtHeader, builtURI]

theorem httpRequest_plain {U : Type} (urlParse : GoString → Option U) (r : Request)
    (hb : r.IsBase64Encoded = false) :
    ∃ req, r.httpRequest urlParse = .ok req ∧ req.Body = r.Body := by
  unfold Request.httpRequest
  simp [hb]

/-! ## The header loop of httpRequest -/

theorem addHeaders_cons (e : GoString × GoString) (hs : GoMap GoString) (h : Header) :
    addHeaders (e :: hs) h = addHeaders hs (h.Add e.1 e.2) := rfl

/-- Every key of the built header map is the canonical form of an event key. -/
theorem addHeaders_keys (hs : GoMap GoString) (h : Header) (k : GoString)
    (hk : k ∈ (addHeaders hs h).keys) :
    k ∈ h.keys ∨ ∃ e ∈ hs, k = CanonicalMIMEHeaderKey e.1 := by
  induction hs generalizing h with
  | nil => exact Or.inl hk
  | cons e hs ih =>
    rw [addHeaders_cons] at hk
    rcases ih _ hk with h1 | ⟨e', he', h2⟩
    · simp only [Header.Add, GoMap.keys_set] at h1
      split at h1
      · exact Or.inl h1
      · rcases List.mem_append.1 h1 with h3 | h3
        · exact Or.inl h3
        · exact Or.inr ⟨e, List.mem_cons_self _ _, by simpa using h3⟩
    · exact Or.inr ⟨e', List.mem_cons_of_mem _ he', h2⟩

/-- The first value stored under `Host` comes from the first event entry whose
name is `Host` in some letter case. -/
theorem addHeaders_get_host (hs : GoMap GoString) (h : Header) :
    (addHeaders hs h).Get (str "Host") =
      match h.get (str "Host") with
      | some (v :: _) => v
      | _ => hostValue hs := by
  induction hs generalizing h with
  | nil =>
    simp only [addHeaders, List.foldl_nil, Header.Get, hostValue, List.find?_nil]
    have : CanonicalMIMEHeaderKey (str "Host") = str "Host" := by decide
    rw [this]
  | cons e hs ih =>
    rw [addHeaders_cons, ih]
    by_cases hk : isHostName e.1 = true
    · have hc := (canonical_eq_host_iff e.1).2 hk
      have hg : (h.Add e.1 e.2).get (str "Host") =
          some ((h.get (str "Host")).getD [] ++ [e.2]) := by
        have := header_get_add h e.1 e.2
        rwa [hc] at this
      rw [hg]
      simp only [hostValue, List.find?_cons, hk]
      rcases h.get (str "Host") with _ | ⟨_ | _⟩ <;> rfl
    · have hc : ¬ CanonicalMIMEHeaderKey e.1 = str "Host" :=
        fun hc => hk ((canonical_eq_host_iff e.1).1 hc)
      have hg : (h.Add e.1 e.2).get (str "Host") = h.get (str "Host") := by
        simp [Header.Add, GoMap.get_set, hc]
      rw [hg]
      simp only [hostValue, List.find?_cons, hk]

theorem builtHeader_host (r : Request) :
    (builtHeader r).Get (str "Host") = hostValue r.Headers := by
  unfold builtHeader
  rw [addHeaders_get_host]
  rfl

theorem GoMap.keys_delete {β : Type} (m : GoMap β) (k k' : GoString) :
    k' ∈ (m.delete k).keys ↔ k' ∈ m.keys ∧ k' ≠ k := by
  simp only [GoMap.keys, GoMap.delete, List.mem_map, List.mem_filter]
  constructor
  · rintro ⟨e, ⟨he, hne⟩, rfl⟩
    exact ⟨⟨e, he, rfl⟩, by simpa using hne⟩
  · rintro ⟨⟨e, he, rfl⟩, hne⟩
    exact ⟨e, ⟨he, by simpa using hne⟩, rfl⟩

/-- No key of the header map of a returned request is `Host` in any letter case. -/
theorem builtHeader_no_host (r : Request) (k : GoString) (hk : isHostName k = true) :
    k ∉ ((builtHeader r).Del (str "Host")).keys := by
  intro hmem
  have hc : CanonicalMIMEHeaderKey (str "Host") = str "Host" := by decide
  simp only [Header.Del, hc, GoMap.keys_delete] at hmem
  obtain ⟨h1, h2⟩ := hmem
  rcases addHeaders_keys _ _ _ h1 with h3 | ⟨e, _, h3⟩
  · simp [GoMap.keys] at h3
  · apply h2
    rw [h3]
    apply (canonical_eq_host_iff e.1).2
    simp only [isHostName, decide_eq_true_eq] at hk ⊢
    rw [← canonical_lower e.1, ← h3, hk]

/-- Claim C1: for every event with `isBase64Encoded = false`, `httpRequest`
returns a request and no error, the body of the request is exactly the bytes of
the event's `body`, and `ContentLength` is the number of those bytes. -/
theorem plain_body_passthrough {U : Type} (urlParse : GoString → Option U) (r : Request)
    (hb : r.IsBase64Encoded = false) :
    ∃ req, r.httpRequest urlParse = .ok req ∧ req.Body = r.Body ∧
      req.ContentLength = r.Body.length := by
  obtain ⟨req, h1, h2⟩ := httpRequest_plain urlParse r hb
  refine ⟨req, h1, h2, ?_⟩
  have := (httpRequest_fields urlParse r req h1).2.2.2.2.2.2.2.2.2
  rw [this, h2]

theorem hostValue_none (hs : GoMap GoString) (h : ∀ e ∈ hs, isHostName e.1 = false) :
    hostValue hs = [] := by
  unfold hostValue
  have : hs.find? (fun e => isHostName e.1) = none := by
    rw [List.find?_eq_none]
    intro e he
    simp [h e he]
  rw [this]

theorem hostValue_unique (hs : GoMap GoString) (e : GoString × GoString) (he : e ∈ hs)
    (hk : isHostName e.1 = true)
    (hu : ∀ e' ∈ hs, isHostName e'.1 = true → e' = e) : hostValue hs = e.2 := by
  unfold hostValue
  cases hf : hs.find? (fun e => isHostName e.1) with
  | none =>
    rw [List.find?_eq_none] at hf
    exact absurd hk (by simpa using hf e he)
  | some e' =>
    have h1 := List.find?_some hf
    have h2 := List.mem_of_find?_eq_some hf
    rw [hu e' h2 (by simpa using h1)]

/-- Claim C4: for every event for which `httpRequest` returns a request, the
header map of the request has no entry whose name is `Host` in any letter case
(neither as a stored key nor through `Header.Get`), and the `Host` field is the
value the event supplied for that header: the value of the first such entry in
enumeration order, hence the value of the only such entry when there is one, and
the empty string when there is none. -/
theorem host_moved_to_field {U : Type} (urlParse : GoString → Option U) (r : Request)
    (req : HttpRequest U) (h : r.httpRequest urlParse = .ok req) :
    (∀ k, isHostName k = true → k ∉ req.Header.keys ∧ req.Header.get k = none ∧
      req.Header.Get k = []) ∧
    req.Host = hostValue r.Headers ∧
    ((∀ e ∈ r.Headers, isHostName e.1 = false) → req.Host = []) ∧
    (∀ e ∈ r.Headers, isHostName e.1 = true →
      (∀ e' ∈ r.Headers, isHostName e'.1 = true → e' = e) → req.Host = e.2) := by
  obtain ⟨-, -, -, -, hH, hHost, -⟩ := httpRequest_fields urlParse r req h
  have hv : req.Host = hostValue r.Headers := by rw [hHost, builtHeader_host]
  refine ⟨?_, hv, fun hn => by rw [hv, hostValue_none _ hn],
    fun e he hk hu => by rw [hv, hostValue_unique _ e he hk hu]⟩
  intro k hk
  have h1 : k ∉ req.Header.keys := by rw [hH]; exact builtHeader_no_host r k hk
  have h2 : str "Host" ∉ req.Header.keys := by
    rw [hH]; exact builtHeader_no_host r _ (by decide)
  refine ⟨h1, (GoMap.get_eq_none_iff _ _).2 h1, ?_⟩
  simp only [Header.Get, (canonical_eq_host_iff k).2 hk, (GoMap.get_eq_none_iff _ _).2 h2]

/-! ## net/url: escaping round trip -/

theorem hex_digits : ∀ c : Byte, ishex (hexHigh c) = true ∧ ishex (hexLow c) = true ∧
    (unhex (hexHigh c) <<< 4 ||| unhex (hexLow c)) = c := by
  decide

theorem shouldEscape_false : ∀ c : Byte, shouldEscape c = false →
    c ≠ 37 ∧ c ≠ 43 ∧ c ≠ 38 ∧ c ≠ 61 ∧ c ≠ 59 := by
  decide

theorem ishex_clean : ∀ c : Byte, ishex c = true → c ≠ 38 ∧ c ≠ 61 ∧ c ≠ 59 := by
  decide

theorem escapeByte_shape (c : Byte) :
    (c = 32 ∧ escapeByte c = [43]) ∨ escapeByte c = [37, hexHigh c, hexLow c] ∨
    (escapeByte c = [c] ∧ c ≠ 37 ∧ c ≠ 43 ∧ c ≠ 38 ∧ c ≠ 61 ∧ c ≠ 59) := by
  unfold escapeByte
  by_cases h1 : c = 32
  · exact Or.inl ⟨h1, by simp [h1]⟩
  · by_cases h2 : shouldEscape c = true
    · exact Or.inr (Or.inl (by simp [h1, h2]))
    · exact Or.inr (Or.inr ⟨by simp [h1, h2], shouldEscape_false c (by simpa using h2)⟩)

theorem escapeByte_clean (c x : Byte) (hx : x ∈ escapeByte c) : x ≠ 38 ∧ x ≠ 61 ∧ x ≠ 59 := by
  rcases escapeByte_shape c with ⟨_, h⟩ | h | ⟨h, _, _, h3⟩
  · rw [h] at hx
    simp only [List.mem_singleton] at hx
    subst hx; decide
  · rw [h] at hx
    simp only [List.mem_cons, List.mem_singleton, List.not_mem_nil, or_false] at hx
    rcases hx with rfl | rfl | rfl
    · decide
    · exact ishex_clean _ (hex_digits c).1
    · exact ishex_clean _ (hex_digits c).2.1
  · rw [h] at hx
    simp only [List.mem_singleton] at hx
    subst hx; exact h3

theorem unescapeScan_cons (c : Byte) (rest : GoString) (h : c ≠ 37) :
    unescapeScan (c :: rest) = unescapeScan rest := by
  rcases rest with _ | ⟨a, _ | ⟨b, rest'⟩⟩ <;> simp [unescapeScan, h]

theorem unescapeScan_hex (a b : Byte) (rest : GoString) (ha : ishex a = true)
    (hb : ishex b = true) : unescapeScan (37 :: a :: b :: rest) = unescapeScan rest := by
  rw [unescapeScan]; simp [ha, hb]

theorem unescapeBuild_cons (c : Byte) (rest : GoString) (h : c ≠ 37) :
    unescapeBuild (c :: rest) = (if c = 43 then 32 else c) :: unescapeBuild rest := by
  rcases rest with _ | ⟨a, _ | ⟨b, rest'⟩⟩ <;> simp only [unescapeBuild, h, if_false] <;>
    split <;> rfl

theorem unescapeBuild_hex (a b : Byte) (rest : GoString) :
    unescapeBuild (37 :: a :: b :: rest) = (unhex a <<< 4 ||| unhex b) :: unescapeBuild rest := by
  rw [unescapeBuild]; simp

theorem queryEscape_clean (s : GoString) : ∀ x ∈ QueryEscape s, x ≠ 38 ∧ x ≠ 61 ∧ x ≠ 59 := by
  induction s with
  | nil => simp [QueryEscape]
  | cons c s ih =>
    intro x hx
    simp only [QueryEscape, List.mem_append] at hx
    rcases hx with hx | hx
    · exact escapeByte_clean c x hx
    · exact ih x hx

theorem unescapeScan_escape (s : GoString) : unescapeScan (QueryEscape s) = none := by
  induction s with
  | nil => rfl
  | cons c s ih =>
    simp only [QueryEscape]
    rcases escapeByte_shape c with ⟨_, h⟩ | h | ⟨h, h1, _⟩
    · rw [h, List.singleton_append, unescapeScan_cons _ _ (by decide), ih]
    · rw [h]
      simp only [List.cons_append, List.nil_append]
      rw [unescapeScan_hex _ _ _ (hex_digits c).1 (hex_digits c).2.1, ih]
    · rw [h, List.singleton_append, unescapeScan_cons _ _ h1, ih]

theorem unescapeBuild_escape (s : GoString) : unescapeBuild (QueryEscape s) = s := by
  induction s with
  | nil => rfl
  | cons c s ih =>
    simp only [QueryEscape]
    rcases escapeByte_shape c with ⟨hc, h⟩ | h | ⟨h, h1, h2, _⟩
    · rw [h, hc, List.singleton_append, unescapeBuild_cons _ _ (by decide), ih]; rfl
    · rw [h]
      simp only [List.cons_append, List.nil_append]
      rw [unescapeBuild_hex, (hex_digits c).2.2, ih]
    · rw [h, List.singleton_append, unescapeBuild_cons _ _ h1, ih, if_neg h2]

theorem queryUnescape_escape (s : GoString) : QueryUnescape (QueryEscape s) = .ok s := by
  simp [QueryUnescape, unescapeScan_escape, unescapeBuild_escape]

/-! ## strings.Cut -/

theorem cut_not_mem (sep : Byte) (s : GoString) (h : sep ∉ s) : cut sep s = (s, [], false) := by
  induction s with
  | nil => rfl
  | cons c s ih =>
    have h1 : ¬ c = sep := fun e => h (by simp [e])
    have h2 : sep ∉ s := fun e => h (List.mem_cons_of_mem _ e)
    simp [cut, h1, ih h2]

theorem cut_append (sep : Byte) (s rest : GoString) (h : sep ∉ s) :
    cut sep (s ++ sep :: rest) = (s, rest, true) := by
  induction s with
  | nil => simp [cut]
  | cons c s ih =>
    have h1 : ¬ c = sep := fun e => h (by simp [e])
    have h2 : sep ∉ s := fun e => h (List.mem_cons_of_mem _ e)
    simp [cut, h1, ih h2]

/-! ## Segments -/

theorem segment_ne_nil (p : GoString × GoString) : segment p ≠ [] := by
  simp [segment]

theorem segment_no_amp (p : GoString × GoString) : (38 : Byte) ∉ segment p := by
  intro h
  simp only [segment, List.mem_append, List.mem_cons] at h
  rcases h with h | h | h
  · exact (queryEscape_clean _ _ h).1 rfl
  · exact absurd h (by decide)
  · exact (queryEscape_clean _ _ h).1 rfl

theorem segment_no_semicolon (p : GoString × GoString) : (59 : Byte) ∉ segment p := by
  intro h
  simp only [segment, List.mem_append, List.mem_cons] at h
  rcases h with h | h | h
  · exact (queryEscape_clean _ _ h).2.2 rfl
  · exact absurd h (by decide)
  · exact (queryEscape_clean _ _ h).2.2 rfl

theorem cut_segment (p : GoString × GoString) :
    cut 61 (segment p) = (QueryEscape p.1, QueryEscape p.2, true) :=
  cut_append 61 _ _ (fun h => (queryEscape_clean _ _ h).2.1 rfl)

theorem cut_joinSegments (p : GoString × GoString) (ps : List (GoString × GoString)) :
    (cut 38 (joinSegments (p :: ps))).1 = segment p ∧
    (cut 38 (joinSegments (p :: ps))).2.1 = joinSegments ps := by
  simp only [joinSegments]
  by_cases h : ps = []
  · subst h
    simp [cut_not_mem 38 _ (segment_no_amp p), joinSegments]
  · simp [h, cut_append 38 _ _ (segment_no_amp p)]

theorem joinSegments_cons_ne_nil (p : GoString × GoString) (ps : List (GoString × GoString)) :
    joinSegments (p :: ps) ≠ [] := by
  simp [joinSegments, segment]

theorem joinSegments_length (ps : List (GoString × GoString)) :
    ps.length ≤ (joinSegments ps).length := by
  induction ps with
  | nil => simp
  | cons p ps ih =>
    simp only [joinSegments, segment, List.length_append, List.length_cons]
    split
    · rename_i h; subst h; simp; omega
    · simp only [List.length_cons]; omega

theorem addValues_cons (e : GoString × GoString) (ps : GoMap GoString) (v : Values) :
    addValues (e :: ps) v = addValues ps (v.Add e.1 e.2) := rfl

/-- Parsing joined segments adds every pair to the map, without error. -/
theorem parseQueryLoop_joinSegments (ps : List (GoString × GoString)) (fuel : Nat) (m : Values)
    (err : Option QueryError) (hf : ps.length ≤ fuel) :
    parseQueryLoop fuel m err (joinSegments ps) = (addValues ps m, err) := by
  induction ps generalizing fuel m with
  | nil =>
    cases fuel <;> simp [parseQueryLoop, joinSegments, addValues]
  | cons p ps ih =>
    obtain ⟨fuel, rfl⟩ : ∃ f, fuel = f + 1 := ⟨fuel - 1, by simp at hf; omega⟩
    have hc := cut_joinSegments p ps
    rw [parseQueryLoop]
    simp only [joinSegments_cons_ne_nil, if_false, hc.1, hc.2, segment_no_semicolon,
      segment_ne_nil, cut_segment, queryUnescape_escape]
    rw [ih fuel _ (by simpa using hf)]
    rfl

/-! ## The query loop of httpRequest -/

theorem addValues_get (ps : GoMap GoString) (acc : Values) (k : GoString) (hwf : ps.WF) :
    (addValues ps acc).get k =
      match ps.get k with
      | some v => some ((acc.get k).getD [] ++ [v])
      | none => acc.get k := by
  induction ps generalizing acc with
  | nil => rfl
  | cons e ps ih =>
    obtain ⟨k0, v0⟩ := e
    have hnd : k0 ∉ GoMap.keys ps ∧ GoMap.WF ps := by
      simpa [GoMap.WF, GoMap.keys] using hwf
    rw [addValues_cons, ih _ hnd.2]
    by_cases hk : k0 = k
    · subst hk
      have : GoMap.get ps k0 = none := (GoMap.get_eq_none_iff _ _).2 hnd.1
      simp [this, GoMap.get, Values.Add, GoMap.get_set]
    · simp [GoMap.get, Values.Add, GoMap.get_set, hk]

theorem addValues_wf (ps : GoMap GoString) (acc : Values) (h : acc.WF) :
    (addValues ps acc).WF := by
  induction ps generalizing acc with
  | nil => exact h
  | cons e ps ih =>
    rw [addValues_cons]
    exact ih _ (GoMap.wf_set _ _ _ h)

theorem addValues_get_nil (ps : GoMap GoString) (k : GoString) (hwf : ps.WF) :
    (addValues ps []).get k = (ps.get k).map (fun v => [v]) := by
  rw [addValues_get ps [] k hwf]
  cases ps.get k <;> simp [GoMap.get]

/-! ## Values.Encode -/

theorem encodeKey_single (kE v buf : GoString) :
    encodeKey kE [v] buf = (if buf = [] then [] else buf ++ [38]) ++ (kE ++ 61 :: QueryEscape v) := by
  unfold encodeKey
  by_cases h : buf = []
  · subst h; simp
  · have : 0 < buf.length := List.length_pos.2 h
    simp [h, this]

theorem encode_foldl (v : Values) (f : GoString → GoString) (ks : List GoString) (buf : GoString)
    (h : ∀ k ∈ ks, v.get k = some [f k]) :
    ks.foldl (fun buf k => encodeKey (QueryEscape k) ((v.get k).getD []) buf) buf =
      appendSegments buf (ks.map (fun k => (k, f k))) := by
  induction ks generalizing buf with
  | nil => simp [appendSegments]
  | cons k ks ih =>
    rw [List.foldl_cons, ih _ (fun k' hk' => h k' (List.mem_cons_of_mem _ hk'))]
    rw [h k (List.mem_cons_self _ _)]
    simp only [Option.getD_some, encodeKey_single]
    by_cases hb : buf = [] <;> by_cases hks : ks = [] <;>
      simp [appendSegments, joinSegments, segment, hb, hks]

theorem get_map_pair (f : GoString → GoString) (ks : List GoString) (k : GoString) :
    GoMap.get (ks.map (fun k => (k, f k))) k = if k ∈ ks then some (f k) else none := by
  induction ks with
  | nil => rfl
  | cons k0 ks ih =>
    by_cases h0 : k0 = k
    · subst h0; simp [GoMap.get]
    · have : ¬ k = k0 := fun e => h0 e.symm
      simp [GoMap.get, h0, this, ih]

theorem count_joinSegments (ps : List (GoString × GoString)) (hne : ps ≠ []) :
    countByte 38 (joinSegments ps) + 1 = ps.length := by
  induction ps with
  | nil => exact absurd rfl hne
  | cons p ps ih =>
    have h0 : List.count (38 : Byte) (segment p) = 0 :=
      List.count_eq_zero.2 (segment_no_amp p)
    by_cases h : ps = []
    · subst h
      simp [countByte, joinSegments, h0]
    · have := ih h
      simp only [countByte] at this ⊢
      simp only [joinSegments, if_neg h, List.count_append, h0, List.count_cons_self,
        List.length_cons]
      omega

/-- The query string `Values.Encode` writes for the parameters of an event: one
segment for every parameter, the segments joined by `&`. -/
theorem encode_shape (ps : GoMap GoString) (hne : ps ≠ []) (hwf : ps.WF) :
    ∃ qs : List (GoString × GoString), (addValues ps []).Encode = joinSegments qs ∧
      qs.length = ps.length ∧ GoMap.WF qs ∧ ∀ k, GoMap.get qs k = ps.get k := by
  let v := addValues ps []
  let f : GoString → GoString := fun k => (ps.get k).getD []
  let ks := sortStrings v.keys
  have hperm : ks.Perm v.keys := List.perm_insertionSort _ _
  have hvwf : v.WF := addValues_wf ps [] (by simp [GoMap.WF, GoMap.keys])
  have hmemv : ∀ k, k ∈ v.keys ↔ k ∈ GoMap.keys ps := by
    intro k
    rw [← not_iff_not, ← GoMap.get_eq_none_iff, ← GoMap.get_eq_none_iff,
      addValues_get_nil ps k hwf]
    cases ps.get k <;> simp
  have hmem : ∀ k, k ∈ ks ↔ ps.get k ≠ none := by
    intro k
    rw [hperm.mem_iff, hmemv, ← not_iff_not, not_not, GoMap.get_eq_none_iff]
  have hv : ∀ k ∈ ks, v.get k = some [f k] := by
    intro k hk
    have := (hmem k).1 hk
    show (addValues ps []).get k = _
    rw [addValues_get_nil ps k hwf]
    cases h : ps.get k with
    | none => exact absurd h this
    | some val => simp [f, h]
  have hlen : ¬ v.length = 0 := by
    obtain ⟨e, ps', rfl⟩ : ∃ e ps', ps = e :: ps' := List.exists_cons_of_ne_nil hne
    have h2 : (addValues (e :: ps') []).get e.1 ≠ none := by
      rw [addValues_get_nil _ _ hwf]; simp [GoMap.get]
    intro h0
    have : v = [] := List.length_eq_zero.1 h0
    exact h2 (by show GoMap.get v e.1 = none; rw [this]; rfl)
  have henc : v.Encode = joinSegments (ks.map (fun k => (k, f k))) := by
    unfold Values.Encode
    rw [if_neg hlen, encode_foldl v f _ _ hv]
    simp only [appendSegments, if_true]
    split <;> simp_all [joinSegments]
  have hkeys : GoMap.keys (ks.map (fun k => (k, f k))) = ks := by
    simp only [GoMap.keys, List.map_map]
    exact List.map_id _
  have hwf2 : GoMap.WF (ks.map (fun k => (k, f k))) := by
    unfold GoMap.WF
    rw [hkeys]
    exact hperm.nodup_iff.2 hvwf
  have hl : ks.length = ps.length := by
    have h1 : v.keys.Perm (GoMap.keys ps) := (List.perm_ext_iff_of_nodup hvwf hwf).2 hmemv
    rw [hperm.length_eq, h1.length_eq]
    simp [GoMap.keys]
  refine ⟨ks.map (fun k => (k, f k)), henc, by simp [hl], hwf2, fun k => ?_⟩
  rw [get_map_pair]
  by_cases hk : k ∈ ks
  · have := (hmem k).1 hk
    cases h : ps.get k with
    | none => exact absurd h this
    | some val => simp [hk, f, h]
  · have : ps.get k = none := by
      by_contra hc; exact hk ((hmem k).2 hc)
    simp [hk, this]

/-- The query string of at most `defaultMaxParams` parameters parses back to the
same pairs. -/
theorem encode_parse (ps : GoMap GoString) (hne : ps ≠ []) (hwf : ps.WF)
    (hlen : ps.length ≤ defaultMaxParams) :
    (ParseQuery (addValues ps []).Encode).2 = none ∧
    ∀ k, (ParseQuery (addValues ps []).Encode).1.get k = (ps.get k).map (fun v => [v]) := by
  obtain ⟨qs, henc, hl, hwf2, hget⟩ := encode_shape ps hne hwf
  have hq : qs ≠ [] := by
    intro h; rw [h] at hl; exact hne (List.length_eq_zero.1 hl.symm)
  have hparse : ParseQuery (addValues ps []).Encode = (addValues qs [], none) := by
    unfold ParseQuery parseQuery
    rw [henc, count_joinSegments qs hq, hl]
    simp only [urlParamsWithinMax, decide_eq_true hlen, if_true]
    apply parseQueryLoop_joinSegments
    have := joinSegments_length qs
    omega
  rw [hparse]
  refine ⟨rfl, fun k => ?_⟩
  simp only
  rw [addValues_get_nil _ k hwf2, hget]

/-- The query string of more than `defaultMaxParams` parameters is refused by
`url.ParseQuery`. -/
theorem encode_refused (ps : GoMap GoString) (hwf : ps.WF)
    (hlen : defaultMaxParams < ps.length) :
    ParseQuery (addValues ps []).Encode = ([], some .tooManyParams) := by
  have hne : ps ≠ [] := by
    intro h; rw [h] at hlen; simp at hlen
  obtain ⟨qs, henc, hl, -, -⟩ := encode_shape ps hne hwf
  have hq : qs ≠ [] := by
    intro h; rw [h] at hl; exact hne (List.length_eq_zero.1 hl.symm)
  unfold ParseQuery parseQuery
  rw [henc, count_joinSegments qs hq, hl]
  have : ¬ ps.length ≤ defaultMaxParams := by omega
  simp only [urlParamsWithinMax, decide_eq_false this]
  rfl

theorem paramKey_injective (i j : Nat) (hi : i < 65536) (hj : j < 65536)
    (h : paramKey i = paramKey j) : i = j := by
  simp only [paramKey, List.cons.injEq, and_true] at h
  obtain ⟨h1, h2, h3, h4⟩ := h
  have e1 := congrArg Fin.val h1
  have e2 := congrArg Fin.val h2
  have e3 := congrArg Fin.val h3
  have e4 := congrArg Fin.val h4
  simp only [Fin.ofNat, Fin.val_mk] at e1 e2 e3 e4
  omega

theorem manyParams_facts (n : Nat) (hn : n ≤ 65536) :
    (manyParams n).WF ∧ (manyParams n).length = n := by
  constructor
  · unfold GoMap.WF GoMap.keys manyParams
    rw [List.map_map]
    apply List.Nodup.map_on _ (List.nodup_range n)
    intro i hi j hj hij
    exact paramKey_injective i j (by have := List.mem_range.1 hi; omega)
      (by have := List.mem_range.1 hj; omega) hij
  · simp [manyParams]

theorem paramsEvent_params (ps : GoMap GoString) :
    (paramsEvent ps).QueryStringParameters = ps ∧ (paramsEvent ps).IsBase64Encoded = false :=
  ⟨rfl, rfl⟩

theorem manyParamsEvent_params :
    manyParamsEvent.QueryStringParameters = manyParams 10001 ∧
    manyParamsEvent.IsBase64Encoded = false :=
  paramsEvent_params _

theorem sampleEvent_decodes : sampleEvent.httpRequest noParse = .ok sampleRequest := by
  decide

theorem str_question : str "?" = [63] := by decide

/-- Claim C5 as stated fails: for the event with path `/a?b` and no query
parameters, the request URI is the path itself, which contains `?`. -/
theorem uri_no_question_mark_counterexample :
    ¬ ∀ (r : Request) (req : HttpRequest Unit), r.httpRequest noParse = .ok req →
      r.QueryStringParameters = [] → req.RequestURI = r.Path ∧ (63 : Byte) ∉ req.RequestURI := by
  intro h
  obtain ⟨req, h1, -⟩ := httpRequest_plain noParse questionPathEvent rfl
  have h2 := (h questionPathEvent req h1 rfl).2
  have h3 := (httpRequest_fields noParse questionPathEvent req h1).2.2.2.2.2.2.1
  rw [h3] at h2
  exact h2 (by decide)

theorem requestURI_eq {U : Type} (urlParse : GoString → Option U) (r : Request)
    (req : HttpRequest U) (h : r.httpRequest urlParse = .ok req) :
    (r.QueryStringParameters ≠ [] →
      req.RequestURI = r.Path ++ str "?" ++ (addValues r.QueryStringParameters []).Encode) ∧
    (r.QueryStringParameters = [] → req.RequestURI = r.Path) := by
  have h3 := (httpRequest_fields urlParse r req h).2.2.2.2.2.2.1
  constructor
  · intro hne
    have : r.QueryStringParameters.length > 0 := List.length_pos.2 hne
    rw [h3]
    simp [builtURI, this]
  · intro he
    rw [h3]
    simp [builtURI, he]

/-- Claim C5, amended: for every event for which `httpRequest` returns a
request, if `queryStringParameters` has at least one entry then the request URI
is `path`, `?` and the encoded query, and so contains `?`; if it is empty or
absent then the request URI is identical to `path`, and contains `?` only if
`path` does. -/
theorem request_uri {U : Type} (urlParse : GoString → Option U) (r : Request)
    (req : HttpRequest U) (h : r.httpRequest urlParse = .ok req) :
    (r.QueryStringParameters ≠ [] →
      req.RequestURI = r.Path ++ str "?" ++ (addValues r.QueryStringParameters []).Encode ∧
      (63 : Byte) ∈ req.RequestURI) ∧
    (r.QueryStringParameters = [] →
      req.RequestURI = r.Path ∧ ((63 : Byte) ∈ req.RequestURI ↔ (63 : Byte) ∈ r.Path)) := by
  have h3 := requestURI_eq urlParse r req h
  constructor
  · intro hne
    refine ⟨h3.1 hne, ?_⟩
    rw [h3.1 hne, str_question]
    simp
  · intro he
    rw [h3.2 he]
    exact ⟨rfl, Iff.rfl⟩

theorem request_uri_witness :
    sampleEvent.httpRequest noParse = .ok sampleRequest ∧
    (sampleEvent.QueryStringParameters ≠ [] →
      sampleRequest.RequestURI =
        sampleEvent.Path ++ str "?" ++ (addValues sampleEvent.QueryStringParameters []).Encode ∧
      (63 : Byte) ∈ sampleRequest.RequestURI) :=
  ⟨sampleEvent_decodes, (request_uri noParse sampleEvent sampleRequest sampleEvent_decodes).1⟩

/-- Claim C6 as stated fails: the query string that `httpRequest` writes for the
event with 10001 query parameters is not parsed back by `url.ParseQuery`, which
refuses a query of more than 10000 parameters. -/
theorem query_round_trip_counterexample :
    ¬ ∀ (r : Request) (req : HttpRequest Unit), r.httpRequest noParse = .ok req →
      r.QueryStringParameters ≠ [] → r.QueryStringParameters.WF →
      ∃ q, req.RequestURI = r.Path ++ str "?" ++ q ∧ (ParseQuery q).2 = none ∧
        ∀ k, (ParseQuery q).1.get k = (r.QueryStringParameters.get k).map (fun v => [v]) := by
  intro h
  obtain ⟨hwf, hlen⟩ := manyParams_facts 10001 (by omega)
  rw [← manyParamsEvent_params.1] at hwf hlen
  have hne : manyParamsEvent.QueryStringParameters ≠ [] := by
    intro hc; rw [hc] at hlen; simp at hlen
  obtain ⟨req, h1, -⟩ := httpRequest_plain noParse manyParamsEvent manyParamsEvent_params.2
  obtain ⟨q, hq, herr, -⟩ := h manyParamsEvent req h1 hne hwf
  have h3 := (requestURI_eq noParse manyParamsEvent req h1).1 hne
  rw [h3] at hq
  have hq2 := List.append_cancel_left hq
  rw [← hq2, encode_refused _ hwf (by rw [hlen]; unfold defaultMaxParams; omega)] at herr
  exact absurd herr (by simp)

/-- Claim C6, amended: for every event with a non-empty `queryStringParameters`
mapping (distinct keys, arbitrary bytes in keys and values), the query string
that `httpRequest` places after `?` in the request URI parses back under
`url.ParseQuery` without error into the same mapping, each key carrying exactly
its one original value, when the mapping has at most 10000 entries; when it has
more, `url.ParseQuery` refuses the query string and returns an empty mapping and
the error that the number of parameters exceeds the limit. -/
theorem query_round_trip {U : Type} (urlParse : GoString → Option U) (r : Request)
    (req : HttpRequest U) (h : r.httpRequest urlParse = .ok req)
    (hne : r.QueryStringParameters ≠ []) (hwf : r.QueryStringParameters.WF) :
    ∃ q, req.RequestURI = r.Path ++ str "?" ++ q ∧
      (r.QueryStringParameters.length ≤ 10000 → (ParseQuery q).2 = none ∧
        ∀ k, (ParseQuery q).1.get k = (r.QueryStringParameters.get k).map (fun v => [v])) ∧
      (10000 < r.QueryStringParameters.length → ParseQuery q = ([], some .tooManyParams)) :=
  ⟨_, (requestURI_eq urlParse r req h).1 hne, fun hl => encode_parse _ hne hwf hl,
    fun hl => encode_refused _ hwf hl⟩

theorem query_round_trip_witness :
    sampleEvent.httpRequest noParse = .ok sampleRequest ∧
    sampleEvent.QueryStringParameters ≠ [] ∧ sampleEvent.QueryStringParameters.WF ∧
    sampleEvent.QueryStringParameters.length ≤ 10000 ∧
    ∃ q, sampleRequest.RequestURI = sampleEvent.Path ++ str "?" ++ q ∧
      (sampleEvent.QueryStringParameters.length ≤ 10000 → (ParseQuery q).2 = none ∧
        ∀ k, (ParseQuery q).1.get k =
          (sampleEvent.QueryStringParameters.get k).map (fun v => [v])) ∧
      (10000 < sampleEvent.QueryStringParameters.length →
        ParseQuery q = ([], some .tooManyParams)) :=
  ⟨sampleEvent_decodes, by decide, by decide, by decide,
    query_round_trip noParse sampleEvent sampleRequest sampleEvent_decodes (by decide) (by decide)⟩

theorem host_moved_to_field_witness :
    sampleEvent.httpRequest noParse = .ok sampleRequest ∧
    (∀ k, isHostName k = true → k ∉ sampleRequest.Header.keys ∧
      sampleRequest.Header.get k = none ∧ sampleRequest.Header.Get k = []) ∧
    sampleRequest.Host = hostValue sampleEvent.Headers :=
  ⟨sampleEvent_decodes,
    (host_moved_to_field noParse sampleEvent sampleRequest sampleEvent_decodes).1,
    (host_moved_to_field noParse sampleEvent sampleRequest sampleEvent_decodes).2.1⟩

theorem plain_body_passthrough_witness :
    sampleEvent.IsBase64Encoded = false ∧
    ∃ req, sampleEvent.httpRequest noParse = .ok req ∧ req.Body = sampleEvent.Body ∧
      req.ContentLength = sampleEvent.Body.length :=
  ⟨rfl, plain_body_passthrough noParse sampleEvent rfl⟩

/-! ## encoding/base64: bytes of the alphabet -/

theorem alphabet_facts : ∀ c : Byte,
    ((decodeMap c ≠ 255) ↔ isAlphabet c = true) ∧
    (isAlphabet c = true → ¬ (c = 10 ∨ c = 13) ∧ c ≠ 61 ∧ (decodeMap c).val = sextet c ∧
      sextet c < 64) := by
  decide

theorem decodeMap_newline (c : Byte) (h : c = 10 ∨ c = 13) : decodeMap c = 255 := by
  rcases h with rfl | rfl <;> decide

theorem decodeMap_pad : decodeMap 61 = 255 := by decide

theorem pack_eq (x0 x1 x2 x3 : Nat) (h1 : x1 < 64) (h2 : x2 < 64) (h3 : x3 < 64) :
    x0 <<< 18 ||| x1 <<< 12 ||| x2 <<< 6 ||| x3 =
      x0 * 2 ^ 18 + x1 * 2 ^ 12 + x2 * 2 ^ 6 + x3 := by
  have e3 : 2 ^ 6 * x2 + x3 = 2 ^ 6 * x2 ||| x3 := Nat.mul_add_lt_is_or (by omega) x2
  have e2 : 2 ^ 12 * x1 + (2 ^ 6 * x2 + x3) = 2 ^ 12 * x1 ||| (2 ^ 6 * x2 + x3) :=
    Nat.mul_add_lt_is_or (by omega) x1
  have e1 : 2 ^ 18 * x0 + (2 ^ 12 * x1 + (2 ^ 6 * x2 + x3)) =
      2 ^ 18 * x0 ||| (2 ^ 12 * x1 + (2 ^ 6 * x2 + x3)) :=
    Nat.mul_add_lt_is_or (by omega) x0
  simp only [Nat.shiftLeft_eq]
  rw [Nat.or_assoc, Nat.or_assoc, Nat.mul_comm x0, Nat.mul_comm x1, Nat.mul_comm x2,
    ← e3, ← e2, ← e1]
  omega

theorem storeQuantum_eq (d : Nat) (x0 x1 x2 x3 : Byte) (dlen : Nat) (rest : GoString) (si : Nat)
    (err : Option CorruptInputError) (h1 : x1.val < 64) (h2 : x2.val < 64) (h3 : x3.val < 64) :
    storeQuantum d [x0, x1, x2, x3] dlen rest si err =
      if d < dlen - 1 then .panic
      else .ret rest si
        ((groupBytes (x0.val * 2 ^ 18 + x1.val * 2 ^ 12 + x2.val * 2 ^ 6 + x3.val)).take
          (dlen - 1)) err := by
  unfold storeQuantum groupBytes
  simp only [List.getD_cons_zero, List.getD_cons_succ, pack_eq _ _ _ _ h1 h2 h3,
    Nat.shiftRight_eq_div_pow, Nat.pow_zero, Nat.div_one]

/-! ## encoding/base64: newlines are ignored -/

theorem strip_cons_newline (c : Byte) (rest : GoString) (h : c = 10 ∨ c = 13) :
    stripNewlines (c :: rest) = stripNewlines rest := by
  unfold stripNewlines
  rw [List.filter_cons, if_neg (fun hh => (of_decide_eq_true hh) h)]

theorem strip_cons_other (c : Byte) (rest : GoString) (h : ¬ (c = 10 ∨ c = 13)) :
    stripNewlines (c :: rest) = c :: stripNewlines rest := by
  unfold stripNewlines
  rw [List.filter_cons, if_pos (decide_eq_true h)]

theorem strip_strip (s : GoString) : stripNewlines (stripNewlines s) = stripNewlines s := by
  simp [stripNewlines]

theorem strip_clean (s : GoString) : ∀ c ∈ stripNewlines s, ¬ (c = 10 ∨ c = 13) := by
  intro c hc
  simpa using (List.mem_filter.1 hc).2

theorem strip_of_clean (s : GoString) (h : ∀ c ∈ s, ¬ (c = 10 ∨ c = 13)) :
    stripNewlines s = s := by
  unfold stripNewlines
  rw [List.filter_eq_self]
  intro c hc
  simpa using h c hc

theorem strip_length (s : GoString) : (stripNewlines s).length ≤ s.length :=
  List.length_filter_le _ _

theorem skipNewlines_spec (rest : GoString) (si : Nat) :
    stripNewlines (skipNewlines rest si).1 = stripNewlines rest ∧
    (skipNewlines rest si).1.length ≤ rest.length ∧
    (∀ c t, (skipNewlines rest si).1 = c :: t → ¬ (c = 10 ∨ c = 13)) := by
  induction rest generalizing si with
  | nil => simp [skipNewlines]
  | cons c rest ih =>
    by_cases h : c = 10 ∨ c = 13
    · simp only [skipNewlines, h, if_true, strip_cons_newline c rest h]
      refine ⟨(ih _).1, ?_, (ih _).2.2⟩
      have := (ih (si + 1)).2.1
      simp only [List.length_cons]; omega
    · rw [show skipNewlines (c :: rest) si = (c :: rest, si) by simp [skipNewlines, h]]
      refine ⟨rfl, le_refl _, ?_⟩
      intro c' t he
      injection he with he1 _
      rw [← he1]; exact h

theorem skipNewlines_clean (t : GoString) (si : Nat) (h : ∀ c ∈ t, ¬ (c = 10 ∨ c = 13)) :
    skipNewlines t si = (t, si) := by
  cases t with
  | nil => rfl
  | cons c t =>
    have := h c (List.mem_cons_self _ _)
    simp [skipNewlines, this]

theorem skipNewlines_nil_iff (rest : GoString) (si : Nat) :
    (skipNewlines rest si).1 = [] ↔ stripNewlines rest = [] := by
  have h := skipNewlines_spec rest si
  constructor
  · intro he
    rw [← h.1, he]; rfl
  · intro he
    cases hs : (skipNewlines rest si).1 with
    | nil => rfl
    | cons c t =>
      have h1 := h.2.2 c t hs
      rw [← h.1, hs, strip_cons_other c t h1] at he
      exact absurd he (by simp)

theorem storeQuantum_norm (d : Nat) (dbuf : List Byte) (dlen : Nat) (r1 r2 : GoString)
    (s1 s2 : Nat) (e1 e2 : Option CorruptInputError)
    (hr : stripNewlines r1 = stripNewlines r2) (he : e1.isSome = e2.isSome) :
    (storeQuantum d dbuf dlen r1 s1 e1).norm = (storeQuantum d dbuf dlen r2 s2 e2).norm := by
  unfold storeQuantum
  simp only
  split
  · rfl
  · simp only [Quantum.norm, hr]
    cases e1 <;> cases e2 <;> simp_all

theorem afterPadding_norm (d : Nat) (dbuf : List Byte) (j : Nat) (r1 r2 : GoString)
    (s1 s2 : Nat) (hr : stripNewlines r1 = stripNewlines r2) :
    (afterPadding d dbuf j r1 s1).norm = (afterPadding d dbuf j r2 s2).norm := by
  unfold afterPadding
  simp only
  apply storeQuantum_norm
  · rw [(skipNewlines_spec r1 s1).1, (skipNewlines_spec r2 s2).1, hr]
  · have h1 := skipNewlines_nil_iff r1 s1
    have h2 := skipNewlines_nil_iff r2 s2
    by_cases h : stripNewlines r1 = []
    · have h' : stripNewlines r2 = [] := by rw [← hr]; exact h
      simp [h1.2 h, h2.2 h']
    · have h' : ¬ stripNewlines r2 = [] := by rw [← hr]; exact h
      have n1 : ¬ (skipNewlines r1 s1).1 = [] := fun e => h (h1.1 e)
      have n2 : ¬ (skipNewlines r2 s2).1 = [] := fun e => h' (h2.1 e)
      simp [n1, n2]

theorem loop_norm_strip (s1 s2 d : Nat) (rest : GoString) :
    ∀ (si1 si2 j : Nat) (dbuf : List Byte),
      (decodeQuantumLoop s1 d rest si1 j dbuf).norm =
        (decodeQuantumLoop s2 d (stripNewlines rest) si2 j dbuf).norm := by
  induction rest with
  | nil =>
    intro si1 si2 j dbuf
    simp only [stripNewlines, List.filter_nil, decodeQuantumLoop]
    split <;> rfl
  | cons c rest ih =>
    intro si1 si2 j dbuf
    by_cases hn : c = 10 ∨ c = 13
    · rw [strip_cons_newline c rest hn]
      simp only [decodeQuantumLoop]
      have h255 : ¬ decodeMap c ≠ 255 := by rw [decodeMap_newline c hn]; simp
      simp only [if_neg h255, if_pos hn]
      exact ih _ _ _ _
    · rw [strip_cons_other c rest hn]
      simp only [decodeQuantumLoop]
      by_cases ha : decodeMap c ≠ 255
      · simp only [if_pos ha]
        by_cases hj : j + 1 < 4
        · simp only [if_pos hj]
          exact ih _ _ _ _
        · simp only [if_neg hj]
          exact storeQuantum_norm _ _ _ _ _ _ _ _ _ (strip_strip rest).symm rfl
      · simp only [if_neg ha, if_neg hn]
        by_cases hp : c ≠ 61
        · simp only [if_pos hp, Quantum.norm, strip_strip]
          rfl
        · simp only [if_neg hp]
          by_cases hj : j = 0 ∨ j = 1
          · simp only [if_pos hj, Quantum.norm, strip_strip]
            rfl
          · simp only [if_neg hj]
            by_cases hj2 : j = 2
            · simp only [if_pos hj2]
              rw [skipNewlines_clean (stripNewlines rest) _ (strip_clean rest)]
              have hspec := skipNewlines_spec rest (si1 + 1)
              cases hs : (skipNewlines rest (si1 + 1)).1 with
              | nil =>
                have : stripNewlines rest = [] := (skipNewlines_nil_iff _ _).1 hs
                simp only [this]
                rfl
              | cons c2 rest2 =>
                have hc2 := hspec.2.2 c2 rest2 hs
                have hst : stripNewlines rest = c2 :: stripNewlines rest2 := by
                  rw [← hspec.1, hs, strip_cons_other c2 rest2 hc2]
                simp only [hst]
                by_cases hp2 : c2 ≠ 61
                · simp only [if_pos hp2, Quantum.norm, strip_cons_other c2 _ hc2, strip_strip]
                  rfl
                · simp only [if_neg hp2]
                  exact afterPadding_norm _ _ _ _ _ _ _ (strip_strip rest2).symm
            · simp only [if_neg hj2]
              exact afterPadding_norm _ _ _ _ _ _ _ (strip_strip rest).symm

theorem loop_norm_congr (s1 s2 d : Nat) (r1 r2 : GoString) (si1 si2 j : Nat) (dbuf : List Byte)
    (h : stripNewlines r1 = stripNewlines r2) :
    (decodeQuantumLoop s1 d r1 si1 j dbuf).norm = (decodeQuantumLoop s2 d r2 si2 j dbuf).norm := by
  rw [loop_norm_strip s1 s1 d r1 si1 si1, loop_norm_strip s2 s1 d r2 si2 si1, h]

theorem storeQuantum_rest (d : Nat) (dbuf : List Byte) (dlen : Nat) (rest : GoString) (si : Nat)
    (err : Option CorruptInputError) (rest' : GoString) (si' : Nat) (st : GoString)
    (err' : Option CorruptInputError)
    (h : storeQuantum d dbuf dlen rest si err = .ret rest' si' st err') : rest' = rest := by
  unfold storeQuantum at h
  simp only at h
  split at h
  · exact absurd h (by simp)
  · injection h with h1 _ _ _
    exact h1.symm

/-- The quantum loop never returns more input than it was given. -/
theorem loop_rest_length (s d : Nat) (rest : GoString) :
    ∀ (si j : Nat) (dbuf : List Byte) (rest' : GoString) (si' : Nat) (st : GoString)
      (err : Option CorruptInputError),
      decodeQuantumLoop s d rest si j dbuf = .ret rest' si' st err →
      rest'.length ≤ rest.length ∧ (rest ≠ [] → rest'.length < rest.length) := by
  induction rest with
  | nil =>
    intro si j dbuf rest' si' st err h
    simp only [decodeQuantumLoop] at h
    split at h <;> (injection h with h1 _ _ _; subst h1; simp)
  | cons c rest ih =>
    intro si j dbuf rest' si' st err h
    suffices hl : rest'.length ≤ rest.length by
      simp only [List.length_cons]
      exact ⟨by omega, fun _ => by omega⟩
    simp only [decodeQuantumLoop] at h
    split at h
    · split at h
      · exact (ih _ _ _ _ _ _ _ h).1
      · rw [storeQuantum_rest _ _ _ _ _ _ _ _ _ _ h]
    · split at h
      · exact (ih _ _ _ _ _ _ _ h).1
      · split at h
        · injection h with h1 _ _ _; subst h1; exact le_refl _
        · split at h
          · injection h with h1 _ _ _; subst h1; exact le_refl _
          · have hsk := (skipNewlines_spec rest (si + 1)).2.1
            split at h
            · split at h
              · injection h with h1 _ _ _; subst h1; simp
              · rename_i c2 rest2 hs
                split at h
                · injection h with h1 _ _ _
                  rw [← h1, ← hs]; exact hsk
                · unfold afterPadding at h
                  have h1 := storeQuantum_rest _ _ _ _ _ _ _ _ _ _ h
                  have h2 := (skipNewlines_spec rest2 ((skipNewlines rest (si + 1)).2 + 1)).2.1
                  rw [hs] at hsk
                  simp only [List.length_cons] at hsk
                  rw [h1]; omega
            · unfold afterPadding at h
              have h1 := storeQuantum_rest _ _ _ _ _ _ _ _ _ _ h
              rw [h1]; exact hsk

theorem decodeLoop_nil (s d fuel si : Nat) (out : GoString) :
    decodeLoop s d fuel [] si out = .ok out := by
  cases fuel <;> simp [decodeLoop]

theorem decodeLoop_succ (s d fuel si : Nat) (rest out : GoString) (h : rest ≠ []) :
    decodeLoop s d (fuel + 1) rest si out =
      match decodeQuantum s (d - out.length) rest si with
      | .panic => .panic
      | .ret rest' si' stored err =>
        match err with
        | some e => .error e
        | none => decodeLoop s d fuel rest' si' (out ++ stored) := by
  rw [decodeLoop]
  simp only [if_neg h]

theorem norm_eq_ret (q : Quantum) (r : GoString) (n : Nat) (st : GoString)
    (e : Option CorruptInputError) (h : q.norm = .ret r n st e) :
    ∃ r' n' e', q = .ret r' n' st e' ∧ stripNewlines r' = r ∧ e'.map (fun _ => 0) = e := by
  cases q with
  | panic => exact absurd h (by simp [Quantum.norm])
  | ret r' n' st' e' =>
    simp only [Quantum.norm, Quantum.ret.injEq] at h
    obtain ⟨h1, _, h3, h4⟩ := h
    exact ⟨r', n', e', by rw [h3], h1, h4⟩

/-- Decoding a source and decoding it without its newlines give the same outcome,
for any two fuels that are at least the lengths. -/
theorem decodeLoop_strip (d : Nat) : ∀ (n : Nat) (r : GoString) (s1 s2 f1 f2 si1 si2 : Nat)
    (out : GoString), r.length ≤ n → r.length ≤ f1 → (stripNewlines r).length ≤ f2 →
    (decodeLoop s1 d f1 r si1 out).forget =
      (decodeLoop s2 d f2 (stripNewlines r) si2 out).forget := by
  intro n
  induction n with
  | zero =>
    intro r s1 s2 f1 f2 si1 si2 out hn _ _
    have : r = [] := List.length_eq_zero.1 (by omega)
    subst this
    simp [stripNewlines, decodeLoop_nil]
  | succ n ih =>
    intro r s1 s2 f1 f2 si1 si2 out hn hf1 hf2
    by_cases hr : r = []
    · subst hr
      simp [stripNewlines, decodeLoop_nil]
    · have hlen : 0 < r.length := List.length_pos.2 hr
      obtain ⟨f1, rfl⟩ : ∃ f, f1 = f + 1 := ⟨f1 - 1, by omega⟩
      rw [decodeLoop_succ _ _ _ _ _ _ hr]
      have hq := loop_norm_strip s1 s2 (d - out.length) r si1 si2 0 [0, 0, 0, 0]
      by_cases hs : stripNewlines r = []
      · rw [hs, decodeLoop_nil]
        rw [hs] at hq
        have hq2 : (decodeQuantumLoop s1 (d - out.length) r si1 0 [0, 0, 0, 0]).norm =
            .ret [] 0 [] none := by
          rw [hq]; rfl
        obtain ⟨r', n', e', h1, h2, h3⟩ := norm_eq_ret _ _ _ _ _ hq2
        have he : e' = none := by cases e' <;> simp_all
        subst he
        have hl := (loop_rest_length _ _ _ _ _ _ _ _ _ _ h1).2 hr
        simp only [decodeQuantum, h1]
        rw [ih r' s1 s2 f1 0 n' si2 (out ++ []) (by omega) (by omega) (by rw [h2]; simp), h2,
          decodeLoop_nil]
        simp
      · have hlen2 : 0 < (stripNewlines r).length := List.length_pos.2 hs
        obtain ⟨f2, rfl⟩ : ∃ f, f2 = f + 1 := ⟨f2 - 1, by omega⟩
        rw [decodeLoop_succ _ _ _ _ _ _ hs]
        simp only [decodeQuantum]
        cases h2 : decodeQuantumLoop s2 (d - out.length) (stripNewlines r) si2 0 [0, 0, 0, 0] with
        | panic =>
          rw [h2] at hq
          cases h1 : decodeQuantumLoop s1 (d - out.length) r si1 0 [0, 0, 0, 0] with
          | panic => rfl
          | ret a b c e => rw [h1] at hq; exact absurd hq (by simp [Quantum.norm])
        | ret r2 n2 st e2 =>
          rw [h2] at hq
          obtain ⟨r1, n1, e1, h1, hst, he⟩ := norm_eq_ret _ _ _ _ _ hq
          rw [h1]
          have hl1 := (loop_rest_length _ _ _ _ _ _ _ _ _ _ h1).2 hr
          have hl2 := (loop_rest_length _ _ _ _ _ _ _ _ _ _ h2).2 hs
          have hsl := strip_length r
          cases e1 with
          | some x =>
            cases e2 with
            | some y => rfl
            | none => simp at he
          | none =>
            cases e2 with
            | some y => simp at he
            | none =>
              simp only
              have hsl1 := strip_length r1
              rw [ih r1 s1 s2 f1 (stripNewlines r1).length n1 0 (out ++ st) (by omega) (by omega)
                (le_refl _)]
              rw [ih r2 s2 s2 f2 (stripNewlines r2).length n2 0 (out ++ st) (by omega) (by omega)
                (le_refl _)]
              rw [hst]

/-! ## encoding/base64: one step of the quantum loop -/

theorem loop_alpha (s d : Nat) (c : Byte) (rest : GoString) (si j : Nat) (dbuf : List Byte)
    (ha : isAlphabet c = true) :
    decodeQuantumLoop s d (c :: rest) si j dbuf =
      if j + 1 < 4 then decodeQuantumLoop s d rest (si + 1) (j + 1) (dbuf.set j (decodeMap c))
      else storeQuantum d (dbuf.set j (decodeMap c)) 4 rest (si + 1) none := by
  have h := (alphabet_facts c).1.2 ha
  simp only [decodeQuantumLoop, if_pos h]

theorem loop_bad (s d : Nat) (c : Byte) (rest : GoString) (si j : Nat) (dbuf : List Byte)
    (ha : ¬ isAlphabet c = true) (hn : ¬ (c = 10 ∨ c = 13)) (hp : c ≠ 61) :
    decodeQuantumLoop s d (c :: rest) si j dbuf = .ret rest (si + 1) [] (some (si + 1 - 1)) := by
  have h : ¬ decodeMap c ≠ 255 := fun h => ha ((alphabet_facts c).1.1 h)
  simp only [decodeQuantumLoop, if_neg h, if_neg hn, if_pos hp]

theorem loop_pad (s d : Nat) (rest : GoString) (si j : Nat) (dbuf : List Byte) :
    decodeQuantumLoop s d (61 :: rest) si j dbuf =
      if j = 0 ∨ j = 1 then .ret rest (si + 1) [] (some (si + 1 - 1))
      else if j = 2 then
        match (skipNewlines rest (si + 1)).1 with
        | [] => .ret [] (skipNewlines rest (si + 1)).2 [] (some s)
        | c2 :: rest2 =>
          if c2 ≠ 61 then
            .ret (c2 :: rest2) (skipNewlines rest (si + 1)).2 []
              (some ((skipNewlines rest (si + 1)).2 - 1))
          else afterPadding d dbuf j rest2 ((skipNewlines rest (si + 1)).2 + 1)
      else afterPadding d dbuf j rest (si + 1) := by
  have h : ¬ decodeMap 61 ≠ 255 := by decide
  have hn : ¬ ((61 : Byte) = 10 ∨ (61 : Byte) = 13) := by decide
  have hp : ¬ (61 : Byte) ≠ 61 := by decide
  simp only [decodeQuantumLoop, if_neg h, if_neg hn, if_neg hp]

theorem loop_pad_early (s d : Nat) (rest : GoString) (si j : Nat) (dbuf : List Byte)
    (hj : j = 0 ∨ j = 1) :
    decodeQuantumLoop s d (61 :: rest) si j dbuf = .ret rest (si + 1) [] (some (si + 1 - 1)) := by
  rw [loop_pad, if_pos hj]

theorem loop_pad_three (s d : Nat) (rest : GoString) (si : Nat) (dbuf : List Byte) :
    decodeQuantumLoop s d (61 :: rest) si 3 dbuf = afterPadding d dbuf 3 rest (si + 1) := by
  rw [loop_pad, if_neg (by omega), if_neg (by omega)]

theorem loop_pad_two_nil (s d : Nat) (si : Nat) (dbuf : List Byte) :
    decodeQuantumLoop s d [61] si 2 dbuf = .ret [] (si + 1) [] (some s) := by
  rw [loop_pad, if_neg (by omega), if_pos rfl]
  rfl

theorem loop_pad_two_cons (s d : Nat) (c2 : Byte) (rest : GoString) (si : Nat)
    (dbuf : List Byte) (h2 : ¬ (c2 = 10 ∨ c2 = 13)) :
    decodeQuantumLoop s d (61 :: c2 :: rest) si 2 dbuf =
      if c2 ≠ 61 then .ret (c2 :: rest) (si + 1) [] (some (si + 1 - 1))
      else afterPadding d dbuf 2 rest (si + 1 + 1) := by
  rw [loop_pad, if_neg (by omega), if_pos rfl]
  have : skipNewlines (c2 :: rest) (si + 1) = (c2 :: rest, si + 1) := by
    simp [skipNewlines, h2]
  rw [this]

theorem afterPadding_clean (d : Nat) (dbuf : List Byte) (j : Nat) (t : GoString) (si : Nat)
    (h : ∀ c ∈ t, ¬ (c = 10 ∨ c = 13)) :
    afterPadding d dbuf j t si = storeQuantum d dbuf j t si (if t = [] then none else some si) := by
  unfold afterPadding
  rw [skipNewlines_clean t si h]

theorem alpha_val (c : Byte) (ha : isAlphabet c = true) :
    (decodeMap c).val = sextet c ∧ sextet c < 64 :=
  ⟨((alphabet_facts c).2 ha).2.2.1, ((alphabet_facts c).2 ha).2.2.2⟩

theorem quantum_four (s d : Nat) (a b c e : Byte) (t : GoString) (si : Nat)
    (ha : isAlphabet a = true) (hb : isAlphabet b = true) (hc : isAlphabet c = true)
    (he : isAlphabet e = true) :
    decodeQuantum s d (a :: b :: c :: e :: t) si =
      if d < 3 then .panic
      else .ret t (si + 1 + 1 + 1 + 1)
        (groupBytes (sextet a * 2 ^ 18 + sextet b * 2 ^ 12 + sextet c * 2 ^ 6 + sextet e)) none := by
  unfold decodeQuantum
  rw [loop_alpha _ _ _ _ _ _ _ ha, if_pos (by omega), loop_alpha _ _ _ _ _ _ _ hb,
    if_pos (by omega), loop_alpha _ _ _ _ _ _ _ hc, if_pos (by omega),
    loop_alpha _ _ _ _ _ _ _ he, if_neg (by omega)]
  simp only [List.set_cons_zero, List.set_cons_succ]
  have h1 := alpha_val a ha
  have h2 := alpha_val b hb
  have h3 := alpha_val c hc
  have h4 := alpha_val e he
  rw [storeQuantum_eq _ _ _ _ _ _ _ _ _ (by omega) (by omega) (by omega), h1.1, h2.1, h3.1, h4.1]
  simp [groupBytes]

theorem quantum_pad_one (s d : Nat) (a b c : Byte) (t : GoString) (si : Nat)
    (ha : isAlphabet a = true) (hb : isAlphabet b = true) (hc : isAlphabet c = true)
    (ht : ∀ x ∈ t, ¬ (x = 10 ∨ x = 13)) :
    decodeQuantum s d (a :: b :: c :: 61 :: t) si =
      if d < 2 then .panic
      else .ret t (si + 1 + 1 + 1 + 1)
        ((groupBytes (sextet a * 2 ^ 18 + sextet b * 2 ^ 12 + sextet c * 2 ^ 6 + 0)).take 2)
        (if t = [] then none else some (si + 1 + 1 + 1 + 1)) := by
  unfold decodeQuantum
  rw [loop_alpha _ _ _ _ _ _ _ ha, if_pos (by omega), loop_alpha _ _ _ _ _ _ _ hb,
    if_pos (by omega), loop_alpha _ _ _ _ _ _ _ hc, if_pos (by omega), loop_pad_three]
  simp only [List.set_cons_zero, List.set_cons_succ]
  have h1 := alpha_val a ha
  have h2 := alpha_val b hb
  have h3 := alpha_val c hc
  rw [afterPadding_clean _ _ _ _ _ ht,
    storeQuantum_eq _ _ _ _ _ _ _ _ _ (by omega) (by omega) (by decide), h1.1, h2.1, h3.1]
  rfl

theorem quantum_pad_two (s d : Nat) (a b : Byte) (t : GoString) (si : Nat)
    (ha : isAlphabet a = true) (hb : isAlphabet b = true)
    (ht : ∀ x ∈ t, ¬ (x = 10 ∨ x = 13)) :
    decodeQuantum s d (a :: b :: 61 :: 61 :: t) si =
      if d < 1 then .panic
      else .ret t (si + 1 + 1 + 1 + 1)
        ((groupBytes (sextet a * 2 ^ 18 + sextet b * 2 ^ 12 + 0 * 2 ^ 6 + 0)).take 1)
        (if t = [] then none else some (si + 1 + 1 + 1 + 1)) := by
  unfold decodeQuantum
  rw [loop_alpha _ _ _ _ _ _ _ ha, if_pos (by omega), loop_alpha _ _ _ _ _ _ _ hb,
    if_pos (by omega), loop_pad_two_cons _ _ _ _ _ _ (by decide), if_neg (by decide)]
  simp only [List.set_cons_zero, List.set_cons_succ]
  have h1 := alpha_val a ha
  have h2 := alpha_val b hb
  rw [afterPadding_clean _ _ _ _ _ ht,
    storeQuantum_eq _ _ _ _ _ _ _ _ _ (by omega) (by decide) (by decide), h1.1, h2.1]
  rfl

theorem decodeLoop_failed (s d fuel si : Nat) (t out : GoString) (ht : t ≠ [])
    (h : (decodeQuantum s (d - out.length) t si).failed) :
    (decodeLoop s d (fuel + 1) t si out).forget = .error 0 := by
  obtain ⟨r, si', e, h⟩ := h
  rw [decodeLoop_succ _ _ _ _ _ _ ht, h]
  rfl

theorem loop_end (s d si j : Nat) (dbuf : List Byte) (hj : j ≠ 0) :
    (decodeQuantumLoop s d [] si j dbuf).failed := by
  simp only [decodeQuantumLoop, if_neg hj]
  exact ⟨_, _, _, rfl⟩

theorem loop_not_alpha_early (s d : Nat) (c : Byte) (rest : GoString) (si j : Nat)
    (dbuf : List Byte) (ha : ¬ isAlphabet c = true) (hn : ¬ (c = 10 ∨ c = 13))
    (hj : j = 0 ∨ j = 1) : (decodeQuantumLoop s d (c :: rest) si j dbuf).failed := by
  by_cases hp : c = 61
  · subst hp
    rw [loop_pad_early _ _ _ _ _ _ hj]
    exact ⟨_, _, _, rfl⟩
  · rw [loop_bad _ _ _ _ _ _ _ ha hn hp]
    exact ⟨_, _, _, rfl⟩

theorem alpha_ne_pad (c : Byte) (h : isAlphabet c = true) : c ≠ 61 :=
  ((alphabet_facts c).2 h).2.1

theorem pad_not_alpha : ¬ isAlphabet 61 = true := by decide

/-- On a source without newlines the decoder accepts exactly the RFC 4648 syntax
and returns the RFC 4648 decoding, provided the destination has room for three
bytes per four source bytes. -/
theorem decodeLoop_clean (s d : Nat) : ∀ (n : Nat) (t : GoString) (fuel si : Nat)
    (out : GoString), t.length ≤ n → (∀ c ∈ t, ¬ (c = 10 ∨ c = 13)) → t.length ≤ fuel →
    4 * out.length + 3 * t.length ≤ 4 * d →
    (decodeLoop s d fuel t si out).forget =
      if IsStdBase64 t = true then .ok (out ++ stdDecoded t) else .error 0 := by
  intro n
  induction n with
  | zero =>
    intro t fuel si out hn _ _ _
    have : t = [] := List.length_eq_zero.1 (by omega)
    subst this
    simp [decodeLoop_nil, IsStdBase64, stdDecoded, Outcome.forget]
  | succ n ih =>
    intro t fuel si out hn hcl hfuel hcap
    rcases t with _ | ⟨a, t1⟩
    · simp [decodeLoop_nil, IsStdBase64, stdDecoded, Outcome.forget]
    obtain ⟨fuel, rfl⟩ : ∃ f, fuel = f + 1 := ⟨fuel - 1, by simp at hfuel; omega⟩
    have hna := hcl a (by simp)
    by_cases ha : isAlphabet a = true
    swap
    · rw [decodeLoop_failed _ _ _ _ _ _ (by simp)
        (loop_not_alpha_early _ _ _ _ _ _ _ ha hna (Or.inl rfl))]
      have : IsStdBase64 (a :: t1) = false := by
        rcases t1 with _ | ⟨b, _ | ⟨c, _ | ⟨e, t⟩⟩⟩ <;> simp [IsStdBase64, ha]
      simp [this]
    rcases t1 with _ | ⟨b, t2⟩
    · rw [decodeLoop_failed _ _ _ _ _ _ (by simp)
        (by unfold decodeQuantum
            rw [loop_alpha _ _ _ _ _ _ _ ha, if_pos (by omega)]
            exact loop_end _ _ _ _ _ (by omega))]
      simp [IsStdBase64]
    have hnb := hcl b (by simp)
    by_cases hb : isAlphabet b = true
    swap
    · rw [decodeLoop_failed _ _ _ _ _ _ (by simp)
        (by unfold decodeQuantum
            rw [loop_alpha _ _ _ _ _ _ _ ha, if_pos (by omega)]
            exact loop_not_alpha_early _ _ _ _ _ _ _ hb hnb (Or.inr rfl))]
      have : IsStdBase64 (a :: b :: t2) = false := by
        rcases t2 with _ | ⟨c, _ | ⟨e, t⟩⟩ <;> simp [IsStdBase64, hb]
      simp [this]
    rcases t2 with _ | ⟨c, t3⟩
    · rw [decodeLoop_failed _ _ _ _ _ _ (by simp)
        (by unfold decodeQuantum
            rw [loop_alpha _ _ _ _ _ _ _ ha, if_pos (by omega),
              loop_alpha _ _ _ _ _ _ _ hb, if_pos (by omega)]
            exact loop_end _ _ _ _ _ (by omega))]
      simp [IsStdBase64]
    have hnc := hcl c (by simp)
    by_cases hc : isAlphabet c = true
    · -- three alphabet bytes
      rcases t3 with _ | ⟨e, t4⟩
      · rw [decodeLoop_failed _ _ _ _ _ _ (by simp)
          (by unfold decodeQuantum
              rw [loop_alpha _ _ _ _ _ _ _ ha, if_pos (by omega),
                loop_alpha _ _ _ _ _ _ _ hb, if_pos (by omega),
                loop_alpha _ _ _ _ _ _ _ hc, if_pos (by omega)]
              exact loop_end _ _ _ _ _ (by omega))]
        simp [IsStdBase64]
      have hne := hcl e (by simp)
      have hcl4 : ∀ x ∈ t4, ¬ (x = 10 ∨ x = 13) := fun x hx => hcl x (by simp [hx])
      simp only [List.length_cons] at hn hfuel hcap
      by_cases he : isAlphabet e = true
      · -- a full group
        rw [decodeLoop_succ _ _ _ _ _ _ (by simp), quantum_four _ _ _ _ _ _ _ _ ha hb hc he,
          if_neg (by omega)]
        simp only
        rw [ih t4 fuel _ _ (by omega) hcl4 (by omega)
          (by simp only [List.length_append, groupBytes, List.length_cons, List.length_nil]; omega)]
        have hstd : IsStdBase64 (a :: b :: c :: e :: t4) = IsStdBase64 t4 := by
          by_cases h4 : t4 = []
          · subst h4; simp [IsStdBase64, ha, hb, hc, he]
          · simp [IsStdBase64, ha, hb, hc, he, h4]
        have hdec : stdDecoded (a :: b :: c :: e :: t4) =
            groupBytes (sextet a * 2 ^ 18 + sextet b * 2 ^ 12 + sextet c * 2 ^ 6 + sextet e) ++
              stdDecoded t4 := by
          simp [stdDecoded, alpha_ne_pad c hc, alpha_ne_pad e he, groupBytes]
        rw [hstd, hdec, List.append_assoc]
      · by_cases hp : e = 61
        · -- one padding byte
          subst hp
          rw [decodeLoop_succ _ _ _ _ _ _ (by simp), quantum_pad_one _ _ _ _ _ _ _ ha hb hc hcl4,
            if_neg (by omega)]
          by_cases h4 : t4 = []
          · subst h4
            simp only [if_true, decodeLoop_nil]
            simp [IsStdBase64, stdDecoded, ha, hb, hc, alpha_ne_pad c hc, Outcome.forget]
          · simp only [if_neg h4]
            simp [IsStdBase64, ha, hb, hc, h4, pad_not_alpha, Outcome.forget]
        · rw [decodeLoop_failed _ _ _ _ _ _ (by simp)
            (by unfold decodeQuantum
                rw [loop_alpha _ _ _ _ _ _ _ ha, if_pos (by omega),
                  loop_alpha _ _ _ _ _ _ _ hb, if_pos (by omega),
                  loop_alpha _ _ _ _ _ _ _ hc, if_pos (by omega),
                  loop_bad _ _ _ _ _ _ _ he hne hp]
                exact ⟨_, _, _, rfl⟩)]
          have : IsStdBase64 (a :: b :: c :: e :: t4) = false := by
            by_cases h4 : t4 = []
            · subst h4; simp [IsStdBase64, he, hp]
            · simp [IsStdBase64, he, h4]
          simp [this]
    · by_cases hp : c = 61
      · subst hp
        rcases t3 with _ | ⟨e, t4⟩
        · rw [decodeLoop_failed _ _ _ _ _ _ (by simp)
            (by unfold decodeQuantum
                rw [loop_alpha _ _ _ _ _ _ _ ha, if_pos (by omega),
                  loop_alpha _ _ _ _ _ _ _ hb, if_pos (by omega), loop_pad_two_nil]
                exact ⟨_, _, _, rfl⟩)]
          simp [IsStdBase64]
        have hne := hcl e (by simp)
        have hcl4 : ∀ x ∈ t4, ¬ (x = 10 ∨ x = 13) := fun x hx => hcl x (by simp [hx])
        simp only [List.length_cons] at hn hfuel hcap
        by_cases hp2 : e = 61
        · -- two padding bytes
          subst hp2
          rw [decodeLoop_succ _ _ _ _ _ _ (by simp), quantum_pad_two _ _ _ _ _ _ ha hb hcl4,
            if_neg (by omega)]
          by_cases h4 : t4 = []
          · subst h4
            simp only [if_true, decodeLoop_nil]
            simp [IsStdBase64, stdDecoded, ha, hb, Outcome.forget]
          · simp only [if_neg h4]
            simp [IsStdBase64, ha, hb, h4, pad_not_alpha, Outcome.forget]
        · rw [decodeLoop_failed _ _ _ _ _ _ (by simp)
            (by unfold decodeQuantum
                rw [loop_alpha _ _ _ _ _ _ _ ha, if_pos (by omega),
                  loop_alpha _ _ _ _ _ _ _ hb, if_pos (by omega),
                  loop_pad_two_cons _ _ _ _ _ _ hne, if_pos hp2]
                exact ⟨_, _, _, rfl⟩)]
          have : IsStdBase64 (a :: b :: 61 :: e :: t4) = false := by
            by_cases h4 : t4 = []
            · subst h4; simp [IsStdBase64, hp2, pad_not_alpha]
            · simp [IsStdBase64, h4, pad_not_alpha]
          simp [this]
      · rw [decodeLoop_failed _ _ _ _ _ _ (by simp)
          (by unfold decodeQuantum
              rw [loop_alpha _ _ _ _ _ _ _ ha, if_pos (by omega),
                loop_alpha _ _ _ _ _ _ _ hb, if_pos (by omega),
                loop_bad _ _ _ _ _ _ _ hc hnc hp]
              exact ⟨_, _, _, rfl⟩)]
        have : IsStdBase64 (a :: b :: c :: t3) = false := by
          rcases t3 with _ | ⟨e, t4⟩
          · simp [IsStdBase64]
          · by_cases h4 : t4 = []
            · subst h4; simp [IsStdBase64, hc, hp]
            · simp [IsStdBase64, hc, h4]
        simp [this]

/-- The outcome of `Decode` into a destination at least as long as the source:
success with the RFC 4648 decoding exactly when the source without its newlines
has RFC 4648 syntax, an error otherwise, and never a panic. -/
theorem decode_forget (src : GoString) (d : Nat) (hd : src.length ≤ d) :
    (Decode d src).forget =
      if IsStdBase64 (stripNewlines src) = true then .ok (stdDecoded (stripNewlines src))
      else .error 0 := by
  unfold Decode
  by_cases h0 : src.length = 0
  · have : src = [] := List.length_eq_zero.1 h0
    subst this
    simp [stripNewlines, IsStdBase64, stdDecoded, Outcome.forget]
  · rw [if_neg h0,
      decodeLoop_strip d src.length src src.length 0 src.length (stripNewlines src).length 0 0 []
        (le_refl _) (le_refl _) (le_refl _),
      decodeLoop_clean 0 d (stripNewlines src).length (stripNewlines src) _ 0 [] (le_refl _)
        (strip_clean src) (le_refl _) (by have := strip_length src; simp; omega)]
    simp

theorem forget_ok {α : Type} (o : Outcome α) (a : α) (h : o.forget = .ok a) : o = .ok a := by
  cases o <;> simp_all [Outcome.forget]

theorem forget_error {α : Type} (o : Outcome α) (h : o.forget = .error 0) :
    ∃ e, o = .error e := by
  cases o with
  | ok a => simp [Outcome.forget] at h
  | error e => exact ⟨e, rfl⟩
  | panic => simp [Outcome.forget] at h

theorem decode_valid (src : GoString) (h : IsStdBase64 (stripNewlines src) = true) :
    Decode src.length src = .ok (stdDecoded (stripNewlines src)) := by
  apply forget_ok
  rw [decode_forget src _ (le_refl _), if_pos h]

theorem decode_invalid (src : GoString) (h : IsStdBase64 (stripNewlines src) = false) :
    ∃ e, Decode src.length src = .error e := by
  apply forget_error
  rw [decode_forget src _ (le_refl _), if_neg (by simp [h])]

/-! ## RFC 4648 syntax -/

theorem isStd_clean : ∀ (n : Nat) (t : GoString), t.length ≤ n → IsStdBase64 t = true →
    ∀ c ∈ t, ¬ (c = 10 ∨ c = 13) := by
  intro n
  induction n with
  | zero =>
    intro t hn _ c hc
    have : t = [] := List.length_eq_zero.1 (by omega)
    subst this
    simp at hc
  | succ n ih =>
    intro t hn h
    rcases t with _ | ⟨a, _ | ⟨b, _ | ⟨c, _ | ⟨e, t4⟩⟩⟩⟩
    · simp
    · simp [IsStdBase64] at h
    · simp [IsStdBase64] at h
    · simp [IsStdBase64] at h
    · have key : ∀ x : Byte, isAlphabet x = true ∨ x = 61 → ¬ (x = 10 ∨ x = 13) := by
        intro x hx
        rcases hx with hx | rfl
        · exact ((alphabet_facts x).2 hx).1
        · decide
      simp only [List.length_cons] at hn
      by_cases h4 : t4 = []
      · subst h4
        simp only [IsStdBase64, if_true, Bool.and_eq_true, Bool.or_eq_true,
          decide_eq_true_eq] at h
        obtain ⟨⟨ha, hb⟩, hce⟩ := h
        intro x hx
        simp only [List.mem_cons, List.mem_singleton, List.not_mem_nil, or_false] at hx
        rcases hx with rfl | rfl | rfl | rfl
        · exact key _ (Or.inl ha)
        · exact key _ (Or.inl hb)
        · rcases hce with ⟨h1, _⟩ | ⟨h1, _⟩
          · exact key _ (Or.inr h1)
          · exact key _ (Or.inl h1)
        · rcases hce with ⟨_, h1⟩ | ⟨_, h1 | h1⟩
          · exact key _ (Or.inr h1)
          · exact key _ (Or.inr h1)
          · exact key _ (Or.inl h1)
      · simp only [IsStdBase64, if_neg h4, Bool.and_eq_true] at h
        obtain ⟨⟨⟨⟨ha, hb⟩, hc⟩, he⟩, ht⟩ := h
        intro x hx
        simp only [List.mem_cons] at hx
        rcases hx with rfl | rfl | rfl | rfl | hx
        · exact key _ (Or.inl ha)
        · exact key _ (Or.inl hb)
        · exact key _ (Or.inl hc)
        · exact key _ (Or.inl he)
        · exact ih t4 (by omega) ht x hx

theorem strip_of_isStd (t : GoString) (h : IsStdBase64 t = true) : stripNewlines t = t :=
  strip_of_clean t (isStd_clean t.length t (le_refl _) h)

/-! ## RFC 4648 encoding and decoding are inverse -/

theorem encodeChar_facts : ∀ i : Fin 64,
    sextet (encodeChar i.val) = i.val ∧ isAlphabet (encodeChar i.val) = true ∧
    encodeChar i.val ≠ 61 := by
  decide

theorem encodeChar_mod (n : Nat) : encodeChar n = encodeChar (n % 64) := by
  simp [encodeChar]

theorem encodeChar_spec (n : Nat) :
    sextet (encodeChar n) = n % 64 ∧ isAlphabet (encodeChar n) = true ∧ encodeChar n ≠ 61 := by
  rw [encodeChar_mod]
  exact encodeChar_facts ⟨n % 64, Nat.mod_lt _ (by decide)⟩

theorem fin_ofNat_eq (x : Byte) (n : Nat) (h : n % 256 = x.val) :
    (Fin.ofNat n : Byte) = x := by
  apply Fin.ext
  simpa [Fin.ofNat] using h

theorem stdEncoded_spec : ∀ (n : Nat) (data : GoString), data.length ≤ n →
    IsStdBase64 (stdEncoded data) = true ∧ stdDecoded (stdEncoded data) = data := by
  intro n
  induction n with
  | zero =>
    intro data hn
    have : data = [] := List.length_eq_zero.1 (by omega)
    subst this
    simp [stdEncoded, IsStdBase64, stdDecoded]
  | succ n ih =>
    intro data hn
    rcases data with _ | ⟨a, _ | ⟨b, _ | ⟨c, rest⟩⟩⟩
    · simp [stdEncoded, IsStdBase64, stdDecoded]
    · have ha := a.isLt
      simp only [stdEncoded, IsStdBase64, stdDecoded, if_true, (encodeChar_spec _).1,
        (encodeChar_spec _).2.1, if_pos, List.append_nil, groupBytes, List.take]
      refine ⟨by simp, ?_⟩
      simp only [List.take_succ_cons, List.take_zero, List.cons.injEq, and_true]
      apply fin_ofNat_eq
      omega
    · have ha := a.isLt
      have hb := b.isLt
      simp only [stdEncoded, IsStdBase64, stdDecoded, if_true, (encodeChar_spec _).1,
        (encodeChar_spec _).2.1, (encodeChar_spec _).2.2, if_false, List.append_nil, groupBytes]
      refine ⟨by simp, ?_⟩
      simp only [List.take_succ_cons, List.take_zero, List.cons.injEq, and_true]
      exact ⟨fin_ofNat_eq _ _ (by omega), fin_ofNat_eq _ _ (by omega)⟩
    · have ha := a.isLt
      have hb := b.isLt
      have hc := c.isLt
      simp only [List.length_cons] at hn
      obtain ⟨ih1, ih2⟩ := ih rest (by omega)
      have hE : stdEncoded (a :: b :: c :: rest) =
          encodeChar ((a.val * 2 ^ 16 + b.val * 2 ^ 8 + c.val) / 2 ^ 18) ::
          encodeChar ((a.val * 2 ^ 16 + b.val * 2 ^ 8 + c.val) / 2 ^ 12) ::
          encodeChar ((a.val * 2 ^ 16 + b.val * 2 ^ 8 + c.val) / 2 ^ 6) ::
          encodeChar (a.val * 2 ^ 16 + b.val * 2 ^ 8 + c.val) :: stdEncoded rest := by
        simp [stdEncoded]
      rw [hE]
      constructor
      · by_cases h4 : stdEncoded rest = []
        · simp [IsStdBase64, h4, (encodeChar_spec _).2.1]
        · simp [IsStdBase64, h4, (encodeChar_spec _).2.1, ih1]
      · simp only [stdDecoded, (encodeChar_spec _).1, (encodeChar_spec _).2.2, if_false,
          groupBytes, ih2, List.take_succ_cons, List.take_zero, List.cons_append,
          List.nil_append, List.cons.injEq, and_true]
        exact ⟨fin_ofNat_eq _ _ (by omega), fin_ofNat_eq _ _ (by omega),
          fin_ofNat_eq _ _ (by omega)⟩

theorem httpRequest_base64_ok {U : Type} (urlParse : GoString → Option U) (r : Request)
    (hb : r.IsBase64Encoded = true) (raw : GoString)
    (hd : Decode r.Body.length r.Body = .ok raw) :
    ∃ req, r.httpRequest urlParse = .ok req ∧ req.Body = raw ∧ req.ContentLength = raw.length := by
  unfold Request.httpRequest
  simp only [hb, if_true, hd]
  exact ⟨_, rfl, rfl, rfl⟩

theorem httpRequest_base64_error {U : Type} (urlParse : GoString → Option U) (r : Request)
    (hb : r.IsBase64Encoded = true) (e : CorruptInputError)
    (hd : Decode r.Body.length r.Body = .error e) :
    r.httpRequest urlParse = .error e := by
  unfold Request.httpRequest
  simp only [hb, if_true, hd]

/-- Claim C2: for every event with `isBase64Encoded = true` whose `body` is a
valid standard-alphabet padded base64 string, `httpRequest` returns a request and
no error, the body of the request is exactly the base64 decoding of `body`, and
`ContentLength` is the number of decoded bytes.  In particular, when `body` is the
standard encoding of `data`, the request body is `data`. -/
theorem base64_body_decoded {U : Type} (urlParse : GoString → Option U) (r : Request)
    (hb : r.IsBase64Encoded = true) (hv : IsStdBase64 r.Body = true) :
    ∃ req, r.httpRequest urlParse = .ok req ∧ req.Body = stdDecoded r.Body ∧
      req.ContentLength = (stdDecoded r.Body).length ∧
      ∀ data, r.Body = stdEncoded data → req.Body = data := by
  have hs := strip_of_isStd r.Body hv
  have hd := decode_valid r.Body (by rw [hs]; exact hv)
  rw [hs] at hd
  obtain ⟨req, h1, h2, h3⟩ := httpRequest_base64_ok urlParse r hb _ hd
  refine ⟨req, h1, h2, h3, ?_⟩
  intro data he
  rw [h2, he]
  exact (stdEncoded_spec data.length data (le_refl _)).2

theorem base64_body_decoded_witness :
    base64Event.IsBase64Encoded = true ∧ IsStdBase64 base64Event.Body = true ∧
    stdDecoded base64Event.Body = str "\x7b\"a\":1\x7d" ∧
    ∃ req, base64Event.httpRequest noParse = .ok req ∧ req.Body = stdDecoded base64Event.Body ∧
      req.ContentLength = (stdDecoded base64Event.Body).length ∧
      ∀ data, base64Event.Body = stdEncoded data → req.Body = data :=
  ⟨rfl, by decide, by decide, base64_body_decoded noParse base64Event rfl (by decide)⟩

/-- Claim C3 as stated fails: the body `QQ==` followed by a line feed is not a
valid standard padded base64 string, yet `httpRequest` decodes it to the byte `A`
and returns a request, because the decoder ignores line feeds and carriage returns. -/
theorem invalid_base64_counterexample :
    ¬ ∀ r : Request, r.IsBase64Encoded = true → IsStdBase64 r.Body = false →
      ∃ e, r.httpRequest noParse = .error e := by
  intro h
  obtain ⟨e, he⟩ := h newlineEvent rfl (by decide)
  obtain ⟨req, h1, -⟩ := httpRequest_base64_ok noParse newlineEvent rfl (str "A") (by decide)
  rw [h1] at he
  exact absurd he (by simp)

/-- Claim C3, amended: for every event with `isBase64Encoded = true`,
`httpRequest` returns an error (and no request) exactly when `body`, with its
carriage returns and line feeds removed, is not a valid standard-alphabet padded
base64 string; and for every event with `isBase64Encoded = false` it returns a
request whatever the content of `body`. -/
theorem invalid_base64_rejected {U : Type} (urlParse : GoString → Option U) (r : Request) :
    (r.IsBase64Encoded = true →
      ((∃ e, r.httpRequest urlParse = .error e) ↔
        IsStdBase64 (stripNewlines r.Body) = false)) ∧
    (r.IsBase64Encoded = false → ∃ req, r.httpRequest urlParse = .ok req) := by
  constructor
  · intro hb
    constructor
    · rintro ⟨e, he⟩
      by_contra hv
      have hv' : IsStdBase64 (stripNewlines r.Body) = true := by simpa using hv
      obtain ⟨req, h1, -⟩ := httpRequest_base64_ok urlParse r hb _ (decode_valid r.Body hv')
      rw [h1] at he
      exact absurd he (by simp)
    · intro hv
      obtain ⟨e, he⟩ := decode_invalid r.Body hv
      exact ⟨e, httpRequest_base64_error urlParse r hb e he⟩
  · intro hb
    obtain ⟨req, h, _⟩ := httpRequest_plain urlParse r hb
    exact ⟨req, h⟩

theorem invalid_base64_rejected_witness :
    unpaddedEvent.IsBase64Encoded = true ∧
    IsStdBase64 (stripNewlines unpaddedEvent.Body) = false ∧
    (∃ e, unpaddedEvent.httpRequest noParse = .error e) ∧
    sampleEvent.IsBase64Encoded = false ∧ ∃ req, sampleEvent.httpRequest noParse = .ok req :=
  ⟨rfl, by decide,
    ((invalid_base64_rejected noParse unpaddedEvent).1 rfl).2 (by decide), rfl,
    (invalid_base64_rejected noParse sampleEvent).2 rfl⟩

theorem run_append (w : ResponseWriter) (a b : List Op) :
    w.run (a ++ b) = (w.run a).run b := by
  simp [ResponseWriter.run, List.foldl_append]

theorem run_buffer (ops : List Op) (w : ResponseWriter) :
    (w.run ops).Buffer = w.Buffer ++ (ops.map Op.written).flatten := by
  induction ops generalizing w with
  | nil => simp [ResponseWriter.run]
  | cons op ops ih =>
    rw [run_cons, ih]
    cases op <;>
      simp [ResponseWriter.step, ResponseWriter.WriteHeader, ResponseWriter.Write, Op.written]

theorem run_writes_header (bs : List GoString) (w : ResponseWriter) :
    (w.run (bs.map Op.write)).header = w.header ∧
    (w.run (bs.map Op.write)).statusCode = w.statusCode := by
  induction bs generalizing w with
  | nil => exact ⟨rfl, rfl⟩
  | cons b bs ih =>
    simp only [List.map_cons, run_cons]
    exact ih _

/-- Claim C15: for every sequence of operations on a writer, the status code
`Response()` exports is the argument of the last `WriteHeader` call, for any
integer argument, whatever body writes and header mutations come before and
after it; `WriteHeader` changes neither the header map nor the body. -/
theorem writeHeader_last_wins (w : ResponseWriter) (before after : List Op) (c : Int)
    (h : ∀ op ∈ after, op.isWriteHeader = false) :
    (w.run (before ++ Op.writeHeader c :: after)).Response.2.StatusCode = c ∧
    (w.WriteHeader c).header = w.header ∧ (w.WriteHeader c).Buffer = w.Buffer := by
  refine ⟨?_, rfl, rfl⟩
  show (w.run (before ++ Op.writeHeader c :: after)).statusCode = c
  rw [run_append, run_cons, run_statusCode after _ h]
  rfl

theorem writeHeader_last_wins_witness :
    (∀ op ∈ [Op.write (str "x"), Op.headerSet (str "A") (str "1")], op.isWriteHeader = false) ∧
    (NewResponseWriter.run ([Op.writeHeader 404, Op.write (str "y")] ++
      Op.writeHeader (-7) :: [Op.write (str "x"), Op.headerSet (str "A") (str "1")])).Response.2.StatusCode
      = -7 :=
  ⟨by decide, (writeHeader_last_wins NewResponseWriter [Op.writeHeader 404, Op.write (str "y")]
    [Op.write (str "x"), Op.headerSet (str "A") (str "1")] (-7) (by decide)).1⟩

/-- Claim C16: every write reports `len(p)` bytes and a nil error, appends `p` to
the body and changes neither the status code nor the header map; after the
byte strings `bs` are written to a fresh writer, `Response()` exports their
concatenation in write order as `Body`, with status 200 and no headers; and
for any sequence of operations on any writer the body is the old body followed
by the written byte strings in order. -/
theorem body_is_concatenation (w : ResponseWriter) (p : GoString) (bs : List GoString)
    (ops : List Op) :
    (w.Write p).2 = (p.length, none) ∧ (w.Write p).1.Buffer = w.Buffer ++ p ∧
    (w.Write p).1.statusCode = w.statusCode ∧ (w.Write p).1.header = w.header ∧
    (NewResponseWriter.run (bs.map Op.write)).Response.2.Body = bs.flatten ∧
    (NewResponseWriter.run (bs.map Op.write)).Response.2.StatusCode = 200 ∧
    (NewResponseWriter.run (bs.map Op.write)).Response.2.Headers = [] ∧
    (w.run ops).Response.2.Body = w.Buffer ++ (ops.map Op.written).flatten := by
  refine ⟨rfl, rfl, rfl, rfl, ?_, ?_, ?_, run_buffer ops w⟩
  · show (NewResponseWriter.run (bs.map Op.write)).Buffer = bs.flatten
    rw [run_buffer]
    simp [NewResponseWriter, Op.written, Function.comp_def]
  · show (NewResponseWriter.run (bs.map Op.write)).statusCode = 200
    rw [(run_writes_header bs _).2]; rfl
  · show collectHeaders (NewResponseWriter.run (bs.map Op.write)).header
      (NewResponseWriter.run (bs.map Op.write)).header.keys = []
    rw [(run_writes_header bs _).1]; rfl

/-- Claim C14 fails on the code: after the direct map assignment
`w.Header()["x-lower"] = []string{"v"}` on a fresh writer the header map holds
`x-lower: [v]`, but `Response()` exports the empty string under `x-lower`, because
it reads the value with `Header.Get`, which looks up the canonical name `X-Lower`. -/
theorem response_noncanonical_name :
    (NewResponseWriter.run [.headerAssign (str "x-lower") [str "v"]]).header =
      [(str "x-lower", [str "v"])] ∧
    (NewResponseWriter.run [.headerAssign (str "x-lower") [str "v"]]).Response.2.Headers =
      [(str "x-lower", [])] := by
  decide

/-- The outcome of `httpRequest` depends on the body alone: a request unless the
body is flagged as base64 and, without its newlines, is not valid base64. -/
theorem httpRequest_outcome {U : Type} (urlParse : GoString → Option U) (r : Request) :
    (r.IsBase64Encoded = false ∨ IsStdBase64 (stripNewlines r.Body) = true →
      ∃ req, r.httpRequest urlParse = .ok req) ∧
    (r.IsBase64Encoded = true → IsStdBase64 (stripNewlines r.Body) = false →
      ∃ e, r.httpRequest urlParse = .error e) := by
  constructor
  · intro h
    by_cases hb : r.IsBase64Encoded = true
    · rcases h with h | h
      · rw [hb] at h; exact absurd h (by simp)
      · obtain ⟨req, h1, -⟩ := httpRequest_base64_ok urlParse r hb _ (decode_valid r.Body h)
        exact ⟨req, h1⟩
    · obtain ⟨req, h1, -⟩ := httpRequest_plain urlParse r (by simpa using hb)
      exact ⟨req, h1⟩
  · intro hb hv
    obtain ⟨e, he⟩ := decode_invalid r.Body hv
    exact ⟨e, httpRequest_base64_error urlParse r hb e he⟩

theorem httpRequest_no_panic {U : Type} (urlParse : GoString → Option U) (r : Request) :
    r.httpRequest urlParse ≠ .panic := by
  have h := httpRequest_outcome urlParse r
  by_cases hb : r.IsBase64Encoded = true
  · by_cases hv : IsStdBase64 (stripNewlines r.Body) = true
    · obtain ⟨req, h1⟩ := h.1 (Or.inr hv)
      rw [h1]; simp
    · obtain ⟨e, h1⟩ := h.2 hb (by simpa using hv)
      rw [h1]; simp
  · obtain ⟨req, h1⟩ := h.1 (Or.inl (by simpa using hb))
    rw [h1]; simp

/-- Claim C11: `httpRequest` fails only because of base64 malformation.  For
every event with `isBase64Encoded = false`, or with `isBase64Encoded = true` and
a valid base64 body, it returns a request and no error, whatever `url.Parse`
does with the composed URI: `RequestURI` is the composed string and `URL` is
what `url.Parse` returned, nil when it rejects the string.  The same holds for
every event with that body and flag, whatever its path and query mapping. -/
theorem fails_only_on_base64 {U : Type} (urlParse : GoString → Option U) (r : Request)
    (h : r.IsBase64Encoded = false ∨ IsStdBase64 r.Body = true) :
    (∃ req, r.httpRequest urlParse = .ok req ∧ req.RequestURI = builtURI r ∧
      req.URL = urlParse (builtURI r) ∧ (urlParse (builtURI r) = none → req.URL = none)) ∧
    (∀ r' : Request, r'.Body = r.Body → r'.IsBase64Encoded = r.IsBase64Encoded →
      ∃ req, r'.httpRequest urlParse = .ok req) := by
  have key : ∀ r' : Request, r'.Body = r.Body → r'.IsBase64Encoded = r.IsBase64Encoded →
      ∃ req, r'.httpRequest urlParse = .ok req := by
    intro r' hB hE
    apply (httpRequest_outcome urlParse r').1
    rw [hB, hE]
    rcases h with h | h
    · exact Or.inl h
    · exact Or.inr (by rw [strip_of_isStd _ h]; exact h)
  refine ⟨?_, key⟩
  obtain ⟨req, h1⟩ := key r rfl rfl
  obtain ⟨-, -, -, -, -, -, hU, hL, -⟩ := httpRequest_fields urlParse r req h1
  exact ⟨req, h1, hU, hL, fun hn => by rw [hL, hn]⟩

theorem fails_only_on_base64_witness :
    (percentEvent.IsBase64Encoded = false ∨ IsStdBase64 percentEvent.Body = true) ∧
    noParse (builtURI percentEvent) = none ∧
    percentEvent.httpRequest noParse = .ok percentRequest ∧
    ∃ req, percentEvent.httpRequest noParse = .ok req ∧ req.RequestURI = builtURI percentEvent ∧
      req.URL = noParse (builtURI percentEvent) ∧
      (noParse (builtURI percentEvent) = none → req.URL = none) :=
  ⟨Or.inl rfl, rfl, by decide, (fails_only_on_base64 noParse percentEvent (Or.inl rfl)).1⟩

/-- Claim C18: for every event for which `httpRequest` returns a request,
`RemoteAddr` is the `sourceIp` entry of `requestContext.identity`, and the empty
string when that entry is absent, when `identity` is empty or absent, and when
the whole `requestContext` is absent; the absence causes no error. -/
theorem remote_addr_from_identity {U : Type} (urlParse : GoString → Option U) (r : Request)
    (req : HttpRequest U) (h : r.httpRequest urlParse = .ok req) :
    (∀ v, r.RequestContext.Identity.get (str "sourceIp") = some v → req.RemoteAddr = v) ∧
    (r.RequestContext.Identity.get (str "sourceIp") = none → req.RemoteAddr = []) ∧
    (r.RequestContext.Identity = [] → req.RemoteAddr = []) ∧
    (r.RequestContext = emptyContext → req.RemoteAddr = []) ∧
    (∃ req', ({ r with RequestContext := emptyContext }).httpRequest urlParse = .ok req' ∧
      req'.RemoteAddr = []) := by
  have hR := (httpRequest_fields urlParse r req h).2.2.2.2.2.2.2.2.1
  refine ⟨fun v hv => by rw [hR, hv]; rfl, fun hn => by rw [hR, hn]; rfl,
    fun hn => by rw [hR, hn]; rfl, fun hn => by rw [hR, hn]; rfl, ?_⟩
  have hok : ∃ req', ({ r with RequestContext := emptyContext }).httpRequest urlParse = .ok req' := by
    apply (httpRequest_outcome urlParse _).1
    by_cases hb : r.IsBase64Encoded = true
    · right
      by_contra hv
      obtain ⟨e, he⟩ := (httpRequest_outcome urlParse r).2 hb (by simpa using hv)
      rw [he] at h
      exact absurd h (by simp)
    · left
      simpa using hb
  obtain ⟨req', h'⟩ := hok
  exact ⟨req', h', (httpRequest_fields urlParse _ req' h').2.2.2.2.2.2.2.2.1⟩

theorem remote_addr_from_identity_witness :
    sampleEvent.httpRequest noParse = .ok sampleRequest ∧
    (sampleEvent.RequestContext.Identity.get (str "sourceIp") = none →
      sampleRequest.RemoteAddr = []) :=
  ⟨sampleEvent_decodes,
    (remote_addr_from_identity noParse sampleEvent sampleRequest sampleEvent_decodes).2.1⟩

theorem scenario_fields {U : Type} (urlParse : GoString → Option U) (r : Request)
    (hb : r.IsBase64Encoded = true)
    (hd : Decode r.Body.length r.Body = .ok (str "\x7b\"a\":1\x7d"))
    (hm : r.HTTPMethod = str "POST") (hu : builtURI r = str "/items?q=1")
    (hr : (r.RequestContext.Identity.get (str "sourceIp")).getD [] = str "10.0.0.1")
    (hh : (builtHeader r).Get (str "Host") = str "api.example.com")
    (hH : (builtHeader r).Del (str "Host") = [(str "Content-Type", [str "application/json"])]) :
    ∃ req, r.httpRequest urlParse = .ok req ∧ scenarioHolds req := by
  obtain ⟨req, h1, h2, h3⟩ := httpRequest_base64_ok urlParse r hb _ hd
  obtain ⟨f1, f2, f3, f4, f5, f6, f7, -, f9, -⟩ := httpRequest_fields urlParse r req h1
  refine ⟨req, h1, ?_⟩
  unfold scenarioHolds
  rw [f1, f7, h2, h3, f9, f6, f2, f3, f4, f5, hm, hu, hr, hh, hH]
  decide

/-- Claim C19: the event of the concrete scenario decodes without error, in
either enumeration order of its two headers and whatever `url.Parse` returns, to
a request with method `POST`, request URI `/items?q=1`, the body bytes
`\x7b"a":1\x7d`, content length 7, remote address `10.0.0.1`, host
`api.example.com`, protocol `HTTP/1.1` (major 1, minor 1), and a header map that
has no `Host` entry and has `Content-Type` = `application/json`. -/
theorem concrete_scenario {U : Type} (urlParse : GoString → Option U) :
    (∃ req, scenarioEvent.httpRequest urlParse = .ok req ∧ scenarioHolds req) ∧
    (∃ req, scenarioEventSwapped.httpRequest urlParse = .ok req ∧ scenarioHolds req) :=
  ⟨scenario_fields urlParse scenarioEvent rfl (by decide) rfl (by decide) (by decide)
      (by decide) (by decide),
    scenario_fields urlParse scenarioEventSwapped rfl (by decide) rfl (by decide) (by decide)
      (by decide) (by decide)⟩

/-! ## encoding/base64: the destination is large enough -/

theorem stdDecoded_length : ∀ (n : Nat) (t : GoString), t.length ≤ n →
    (stdDecoded t).length ≤ t.length := by
  intro n
  induction n with
  | zero =>
    intro t hn
    have : t = [] := List.length_eq_zero.1 (by omega)
    subst this
    simp [stdDecoded]
  | succ n ih =>
    intro t hn
    rcases t with _ | ⟨a, _ | ⟨b, _ | ⟨c, _ | ⟨e, t4⟩⟩⟩⟩
    · simp [stdDecoded]
    · simp [stdDecoded]
    · simp [stdDecoded]
    · simp [stdDecoded]
    · simp only [List.length_cons] at hn
      have h4 := ih t4 (by omega)
      simp only [stdDecoded, List.length_append, List.length_take, groupBytes, List.length_cons,
        List.length_nil]
      omega

theorem decode_ok_length (body : GoString) (d : Nat) (hd : body.length ≤ d) (raw : GoString)
    (h : Decode d body = .ok raw) : raw.length ≤ body.length := by
  have hf := decode_forget body d hd
  rw [h] at hf
  by_cases hv : IsStdBase64 (stripNewlines body) = true
  · rw [if_pos hv] at hf
    simp only [Outcome.forget, Outcome.ok.injEq] at hf
    rw [hf]
    have := stdDecoded_length _ (stripNewlines body) (le_refl _)
    have := strip_length body
    omega
  · rw [if_neg hv] at hf
    simp [Outcome.forget] at hf

theorem decode_no_panic (body : GoString) (d : Nat) (hd : body.length ≤ d) :
    Decode d body ≠ .panic := by
  intro hp
  have hf := decode_forget body d hd
  rw [hp] at hf
  split at hf <;> simp [Outcome.forget] at hf

/-! ## encoding/base64: the fast loops agree with the quantum loop -/

theorem decodeLoop_fuel (s d : Nat) : ∀ (f1 f2 : Nat) (rest : GoString) (si : Nat)
    (out : GoString), rest.length ≤ f1 → rest.length ≤ f2 →
    decodeLoop s d f1 rest si out = decodeLoop s d f2 rest si out := by
  intro f1
  induction f1 with
  | zero =>
    intro f2 rest si out h1 _
    have : rest = [] := List.length_eq_zero.1 (by omega)
    subst this
    rw [decodeLoop_nil, decodeLoop_nil]
  | succ f1 ih =>
    intro f2 rest si out h1 h2
    by_cases hr : rest = []
    · subst hr
      rw [decodeLoop_nil, decodeLoop_nil]
    · have : 0 < rest.length := List.length_pos.2 hr
      obtain ⟨f2, rfl⟩ : ∃ f, f2 = f + 1 := ⟨f2 - 1, by omega⟩
      rw [decodeLoop_succ _ _ _ _ _ _ hr, decodeLoop_succ _ _ _ _ _ _ hr]
      cases hq : decodeQuantum s (d - out.length) rest si with
      | panic => rfl
      | ret rest' si' stored err =>
        cases err with
        | some e => rfl
        | none =>
          have hl := (loop_rest_length _ _ _ _ _ _ _ _ _ _ hq).2 hr
          exact ih f2 rest' si' _ (by omega) (by omega)

theorem byte_or_ff : ∀ x : Byte, x ||| 255 = 255 ∧ 255 ||| x = 255 := by decide

theorem byte_or_val (x y : Byte) : (x ||| y).val = (x.val ||| y.val) % 256 := rfl

theorem decodeMap_sixOrFF : ∀ c : Byte, (decodeMap c).val < 64 ∨ decodeMap c = 255 := by decide

theorem or_sixOrFF (x y : Byte) (hx : sixOrFF x) (hy : sixOrFF y) :
    sixOrFF (x ||| y) ∧ ((x ||| y) = 255 ↔ (x = 255 ∨ y = 255)) := by
  rcases hx with hx | rfl
  · rcases hy with hy | rfl
    · have h64 : x.val ||| y.val < 2 ^ 6 := Nat.or_lt_two_pow (by omega) (by omega)
      have hv : (x ||| y).val < 64 := by
        rw [byte_or_val]
        have : (x.val ||| y.val) % 256 = x.val ||| y.val := Nat.mod_eq_of_lt (by omega)
        omega
      refine ⟨Or.inl hv, ?_⟩
      constructor
      · intro h
        rw [h] at hv
        exact absurd hv (by decide)
      · rintro (h | h)
        · rw [h] at hx; exact absurd hx (by decide)
        · rw [h] at hy; exact absurd hy (by decide)
    · rw [(byte_or_ff x).1]
      exact ⟨Or.inr rfl, by simp⟩
  · rw [(byte_or_ff y).2]
    exact ⟨Or.inr rfl, by simp⟩

theorem or_add (a b i : Nat) (hb : b < 2 ^ i) : a * 2 ^ i ||| b = a * 2 ^ i + b := by
  rw [Nat.mul_comm]
  exact (Nat.mul_add_lt_is_or hb a).symm

theorem pack32_eq (x1 x2 x3 x4 : Nat) (h2 : x2 < 64) (h3 : x3 < 64) (h4 : x4 < 64) :
    x1 <<< 26 ||| x2 <<< 20 ||| x3 <<< 14 ||| x4 <<< 8 =
      (x1 * 2 ^ 18 + x2 * 2 ^ 12 + x3 * 2 ^ 6 + x4) * 2 ^ 8 := by
  simp only [Nat.shiftLeft_eq, Nat.or_assoc]
  rw [or_add x3 (x4 * 2 ^ 8) 14 (by omega), or_add x2 _ 20 (by omega),
    or_add x1 _ 26 (by omega)]
  omega

theorem pack64_eq (x1 x2 x3 x4 x5 x6 x7 x8 : Nat) (h2 : x2 < 64) (h3 : x3 < 64) (h4 : x4 < 64)
    (h5 : x5 < 64) (h6 : x6 < 64) (h7 : x7 < 64) (h8 : x8 < 64) :
    x1 <<< 58 ||| x2 <<< 52 ||| x3 <<< 46 ||| x4 <<< 40 ||| x5 <<< 34 ||| x6 <<< 28 |||
      x7 <<< 22 ||| x8 <<< 16 =
      ((x1 * 2 ^ 18 + x2 * 2 ^ 12 + x3 * 2 ^ 6 + x4) * 2 ^ 24 +
        (x5 * 2 ^ 18 + x6 * 2 ^ 12 + x7 * 2 ^ 6 + x8)) * 2 ^ 16 := by
  simp only [Nat.shiftLeft_eq, Nat.or_assoc]
  rw [or_add x7 (x8 * 2 ^ 16) 22 (by omega), or_add x6 _ 28 (by omega),
    or_add x5 _ 34 (by omega), or_add x4 _ 40 (by omega), or_add x3 _ 46 (by omega),
    or_add x2 _ 52 (by omega), or_add x1 _ 58 (by omega)]
  omega

theorem fin_ofNat_congr (a b : Nat) (h : a % 256 = b % 256) :
    (Fin.ofNat a : Byte) = Fin.ofNat b := by
  apply Fin.ext
  simpa [Fin.ofNat] using h

theorem decodeMap_ne_ff (c : Byte) : decodeMap c ≠ 255 ↔ isAlphabet c = true :=
  (alphabet_facts c).1

theorem decodeMap_eq_ff (c : Byte) : decodeMap c = 255 ↔ ¬ isAlphabet c = true := by
  rw [← decodeMap_ne_ff]; simp

theorem assemble32_none (a b c e : Byte)
    (h : assemble32 (decodeMap a) (decodeMap b) (decodeMap c) (decodeMap e) = none) :
    ¬ (isAlphabet a = true ∧ isAlphabet b = true ∧ isAlphabet c = true ∧
      isAlphabet e = true) := by
  unfold assemble32 at h
  split at h
  · rename_i hor
    have h1 := or_sixOrFF _ _ (decodeMap_sixOrFF a) (decodeMap_sixOrFF b)
    have h2 := or_sixOrFF _ _ h1.1 (decodeMap_sixOrFF c)
    have h3 := or_sixOrFF _ _ h2.1 (decodeMap_sixOrFF e)
    rw [h3.2, h2.2, h1.2] at hor
    simp only [decodeMap_eq_ff] at hor
    tauto
  · exact absurd h (by simp)

theorem assemble32_some (a b c e : Byte) (dn : Nat)
    (h : assemble32 (decodeMap a) (decodeMap b) (decodeMap c) (decodeMap e) = some dn) :
    (isAlphabet a = true ∧ isAlphabet b = true ∧ isAlphabet c = true ∧ isAlphabet e = true) ∧
    (putUint32 dn).take 3 =
      groupBytes (sextet a * 2 ^ 18 + sextet b * 2 ^ 12 + sextet c * 2 ^ 6 + sextet e) := by
  unfold assemble32 at h
  split at h
  · exact absurd h (by simp)
  · rename_i hor
    have h1 := or_sixOrFF _ _ (decodeMap_sixOrFF a) (decodeMap_sixOrFF b)
    have h2 := or_sixOrFF _ _ h1.1 (decodeMap_sixOrFF c)
    have h3 := or_sixOrFF _ _ h2.1 (decodeMap_sixOrFF e)
    rw [h3.2, h2.2, h1.2] at hor
    simp only [decodeMap_eq_ff] at hor
    have ha : isAlphabet a = true := by by_contra hc; exact hor (Or.inl (Or.inl (Or.inl hc)))
    have hb : isAlphabet b = true := by by_contra hc; exact hor (Or.inl (Or.inl (Or.inr hc)))
    have hc : isAlphabet c = true := by by_contra hc; exact hor (Or.inl (Or.inr hc))
    have he : isAlphabet e = true := by by_contra hc; exact hor (Or.inr hc)
    refine ⟨⟨ha, hb, hc, he⟩, ?_⟩
    have v1 := alpha_val a ha
    have v2 := alpha_val b hb
    have v3 := alpha_val c hc
    have v4 := alpha_val e he
    injection h with h
    rw [pack32_eq _ _ _ _ (by omega) (by omega) (by omega), v1.1, v2.1, v3.1, v4.1] at h
    subst h
    simp only [putUint32, groupBytes, List.take_succ_cons, List.take_zero,
      Nat.shiftRight_eq_div_pow]
    have e1 := v1.2
    have e2 := v2.2
    have e3 := v3.2
    have e4 := v4.2
    generalize sextet a = s1 at *
    generalize sextet b = s2 at *
    generalize sextet c = s3 at *
    generalize sextet e = s4 at *
    refine List.cons_eq_cons.2 ⟨fin_ofNat_congr _ _ (by omega), List.cons_eq_cons.2
      ⟨fin_ofNat_congr _ _ (by omega), List.cons_eq_cons.2 ⟨fin_ofNat_congr _ _ (by omega), rfl⟩⟩⟩

theorem or8_eq_ff (a1 a2 a3 a4 a5 a6 a7 a8 : Byte) :
    (decodeMap a1 ||| decodeMap a2 ||| decodeMap a3 ||| decodeMap a4 ||| decodeMap a5 |||
      decodeMap a6 ||| decodeMap a7 ||| decodeMap a8 = 255) ↔
    ¬ (isAlphabet a1 = true ∧ isAlphabet a2 = true ∧ isAlphabet a3 = true ∧
      isAlphabet a4 = true ∧ isAlphabet a5 = true ∧ isAlphabet a6 = true ∧
      isAlphabet a7 = true ∧ isAlphabet a8 = true) := by
  have h1 := or_sixOrFF _ _ (decodeMap_sixOrFF a1) (decodeMap_sixOrFF a2)
  have h2 := or_sixOrFF _ _ h1.1 (decodeMap_sixOrFF a3)
  have h3 := or_sixOrFF _ _ h2.1 (decodeMap_sixOrFF a4)
  have h4 := or_sixOrFF _ _ h3.1 (decodeMap_sixOrFF a5)
  have h5 := or_sixOrFF _ _ h4.1 (decodeMap_sixOrFF a6)
  have h6 := or_sixOrFF _ _ h5.1 (decodeMap_sixOrFF a7)
  have h7 := or_sixOrFF _ _ h6.1 (decodeMap_sixOrFF a8)
  rw [h7.2, h6.2, h5.2, h4.2, h3.2, h2.2, h1.2]
  simp only [decodeMap_eq_ff, not_and_or, or_assoc]

theorem assemble64_none (a1 a2 a3 a4 a5 a6 a7 a8 : Byte)
    (h : assemble64 (decodeMap a1) (decodeMap a2) (decodeMap a3) (decodeMap a4) (decodeMap a5)
      (decodeMap a6) (decodeMap a7) (decodeMap a8) = none) :
    ¬ (isAlphabet a1 = true ∧ isAlphabet a2 = true ∧ isAlphabet a3 = true ∧
      isAlphabet a4 = true ∧ isAlphabet a5 = true ∧ isAlphabet a6 = true ∧
      isAlphabet a7 = true ∧ isAlphabet a8 = true) := by
  unfold assemble64 at h
  split at h
  · rename_i hor
    exact (or8_eq_ff _ _ _ _ _ _ _ _).1 hor
  · exact absurd h (by simp)

theorem assemble64_some (a1 a2 a3 a4 a5 a6 a7 a8 : Byte) (dn : Nat)
    (h : assemble64 (decodeMap a1) (decodeMap a2) (decodeMap a3) (decodeMap a4) (decodeMap a5)
      (decodeMap a6) (decodeMap a7) (decodeMap a8) = some dn) :
    (isAlphabet a1 = true ∧ isAlphabet a2 = true ∧ isAlphabet a3 = true ∧
      isAlphabet a4 = true ∧ isAlphabet a5 = true ∧ isAlphabet a6 = true ∧
      isAlphabet a7 = true ∧ isAlphabet a8 = true) ∧
    (putUint64 dn).take 6 =
      groupBytes (sextet a1 * 2 ^ 18 + sextet a2 * 2 ^ 12 + sextet a3 * 2 ^ 6 + sextet a4) ++
      groupBytes (sextet a5 * 2 ^ 18 + sextet a6 * 2 ^ 12 + sextet a7 * 2 ^ 6 + sextet a8) := by
  unfold assemble64 at h
  split at h
  · exact absurd h (by simp)
  · rename_i hor
    have hall := not_not.1 (fun hc => hor ((or8_eq_ff _ _ _ _ _ _ _ _).2 hc))
    obtain ⟨p1, p2, p3, p4, p5, p6, p7, p8⟩ := hall
    refine ⟨⟨p1, p2, p3, p4, p5, p6, p7, p8⟩, ?_⟩
    have v1 := alpha_val a1 p1
    have v2 := alpha_val a2 p2
    have v3 := alpha_val a3 p3
    have v4 := alpha_val a4 p4
    have v5 := alpha_val a5 p5
    have v6 := alpha_val a6 p6
    have v7 := alpha_val a7 p7
    have v8 := alpha_val a8 p8
    injection h with h
    rw [pack64_eq _ _ _ _ _ _ _ _ (by omega) (by omega) (by omega) (by omega) (by omega)
      (by omega) (by omega), v1.1, v2.1, v3.1, v4.1, v5.1, v6.1, v7.1, v8.1] at h
    subst h
    simp only [putUint64, groupBytes, List.take_succ_cons, List.take_zero,
      Nat.shiftRight_eq_div_pow, List.cons_append, List.nil_append]
    have e1 := v1.2
    have e2 := v2.2
    have e3 := v3.2
    have e4 := v4.2
    have e5 := v5.2
    have e6 := v6.2
    have e7 := v7.2
    have e8 := v8.2
    generalize sextet a1 = s1 at *
    generalize sextet a2 = s2 at *
    generalize sextet a3 = s3 at *
    generalize sextet a4 = s4 at *
    generalize sextet a5 = s5 at *
    generalize sextet a6 = s6 at *
    generalize sextet a7 = s7 at *
    generalize sextet a8 = s8 at *
    refine List.cons_eq_cons.2 ⟨fin_ofNat_congr _ _ (by omega), List.cons_eq_cons.2
      ⟨fin_ofNat_congr _ _ (by omega), List.cons_eq_cons.2 ⟨fin_ofNat_congr _ _ (by omega),
      List.cons_eq_cons.2 ⟨fin_ofNat_congr _ _ (by omega), List.cons_eq_cons.2
      ⟨fin_ofNat_congr _ _ (by omega), List.cons_eq_cons.2
      ⟨fin_ofNat_congr _ _ (by omega), rfl⟩⟩⟩⟩⟩⟩

/-- One step of the quantum loop on four alphabet bytes. -/
theorem decodeLoop_four (s d : Nat) (a b c e : Byte) (t : GoString) (fuel si : Nat)
    (out : GoString) (ha : isAlphabet a = true) (hb : isAlphabet b = true)
    (hc : isAlphabet c = true) (he : isAlphabet e = true) (hcap : 3 ≤ d - out.length)
    (hf : t.length + 4 ≤ fuel) :
    decodeLoop s d fuel (a :: b :: c :: e :: t) si out =
      decodeLoop s d t.length t (si + 4)
        (out ++ groupBytes (sextet a * 2 ^ 18 + sextet b * 2 ^ 12 + sextet c * 2 ^ 6 +
          sextet e)) := by
  obtain ⟨fuel, rfl⟩ : ∃ f, fuel = f + 1 := ⟨fuel - 1, by omega⟩
  rw [decodeLoop_succ _ _ _ _ _ _ (by simp), quantum_four _ _ _ _ _ _ _ _ ha hb hc he,
    if_neg (by omega)]
  exact decodeLoop_fuel s d _ _ _ _ _ (by omega) (le_refl _)

theorem decodeLoop32_eq (s d : Nat) : ∀ (fuel : Nat) (rest : GoString) (si : Nat)
    (out : GoString), rest.length ≤ fuel →
    decodeLoop32 s d fuel rest si out = decodeLoop s d rest.length rest si out := by
  intro fuel
  induction fuel with
  | zero => intro rest si out _; rfl
  | succ fuel ih =>
    intro rest si out hf
    rcases rest with _ | ⟨a, _ | ⟨b, _ | ⟨c, _ | ⟨e, t⟩⟩⟩⟩
    · rfl
    · rfl
    · rfl
    · rfl
    · simp only [List.length_cons] at hf
      rw [decodeLoop32]
      by_cases hg : d - out.length ≥ 4
      · simp only [if_pos hg]
        cases hA : assemble32 (decodeMap a) (decodeMap b) (decodeMap c) (decodeMap e) with
        | some dn =>
          obtain ⟨⟨ha, hb, hc, he⟩, hbytes⟩ := assemble32_some a b c e dn hA
          simp only
          rw [ih t _ _ (by omega), hbytes,
            decodeLoop_four s d a b c e t _ si out ha hb hc he (by omega)
              (by simp only [List.length_cons]; omega)]
        | none =>
          simp only [List.length_cons]
          rw [decodeLoop_succ _ _ _ _ _ _ (by simp)]
          cases hq : decodeQuantum s (d - out.length) (a :: b :: c :: e :: t) si with
          | panic => rfl
          | ret rest' si' stored err =>
            cases err with
            | some e1 => rfl
            | none =>
              have hl := (loop_rest_length _ _ _ _ _ _ _ _ _ _ hq).2 (by simp)
              simp only [List.length_cons] at hl ⊢
              rw [ih rest' _ _ (by omega)]
              exact decodeLoop_fuel s d _ _ _ _ _ (le_refl _) (by omega)
      · simp only [if_neg hg]

theorem decodeLoop64_eq (b64 : Bool) (s d : Nat) : ∀ (fuel : Nat) (rest : GoString) (si : Nat)
    (out : GoString), rest.length ≤ fuel →
    decodeLoop64 b64 s d fuel rest si out = decodeLoop s d rest.length rest si out := by
  intro fuel
  induction fuel with
  | zero =>
    intro rest si out _
    rw [decodeLoop64, decodeLoop32_eq s d _ _ _ _ (le_refl _)]
  | succ fuel ih =>
    intro rest si out hf
    have hexit : decodeLoop32 s d rest.length rest si out =
        decodeLoop s d rest.length rest si out := decodeLoop32_eq s d _ _ _ _ (le_refl _)
    rcases rest with _ | ⟨a1, _ | ⟨a2, _ | ⟨a3, _ | ⟨a4, _ | ⟨a5, _ | ⟨a6, _ | ⟨a7, _ | ⟨a8, t⟩⟩⟩⟩⟩⟩⟩⟩
    · exact hexit
    · exact hexit
    · exact hexit
    · exact hexit
    · exact hexit
    · exact hexit
    · exact hexit
    · exact hexit
    · simp only [List.length_cons] at hf
      rw [decodeLoop64]
      by_cases hg : b64 = true ∧ d - out.length ≥ 8
      · simp only [if_pos hg]
        cases hA : assemble64 (decodeMap a1) (decodeMap a2) (decodeMap a3) (decodeMap a4)
            (decodeMap a5) (decodeMap a6) (decodeMap a7) (decodeMap a8) with
        | some dn =>
          obtain ⟨⟨p1, p2, p3, p4, p5, p6, p7, p8⟩, hbytes⟩ :=
            assemble64_some a1 a2 a3 a4 a5 a6 a7 a8 dn hA
          simp only
          rw [ih t _ _ (by omega), hbytes,
            decodeLoop_four s d a1 a2 a3 a4 (a5 :: a6 :: a7 :: a8 :: t) _ si out p1 p2 p3 p4
              (by omega) (by simp only [List.length_cons]; omega)]
          simp only [List.length_cons]
          rw [decodeLoop_four s d a5 a6 a7 a8 t _ (si + 4) _ p5 p6 p7 p8
            (by simp only [List.length_append, groupBytes, List.length_cons, List.length_nil]
                omega)
            (by omega), List.append_assoc]
        | none =>
          simp only [List.length_cons]
          rw [decodeLoop_succ _ _ _ _ _ _ (by simp)]
          cases hq : decodeQuantum s (d - out.length)
              (a1 :: a2 :: a3 :: a4 :: a5 :: a6 :: a7 :: a8 :: t) si with
          | panic => rfl
          | ret rest' si' stored err =>
            cases err with
            | some e1 => rfl
            | none =>
              have hl := (loop_rest_length _ _ _ _ _ _ _ _ _ _ hq).2 (by simp)
              simp only [List.length_cons] at hl ⊢
              rw [ih rest' _ _ (by omega)]
              exact decodeLoop_fuel s d _ _ _ _ _ (le_refl _) (by omega)
      · simp only [if_neg hg]
        exact hexit

/-- The decoder with its fast loops returns what the quantum loop alone returns. -/
theorem decodeFast_eq (b64 : Bool) (d : Nat) (src : GoString) :
    DecodeFast b64 d src = Decode d src := by
  unfold DecodeFast Decode
  split
  · rfl
  · exact decodeLoop64_eq b64 _ d _ _ _ _ (le_refl _)

/-- Claim C20: the base64 branch of `httpRequest` never indexes out of range.
For every body, decoding into a destination of `len(body)` bytes never stores
past the end of the destination (with or without the fast loops, on 64-bit and
32-bit platforms); when decoding succeeds the decoded length is at most
`len(body)`, so `raw[0:n]` is a valid slice; the empty body decodes to nothing;
and `httpRequest` never panics. -/
theorem decode_never_out_of_range (intSize64 : Bool) (body : GoString) :
    Decode body.length body ≠ .panic ∧
    DecodeFast intSize64 body.length body ≠ .panic ∧
    (∀ raw, Decode body.length body = .ok raw → raw.length ≤ body.length) ∧
    (∀ raw, DecodeFast intSize64 body.length body = .ok raw → raw.length ≤ body.length) ∧
    Decode 0 [] = .ok [] ∧
    (∀ (U : Type) (urlParse : GoString → Option U) (r : Request), r.Body = body →
      r.httpRequest urlParse ≠ .panic) := by
  refine ⟨decode_no_panic body _ (le_refl _), ?_, decode_ok_length body _ (le_refl _), ?_, rfl, ?_⟩
  · rw [decodeFast_eq]; exact decode_no_panic body _ (le_refl _)
  · rw [decodeFast_eq]; exact decode_ok_length body _ (le_refl _)
  · intro U urlParse r _
    exact httpRequest_no_panic urlParse r

/-! ## The header loop of httpRequest: every canonical name -/

theorem valuesFor_cons (K : GoString) (e : GoString × GoString) (hs : GoMap GoString) :
    valuesFor K (e :: hs) =
      if CanonicalMIMEHeaderKey e.1 = K then e.2 :: valuesFor K hs else valuesFor K hs := by
  unfold valuesFor
  by_cases h : CanonicalMIMEHeaderKey e.1 = K <;> simp [List.filter_cons, h]

theorem addHeaders_get (hs : GoMap GoString) (h : Header) (K : GoString) :
    (addHeaders hs h).get K =
      if valuesFor K hs = [] then h.get K
      else some ((h.get K).getD [] ++ valuesFor K hs) := by
  induction hs generalizing h with
  | nil => simp [addHeaders, valuesFor]
  | cons e hs ih =>
    rw [addHeaders_cons, ih, valuesFor_cons]
    by_cases hk : CanonicalMIMEHeaderKey e.1 = K
    · subst hk
      rw [header_get_add]
      by_cases hv : valuesFor (CanonicalMIMEHeaderKey e.1) hs = []
      · simp [hv]
      · simp [hv]
    · have hg : (h.Add e.1 e.2).get K = h.get K := by
        simp [Header.Add, GoMap.get_set, hk]
      simp only [hg, if_neg hk]

theorem builtHeader_get (r : Request) (K : GoString) :
    (builtHeader r).get K =
      if valuesFor K r.Headers = [] then none else some (valuesFor K r.Headers) := by
  unfold builtHeader
  rw [addHeaders_get]
  simp [GoMap.get]

theorem canonical_host : CanonicalMIMEHeaderKey (str "Host") = str "Host" := by decide

theorem requestHeader_get (r : Request) (K : GoString) :
    ((builtHeader r).Del (str "Host")).get K =
      if str "Host" = K then none
      else if valuesFor K r.Headers = [] then none else some (valuesFor K r.Headers) := by
  rw [Header.Del, canonical_host, GoMap.get_delete, builtHeader_get]

theorem valuesFor_mem (K : GoString) (hs : GoMap GoString) (k v : GoString)
    (hmem : (k, v) ∈ hs) (hk : CanonicalMIMEHeaderKey k = K) : v ∈ valuesFor K hs := by
  unfold valuesFor
  rw [List.mem_map]
  exact ⟨(k, v), List.mem_filter.2 ⟨hmem, by simpa using hk⟩, rfl⟩

theorem valuesFor_unique (hs : GoMap GoString) (k v : GoString) (hmem : (k, v) ∈ hs)
    (hwf : GoMap.WF hs)
    (hu : ∀ e' ∈ hs, CanonicalMIMEHeaderKey e'.1 = CanonicalMIMEHeaderKey k → e'.1 = k) :
    valuesFor (CanonicalMIMEHeaderKey k) hs = [v] := by
  induction hs with
  | nil => simp at hmem
  | cons e hs ih =>
    have hnd : e.1 ∉ GoMap.keys hs ∧ GoMap.WF hs := by
      simpa [GoMap.WF, GoMap.keys] using hwf
    have hu' : ∀ e' ∈ hs, CanonicalMIMEHeaderKey e'.1 = CanonicalMIMEHeaderKey k → e'.1 = k :=
      fun e' he' => hu e' (List.mem_cons_of_mem _ he')
    rw [valuesFor_cons]
    rcases List.mem_cons.1 hmem with he | hm
    · subst he
      simp only [if_true]
      have : valuesFor (CanonicalMIMEHeaderKey k) hs = [] := by
        unfold valuesFor
        rw [List.map_eq_nil_iff, List.filter_eq_nil_iff]
        intro e' he' hc
        have hk := hu' e' he' (by simpa using hc)
        apply hnd.1
        simp only [GoMap.keys, List.mem_map]
        exact ⟨e', he', hk⟩
      rw [this]
    · have hne : ¬ CanonicalMIMEHeaderKey e.1 = CanonicalMIMEHeaderKey k := by
        intro hc
        have hk := hu e (List.mem_cons_self _ _) hc
        apply hnd.1
        rw [hk]
        simp only [GoMap.keys, List.mem_map]
        exact ⟨(k, v), hm, rfl⟩
      rw [if_neg hne]
      exact ih hm hnd.2 hu'

theorem valuesFor_length_le (K : GoString) (hs : GoMap GoString)
    (hn : (canonicalKeys hs).Nodup) : (valuesFor K hs).length ≤ 1 := by
  induction hs with
  | nil => simp [valuesFor]
  | cons e hs ih =>
    have hnd : CanonicalMIMEHeaderKey e.1 ∉ canonicalKeys hs ∧ (canonicalKeys hs).Nodup := by
      simpa [canonicalKeys] using hn
    rw [valuesFor_cons]
    by_cases hk : CanonicalMIMEHeaderKey e.1 = K
    · rw [if_pos hk]
      have : valuesFor K hs = [] := by
        unfold valuesFor
        rw [List.map_eq_nil_iff, List.filter_eq_nil_iff]
        intro e' he' hc
        apply hnd.1
        simp only [canonicalKeys, List.mem_map]
        exact ⟨e', he', by rw [hk]; simpa using hc⟩
      rw [this]
      simp
    · rw [if_neg hk]
      exact ih hnd.2

theorem valuesFor_perm (K : GoString) (hs1 hs2 : GoMap GoString) (hp : hs1.Perm hs2)
    (hn : (canonicalKeys hs2).Nodup) : valuesFor K hs1 = valuesFor K hs2 := by
  have hperm : (valuesFor K hs1).Perm (valuesFor K hs2) := (hp.filter _).map _
  have hl := valuesFor_length_le K hs2 hn
  have hl1 : (valuesFor K hs1).length ≤ 1 := by rw [hperm.length_eq]; exact hl
  rcases hv2 : valuesFor K hs2 with _ | ⟨x, _ | ⟨y, t⟩⟩
  · rw [hv2] at hperm
    exact List.Perm.eq_nil hperm
  · rw [hv2] at hperm
    exact List.perm_singleton.1 hperm
  · rw [hv2] at hl
    simp at hl

/-- Claim C13 as stated fails: for the event with the headers `x-a: 1` and
`X-A: 2`, the header map of the request holds the two values `1, 2` under the one
name `X-A`, not exactly one value. -/
theorem headers_copied_counterexample :
    ¬ ∀ (r : Request) (req : HttpRequest Unit), r.httpRequest noParse = .ok req →
      r.Headers.WF →
      (∀ k v, (k, v) ∈ r.Headers → isHostName k = false → req.Header.Get k = v) ∧
      (∀ K vs, req.Header.get K = some vs → vs.length = 1) := by
  intro h
  obtain ⟨req, h1, -⟩ := httpRequest_plain noParse collidingEvent rfl
  have h2 := (h collidingEvent req h1 (by decide)).2 (str "X-A") [str "1", str "2"]
  have hH := (httpRequest_fields noParse collidingEvent req h1).2.2.2.2.1
  rw [hH] at h2
  exact absurd (h2 (by decide)) (by decide)

/-- Claim C13, amended: for every event (distinct keys) for which `httpRequest`
returns a request and every entry `(k, v)` of `headers` whose name is not `Host`
in any letter case, the header map holds under the canonical name of `k` the
values of all entries with that canonical name, `v` among them; when no other
key of the event has that canonical name (differs from `k` only in letter case),
it holds exactly `[v]` and `Header.Get(k)` returns `v`; and when no two keys of
the event have the same canonical name, every name of the header map carries
exactly one value. -/
theorem headers_copied {U : Type} (urlParse : GoString → Option U) (r : Request)
    (req : HttpRequest U) (h : r.httpRequest urlParse = .ok req) (hwf : r.Headers.WF) :
    (∀ k v, (k, v) ∈ r.Headers → isHostName k = false →
      req.Header.get (CanonicalMIMEHeaderKey k) =
        some (valuesFor (CanonicalMIMEHeaderKey k) r.Headers) ∧
      v ∈ valuesFor (CanonicalMIMEHeaderKey k) r.Headers ∧
      ((∀ e' ∈ r.Headers, CanonicalMIMEHeaderKey e'.1 = CanonicalMIMEHeaderKey k → e'.1 = k) →
        req.Header.get (CanonicalMIMEHeaderKey k) = some [v] ∧ req.Header.Get k = v)) ∧
    ((canonicalKeys r.Headers).Nodup → ∀ K vs, req.Header.get K = some vs → vs.length = 1) := by
  have hH := (httpRequest_fields urlParse r req h).2.2.2.2.1
  constructor
  · intro k v hmem hk
    have hne : ¬ str "Host" = CanonicalMIMEHeaderKey k := by
      intro hc
      have := (canonical_eq_host_iff k).1 hc.symm
      rw [this] at hk
      exact absurd hk (by simp)
    have hv := valuesFor_mem _ r.Headers k v hmem rfl
    have hnil : ¬ valuesFor (CanonicalMIMEHeaderKey k) r.Headers = [] := by
      intro hc; rw [hc] at hv; simp at hv
    have hget : req.Header.get (CanonicalMIMEHeaderKey k) =
        some (valuesFor (CanonicalMIMEHeaderKey k) r.Headers) := by
      rw [hH, requestHeader_get, if_neg hne, if_neg hnil]
    refine ⟨hget, hv, ?_⟩
    intro hu
    have h1 := valuesFor_unique r.Headers k v hmem hwf hu
    rw [h1] at hget
    exact ⟨hget, by simp only [Header.Get, hget]⟩
  · intro hn K vs hvs
    rw [hH, requestHeader_get] at hvs
    split at hvs
    · exact absurd hvs (by simp)
    · split at hvs
      · exact absurd hvs (by simp)
      · rename_i hnil
        injection hvs with hvs
        have hl := valuesFor_length_le K r.Headers hn
        rw [← hvs]
        have : 0 < (valuesFor K r.Headers).length := List.length_pos.2 hnil
        omega

theorem headers_copied_witness :
    sampleEvent.httpRequest noParse = .ok sampleRequest ∧ sampleEvent.Headers.WF ∧
    (canonicalKeys sampleEvent.Headers).Nodup ∧
    (∀ K vs, sampleRequest.Header.get K = some vs → vs.length = 1) ∧
    sampleRequest.Header.Get (str "x-a") = str "1" :=
  ⟨sampleEvent_decodes, by decide, by decide,
    (headers_copied noParse sampleEvent sampleRequest sampleEvent_decodes (by decide)).2
      (by decide),
    (((headers_copied noParse sampleEvent sampleRequest sampleEvent_decodes (by decide)).1
      (str "x-a") (str "1") (by decide) (by decide)).2.2 (by decide)).2⟩

/-! ## Enumeration order -/

theorem GoMap.get_eq_some_iff {β : Type} (m : GoMap β) (k : GoString) (v : β) (hwf : m.WF) :
    m.get k = some v ↔ (k, v) ∈ m := by
  induction m with
  | nil => simp [GoMap.get]
  | cons e m ih =>
    obtain ⟨k0, v0⟩ := e
    have hnd : k0 ∉ GoMap.keys m ∧ GoMap.WF m := by
      simpa [GoMap.WF, GoMap.keys] using hwf
    by_cases h0 : k0 = k
    · subst h0
      simp only [GoMap.get, if_true, Option.some.injEq, List.mem_cons, Prod.mk.injEq, true_and]
      constructor
      · intro hv; exact Or.inl hv.symm
      · rintro (hv | hv)
        · exact hv.symm
        · exact absurd (List.mem_map.2 ⟨(k0, v), hv, rfl⟩) hnd.1
    · have h1 : ¬ k = k0 := fun e => h0 e.symm
      simp [GoMap.get, h0, h1, ih hnd.2]

theorem GoMap.get_perm {β : Type} (m1 m2 : GoMap β) (hp : m1.Perm m2) (hwf : m2.WF)
    (k : GoString) : m1.get k = m2.get k := by
  have hwf1 : m1.WF := by
    unfold GoMap.WF GoMap.keys at hwf ⊢
    exact (hp.map _).nodup_iff.2 hwf
  cases h2 : m2.get k with
  | some v =>
    rw [GoMap.get_eq_some_iff m1 k v hwf1, hp.mem_iff, ← GoMap.get_eq_some_iff m2 k v hwf]
    exact h2
  | none =>
    cases h1 : m1.get k with
    | none => rfl
    | some v =>
      rw [GoMap.get_eq_some_iff m1 k v hwf1, hp.mem_iff, ← GoMap.get_eq_some_iff m2 k v hwf,
        h2] at h1
      exact absurd h1 (by simp)

theorem sortStrings_perm (l1 l2 : List GoString) (h : l1.Perm l2) :
    sortStrings l1 = sortStrings l2 := by
  unfold sortStrings
  apply List.eq_of_perm_of_sorted (r := fun a b => a ≤ b)
  · exact ((List.perm_insertionSort _ l1).trans h).trans (List.perm_insertionSort _ l2).symm
  · exact List.sorted_insertionSort _ l1
  · exact List.sorted_insertionSort _ l2

theorem encode_congr (v1 v2 : Values) (hk : v1.keys.Perm v2.keys)
    (hg : ∀ k, v1.get k = v2.get k) : v1.Encode = v2.Encode := by
  unfold Values.Encode
  have hl : v1.length = v2.length := by
    have := hk.length_eq
    simpa [GoMap.keys] using this
  have hf : (fun buf k => encodeKey (QueryEscape k) ((v1.get k).getD []) buf) =
      (fun buf k => encodeKey (QueryEscape k) ((v2.get k).getD []) buf) := by
    funext buf k
    rw [hg k]
  rw [hl, sortStrings_perm _ _ hk, hf]

theorem addValues_perm (q1 q2 : GoMap GoString) (hp : q1.Perm q2) (hwf : q2.WF) :
    (addValues q1 []).Encode = (addValues q2 []).Encode := by
  have hwf1 : q1.WF := by
    unfold GoMap.WF GoMap.keys at hwf ⊢
    exact (hp.map _).nodup_iff.2 hwf
  have hg : ∀ k, (addValues q1 []).get k = (addValues q2 []).get k := by
    intro k
    rw [addValues_get_nil q1 k hwf1, addValues_get_nil q2 k hwf, GoMap.get_perm q1 q2 hp hwf]
  apply encode_congr _ _ _ hg
  have n1 : (addValues q1 []).keys.Nodup := addValues_wf q1 [] (by simp [GoMap.WF, GoMap.keys])
  have n2 : (addValues q2 []).keys.Nodup := addValues_wf q2 [] (by simp [GoMap.WF, GoMap.keys])
  rw [List.perm_ext_iff_of_nodup n1 n2]
  intro k
  rw [← not_iff_not, ← GoMap.get_eq_none_iff, ← GoMap.get_eq_none_iff, hg k]

theorem builtURI_perm (r : Request) (hs qs : GoMap GoString)
    (hq : qs.Perm r.QueryStringParameters) (hwf : r.QueryStringParameters.WF) :
    builtURI (r.reordered hs qs) = builtURI r := by
  unfold builtURI Request.reordered
  simp only [hq.length_eq, addValues_perm qs _ hq hwf]

theorem builtHeader_perm (r : Request) (hs qs : GoMap GoString) (hh : hs.Perm r.Headers)
    (hn : (canonicalKeys r.Headers).Nodup) (K : GoString) :
    (builtHeader (r.reordered hs qs)).get K =
      (builtHeader r).get K := by
  rw [builtHeader_get, builtHeader_get]
  simp only [Request.reordered, valuesFor_perm K hs r.Headers hh hn]

theorem header_Get_congr (h1 h2 : Header) (hg : ∀ K, h1.get K = h2.get K) (k : GoString) :
    h1.Get k = h2.Get k := by
  simp only [Header.Get, hg]

theorem mk_same {U : Type} (urlParse : GoString → Option U) (r r' : Request)
    (req req' : HttpRequest U) (h : r.httpRequest urlParse = .ok req)
    (h' : r'.httpRequest urlParse = .ok req') (hB : req.Body = req'.Body)
    (hm : r'.HTTPMethod = r.HTTPMethod) (hc : r'.RequestContext = r.RequestContext)
    (hu : builtURI r' = builtURI r)
    (hg : ∀ K, (builtHeader r').get K = (builtHeader r).get K) : sameRequest req req' := by
  obtain ⟨f1, f2, f3, f4, f5, f6, f7, f8, f9, f10⟩ := httpRequest_fields urlParse r req h
  obtain ⟨g1, g2, g3, g4, g5, g6, g7, g8, g9, g10⟩ := httpRequest_fields urlParse r' req' h'
  refine ⟨by rw [f1, g1, hm], by rw [f2, g2], by rw [f3, g3], by rw [f4, g4],
    by rw [f10, g10, hB], hB, by rw [f9, g9, hc],
    by rw [f6, g6]; exact (header_Get_congr _ _ hg _).symm, by rw [f7, g7, hu],
    by rw [f8, g8, hu], ?_⟩
  intro K
  rw [f5, g5, Header.Del, Header.Del, GoMap.get_delete, GoMap.get_delete, hg K]

/-- Claim C17 as stated fails: for the event with the headers `Host: a` and
`host: b`, the `Host` field of the request is `a` when `Host` is enumerated
first and `b` when `host` is. -/
theorem decoding_order_counterexample :
    ¬ ∀ (r : Request) (hs qs : GoMap GoString), hs.Perm r.Headers →
      qs.Perm r.QueryStringParameters → r.Headers.WF → r.QueryStringParameters.WF →
      sameOutcome (r.httpRequest noParse)
        ((r.reordered hs qs).httpRequest noParse) := by
  intro h
  have h1 := h twoHostsEvent [(str "host", str "b"), (str "Host", str "a")] []
    (by decide) (by decide) (by decide) (by decide)
  have e1 : twoHostsEvent.httpRequest noParse =
      .ok { Method := [], Proto := str "HTTP/1.1", ProtoMajor := 1, ProtoMinor := 1, Header := [],
            ContentLength := 0, Body := [], RemoteAddr := [], Host := str "a", RequestURI := [],
            URL := none } := by decide
  have e2 : (twoHostsEvent.reordered [(str "host", str "b"), (str "Host", str "a")]
      []).httpRequest noParse =
      .ok { Method := [], Proto := str "HTTP/1.1", ProtoMajor := 1, ProtoMinor := 1, Header := [],
            ContentLength := 0, Body := [], RemoteAddr := [], Host := str "b", RequestURI := [],
            URL := none } := by decide
  rw [e1, e2] at h1
  exact absurd h1.2.2.2.2.2.2.2.1 (by decide)

/-- Claim C17, amended: for every event whose `headers` keys have pairwise
different canonical names (no two differ only in letter case) and whose
`queryStringParameters` keys are distinct, the result of `httpRequest` does not
depend on the order in which the two mappings are enumerated: the same error,
or requests with the same method, protocol, host, request URI, URL, body,
content length, remote address and header mapping. -/
theorem decoding_deterministic {U : Type} (urlParse : GoString → Option U) (r : Request)
    (hs qs : GoMap GoString) (hh : hs.Perm r.Headers) (hq : qs.Perm r.QueryStringParameters)
    (hwf : r.QueryStringParameters.WF) (hn : (canonicalKeys r.Headers).Nodup) :
    sameOutcome (r.httpRequest urlParse)
      ((r.reordered hs qs).httpRequest urlParse) := by
  have hu := builtURI_perm r hs qs hq hwf
  have hg := builtHeader_perm r hs qs hh hn
  by_cases hb : r.IsBase64Encoded = true
  · cases hd : Decode r.Body.length r.Body with
    | ok raw =>
      obtain ⟨req, h1, b1, -⟩ := httpRequest_base64_ok urlParse r hb raw hd
      obtain ⟨req', h2, b2, -⟩ := httpRequest_base64_ok urlParse (r.reordered hs qs) hb raw hd
      rw [h1, h2]
      exact mk_same urlParse _ _ req req' h1 h2 (by rw [b1, b2]) rfl rfl hu hg
    | error e =>
      rw [httpRequest_base64_error urlParse r hb e hd,
        httpRequest_base64_error urlParse (r.reordered hs qs) hb e hd]
      exact rfl
    | panic => exact absurd hd (decode_no_panic _ _ (le_refl _))
  · have hb' : r.IsBase64Encoded = false := by simpa using hb
    obtain ⟨req, h1, b1⟩ := httpRequest_plain urlParse r hb'
    obtain ⟨req', h2, b2⟩ := httpRequest_plain urlParse (r.reordered hs qs) hb'
    rw [h1, h2]
    exact mk_same urlParse _ _ req req' h1 h2 (by rw [b1, b2]; rfl) rfl rfl hu hg

theorem decoding_deterministic_witness :
    [(str "x-a", str "1"), (str "HOST", str "a.example")].Perm sampleEvent.Headers ∧
    [(str "", str ""), (str "k 2", str "&=%+é")].Perm sampleEvent.QueryStringParameters ∧
    sampleEvent.QueryStringParameters.WF ∧ (canonicalKeys sampleEvent.Headers).Nodup ∧
    sameOutcome (sampleEvent.httpRequest noParse)
      ((sampleEvent.reordered [(str "x-a", str "1"), (str "HOST", str "a.example")]
        [(str "", str ""), (str "k 2", str "&=%+é")]).httpRequest noParse) :=
  ⟨by decide, by decide, by decide, by decide,
    decoding_deterministic noParse sampleEvent _ _ (by decide) (by decide) (by decide)
      (by decide)⟩

/-! ## Decoding of the event object -/

theorem findField_mem (names : List GoString) (k n : GoString)
    (h : findField names k = some n) : n ∈ names := by
  unfold findField at h
  split at h
  · rename_i hk
    injection h with h
    rw [← h]; exact hk
  · exact List.mem_of_find?_eq_some h

theorem decodeStringField_flag (old : GoString) (v : Json) :
    (decodeStringField old v).2 = !(v.isString || v.isNull) := by
  cases v <;> rfl

theorem decodeBoolField_flag (old : Bool) (v : Json) :
    (decodeBoolField old v).2 = !(v.isBool || v.isNull) := by
  cases v <;> rfl

theorem decodeMembers_flag (ms : List (GoString × Json)) (m : GoMap GoString) (err : Bool) :
    (decodeMembers ms m err).2 =
      (err || !(ms.all (fun kv => kv.2.isString || kv.2.isNull))) := by
  induction ms generalizing m err with
  | nil => simp [decodeMembers]
  | cons kv ms ih =>
    obtain ⟨k, v⟩ := kv
    simp only [decodeMembers, ih, decodeStringField_flag, List.all_cons]
    cases err <;> cases (v.isString || v.isNull) <;> simp

theorem decodeMapField_flag (old : GoMap GoString) (v : Json) :
    (decodeMapField old v).2 = !v.isStringMap := by
  cases v with
  | object ms => simp [decodeMapField, Json.isStringMap, decodeMembers_flag]
  | _ => rfl

theorem storeContextField_flag (c : RequestContext) (v : Json) :
    ∀ n ∈ contextFields,
      (storeContextField c n v).2 = !contextValueOk (contextFieldType n) v := by
  intro n hn
  simp only [contextFields, List.mem_cons, List.mem_singleton, List.not_mem_nil, or_false] at hn
  rcases hn with rfl | rfl | rfl | rfl | rfl | rfl | rfl | rfl
  · exact decodeStringField_flag c.AccountID v
  · exact decodeStringField_flag c.ApiID v
  · exact decodeStringField_flag c.HTTPMethod v
  · exact decodeMapField_flag c.Identity v
  · exact decodeStringField_flag c.RequestID v
  · exact decodeStringField_flag c.ResourceID v
  · exact decodeStringField_flag c.ResourcePath v
  · exact decodeStringField_flag c.Stage v

theorem setContextField_flag (c : RequestContext) (k : GoString) (v : Json) :
    (setContextField c k v).2 = !contextMemberOk k v := by
  unfold setContextField contextMemberOk
  cases h : findField contextFields k with
  | none => rfl
  | some n => exact storeContextField_flag c v n (findField_mem _ _ _ h)

theorem decodeContextMembers_flag (ms : List (GoString × Json)) (c : RequestContext)
    (err : Bool) :
    (decodeContextMembers ms c err).2 =
      (err || !(ms.all (fun kv => contextMemberOk kv.1 kv.2))) := by
  induction ms generalizing c err with
  | nil => simp [decodeContextMembers]
  | cons kv ms ih =>
    obtain ⟨k, v⟩ := kv
    simp only [decodeContextMembers, ih, setContextField_flag, List.all_cons]
    cases err <;> cases contextMemberOk k v <;> simp

theorem decodeContextField_flag (old : RequestContext) (v : Json) :
    (decodeContextField old v).2 = !v.isContext := by
  cases v with
  | object ms => simp [decodeContextField, Json.isContext, decodeContextMembers_flag]
  | _ => rfl

theorem storeEventField_flag (r : Request) (v : Json) :
    ∀ n ∈ eventFields, (storeEventField r n v).2 = !eventValueOk (eventFieldType n) v := by
  intro n hn
  simp only [eventFields, List.mem_cons, List.mem_singleton, List.not_mem_nil, or_false] at hn
  rcases hn with rfl | rfl | rfl | rfl | rfl | rfl | rfl | rfl | rfl | rfl
  · exact decodeStringField_flag r.Body v
  · exact decodeMapField_flag r.Headers v
  · exact decodeStringField_flag r.HTTPMethod v
  · exact decodeStringField_flag r.Path v
  · exact decodeMapField_flag r.PathParameters v
  · exact decodeMapField_flag r.QueryStringParameters v
  · exact decodeStringField_flag r.Resource v
  · exact decodeMapField_flag r.StageVariables v
  · exact decodeContextField_flag r.RequestContext v
  · exact decodeBoolField_flag r.IsBase64Encoded v

theorem setEventField_flag (r : Request) (k : GoString) (v : Json) :
    (setEventField r k v).2 = !eventMemberOk k v := by
  unfold setEventField eventMemberOk
  cases h : findField eventFields k with
  | none => rfl
  | some n => exact storeEventField_flag r v n (findField_mem _ _ _ h)

theorem decodeEventMembers_flag (ms : List (GoString × Json)) (r : Request) (err : Bool) :
    (decodeEventMembers ms r err).2 =
      (err || !(ms.all (fun kv => eventMemberOk kv.1 kv.2))) := by
  induction ms generalizing r err with
  | nil => simp [decodeEventMembers]
  | cons kv ms ih =>
    obtain ⟨k, v⟩ := kv
    simp only [decodeEventMembers, ih, setEventField_flag, List.all_cons]
    cases err <;> cases eventMemberOk k v <;> simp

/-- Decoding reports a type mismatch exactly for a value that does not have the
types of the schema up to null. -/
theorem decodeEvent_flag (j : Json) : (decodeEvent j).2 = !j.hasSchemaTypesOrNull := by
  cases j with
  | object ms => simp [decodeEvent, Json.hasSchemaTypesOrNull, decodeEventMembers_flag]
  | _ => rfl

/-! ## The schema and what is stored without error -/

theorem all_mono {α : Type} (p q : α → Bool) (l : List α) (h : ∀ a, p a = true → q a = true)
    (hp : l.all p = true) : l.all q = true := by
  rw [List.all_eq_true] at hp ⊢
  exact fun a ha => h a (hp a ha)

theorem isStringObject_isStringMap (v : Json) (h : v.isStringObject = true) :
    v.isStringMap = true := by
  cases v with
  | object ms =>
    exact all_mono _ _ ms (fun kv hkv => by simp [hkv]) h
  | _ => exact absurd h (by simp [Json.isStringObject])

theorem contextValueStrict_ok (t : FieldType) (v : Json) (h : contextValueStrict t v = true) :
    contextValueOk t v = true := by
  cases t <;> simp only [contextValueStrict, contextValueOk] at h ⊢ <;>
    first
    | exact isStringObject_isStringMap v h
    | simp [h]

theorem contextMemberStrict_ok (k : GoString) (v : Json) (h : contextMemberStrict k v = true) :
    contextMemberOk k v = true := by
  unfold contextMemberStrict at h
  unfold contextMemberOk
  cases hf : findField contextFields k with
  | none => rfl
  | some n =>
    rw [hf] at h
    exact contextValueStrict_ok _ v h

theorem isContextObject_isContext (v : Json) (h : v.isContextObject = true) :
    v.isContext = true := by
  cases v with
  | object ms =>
    exact all_mono _ _ ms (fun kv hkv => contextMemberStrict_ok kv.1 kv.2 hkv) h
  | _ => exact absurd h (by simp [Json.isContextObject])

theorem eventValueStrict_ok (t : FieldType) (v : Json) (h : eventValueStrict t v = true) :
    eventValueOk t v = true := by
  cases t <;> simp only [eventValueStrict, eventValueOk] at h ⊢
  · simp [h]
  · simp [h]
  · exact isStringObject_isStringMap v h
  · exact isContextObject_isContext v h

theorem eventMemberStrict_ok (k : GoString) (v : Json) (h : eventMemberStrict k v = true) :
    eventMemberOk k v = true := by
  unfold eventMemberStrict at h
  unfold eventMemberOk
  cases hf : findField eventFields k with
  | none => rfl
  | some n =>
    rw [hf] at h
    exact eventValueStrict_ok _ v h

/-- A value with the JSON types of the schema has them up to null. -/
theorem hasSchemaTypes_orNull (j : Json) (h : j.hasSchemaTypes = true) :
    j.hasSchemaTypesOrNull = true := by
  cases j with
  | object ms =>
    exact all_mono _ _ ms (fun kv hkv => eventMemberStrict_ok kv.1 kv.2 hkv) h
  | _ => exact absurd h (by simp [Json.hasSchemaTypes])

/-! ## Fields that no member selects -/

theorem decodeEventMembers_keeps {α : Type} (π : Request → α) (name : GoString)
    (hπ : ∀ r k v, findField eventFields k ≠ some name → π (setEventField r k v).1 = π r) :
    ∀ (ms : List (GoString × Json)) (r : Request) (err : Bool),
      fieldAbsent eventFields name ms → π (decodeEventMembers ms r err).1 = π r := by
  intro ms
  induction ms with
  | nil => intro r err _; rfl
  | cons kv ms ih =>
    intro r err h
    obtain ⟨k, v⟩ := kv
    rw [decodeEventMembers, ih _ _ (fun kv hkv => h kv (List.mem_cons_of_mem _ hkv)),
      hπ r k v (h (k, v) (List.mem_cons_self _ _))]

theorem storeEventField_other (r : Request) (k : GoString) (v : Json) :
    (k ≠ str "body" → (storeEventField r k v).1.Body = r.Body) ∧
    (k ≠ str "headers" → (storeEventField r k v).1.Headers = r.Headers) ∧
    (k ≠ str "httpMethod" → (storeEventField r k v).1.HTTPMethod = r.HTTPMethod) ∧
    (k ≠ str "path" → (storeEventField r k v).1.Path = r.Path) ∧
    (k ≠ str "pathParameters" → (storeEventField r k v).1.PathParameters = r.PathParameters) ∧
    (k ≠ str "queryStringParameters" →
      (storeEventField r k v).1.QueryStringParameters = r.QueryStringParameters) ∧
    (k ≠ str "resource" → (storeEventField r k v).1.Resource = r.Resource) ∧
    (k ≠ str "stageVariables" → (storeEventField r k v).1.StageVariables = r.StageVariables) ∧
    (k ≠ str "requestContext" → (storeEventField r k v).1.RequestContext = r.RequestContext) ∧
    (k ≠ str "isBase64Encoded" →
      (storeEventField r k v).1.IsBase64Encoded = r.IsBase64Encoded) := by
  unfold storeEventField
  by_cases h1 : k = str "body"
  · simp only [if_pos h1]
    refine ⟨?_, ?_, ?_, ?_, ?_, ?_, ?_, ?_, ?_, ?_⟩ <;> intro hk <;>
      first | rfl | trivial
  by_cases h2 : k = str "headers"
  · simp only [if_neg h1, if_pos h2]
    refine ⟨?_, ?_, ?_, ?_, ?_, ?_, ?_, ?_, ?_, ?_⟩ <;> intro hk <;>
      first | rfl | trivial
  by_cases h3 : k = str "httpMethod"
  · simp only [if_neg h1, if_neg h2, if_pos h3]
    refine ⟨?_, ?_, ?_, ?_, ?_, ?_, ?_, ?_, ?_, ?_⟩ <;> intro hk <;>
      first | rfl | trivial
  by_cases h4 : k = str "path"
  · simp only [if_neg h1, if_neg h2, if_neg h3, if_pos h4]
    refine ⟨?_, ?_, ?_, ?_, ?_, ?_, ?_, ?_, ?_, ?_⟩ <;> intro hk <;>
      first | rfl | trivial
  by_cases h5 : k = str "pathParameters"
  · simp only [if_neg h1, if_neg h2, if_neg h3, if_neg h4, if_pos h5]
    refine ⟨?_, ?_, ?_, ?_, ?_, ?_, ?_, ?_, ?_, ?_⟩ <;> intro hk <;>
      first | rfl | trivial
  by_cases h6 : k = str "queryStringParameters"
  · simp only [if_neg h1, if_neg h2, if_neg h3, if_neg h4, if_neg h5, if_pos h6]
    refine ⟨?_, ?_, ?_, ?_, ?_, ?_, ?_, ?_, ?_, ?_⟩ <;> intro hk <;>
      first | rfl | trivial
  by_cases h7 : k = str "resource"
  · simp only [if_neg h1, if_neg h2, if_neg h3, if_neg h4, if_neg h5, if_neg h6, if_pos h7]
    refine ⟨?_, ?_, ?_, ?_, ?_, ?_, ?_, ?_, ?_, ?_⟩ <;> intro hk <;>
      first | rfl | trivial
  by_cases h8 : k = str "stageVariables"
  · simp only [if_neg h1, if_neg h2, if_neg h3, if_neg h4, if_neg h5, if_neg h6, if_neg h7,
      if_pos h8]
    refine ⟨?_, ?_, ?_, ?_, ?_, ?_, ?_, ?_, ?_, ?_⟩ <;> intro hk <;>
      first | rfl | trivial
  by_cases h9 : k = str "requestContext"
  · simp only [if_neg h1, if_neg h2, if_neg h3, if_neg h4, if_neg h5, if_neg h6, if_neg h7,
      if_neg h8, if_pos h9]
    refine ⟨?_, ?_, ?_, ?_, ?_, ?_, ?_, ?_, ?_, ?_⟩ <;> intro hk <;>
      first | rfl | trivial
  by_cases h10 : k = str "isBase64Encoded"
  · simp only [if_neg h1, if_neg h2, if_neg h3, if_neg h4, if_neg h5, if_neg h6, if_neg h7,
      if_neg h8, if_neg h9, if_pos h10]
    refine ⟨?_, ?_, ?_, ?_, ?_, ?_, ?_, ?_, ?_, ?_⟩ <;> intro hk <;>
      first | rfl | trivial
  simp only [if_neg h1, if_neg h2, if_neg h3, if_neg h4, if_neg h5, if_neg h6, if_neg h7,
    if_neg h8, if_neg h9, if_neg h10]
  refine ⟨?_, ?_, ?_, ?_, ?_, ?_, ?_, ?_, ?_, ?_⟩ <;> intro _ <;> first | rfl | trivial

theorem setEventField_keeps {α : Type} (π : Request → α) (name : GoString)
    (hπ : ∀ r n v, n ≠ name → π (storeEventField r n v).1 = π r)
    (r : Request) (k : GoString) (v : Json) (h : findField eventFields k ≠ some name) :
    π (setEventField r k v).1 = π r := by
  unfold setEventField
  cases hf : findField eventFields k with
  | none => rfl
  | some n =>
    have hn : n ≠ name := by
      intro e; rw [hf, e] at h; exact h rfl
    exact hπ r n v hn

theorem decodeEvent_absent (ms : List (GoString × Json)) :
    absentFieldsZero ms (decodeEvent (.object ms)).1 := by
  unfold absentFieldsZero decodeEvent
  refine ⟨?_, ?_, ?_, ?_, ?_, ?_, ?_, ?_, ?_, ?_⟩
  · exact fun h => decodeEventMembers_keeps (fun r => r.Body) _
      (setEventField_keeps _ _ (fun r k v hk => (storeEventField_other r k v).1 hk)) ms _ _ h
  · exact fun h => decodeEventMembers_keeps (fun r => r.Headers) _
      (setEventField_keeps _ _ (fun r k v hk => (storeEventField_other r k v).2.1 hk)) ms _ _ h
  · exact fun h => decodeEventMembers_keeps (fun r => r.HTTPMethod) _
      (setEventField_keeps _ _ (fun r k v hk => (storeEventField_other r k v).2.2.1 hk)) ms _ _ h
  · exact fun h => decodeEventMembers_keeps (fun r => r.Path) _
      (setEventField_keeps _ _ (fun r k v hk => (storeEventField_other r k v).2.2.2.1 hk))
      ms _ _ h
  · exact fun h => decodeEventMembers_keeps (fun r => r.PathParameters) _
      (setEventField_keeps _ _ (fun r k v hk => (storeEventField_other r k v).2.2.2.2.1 hk))
      ms _ _ h
  · exact fun h => decodeEventMembers_keeps (fun r => r.QueryStringParameters) _
      (setEventField_keeps _ _ (fun r k v hk => (storeEventField_other r k v).2.2.2.2.2.1 hk))
      ms _ _ h
  · exact fun h => decodeEventMembers_keeps (fun r => r.Resource) _
      (setEventField_keeps _ _ (fun r k v hk => (storeEventField_other r k v).2.2.2.2.2.2.1 hk))
      ms _ _ h
  · exact fun h => decodeEventMembers_keeps (fun r => r.StageVariables) _
      (setEventField_keeps _ _
        (fun r k v hk => (storeEventField_other r k v).2.2.2.2.2.2.2.1 hk)) ms _ _ h
  · exact fun h => decodeEventMembers_keeps (fun r => r.RequestContext) _
      (setEventField_keeps _ _
        (fun r k v hk => (storeEventField_other r k v).2.2.2.2.2.2.2.2.1 hk)) ms _ _ h
  · exact fun h => decodeEventMembers_keeps (fun r => r.IsBase64Encoded) _
      (setEventField_keeps _ _
        (fun r k v hk => (storeEventField_other r k v).2.2.2.2.2.2.2.2.2 hk)) ms _ _ h

/-- The event text of the concrete scenario decodes to the scenario event. -/
theorem scenarioJson_decodes :
    (decodeEvent scenarioJson).1 = scenarioEvent ∧ (decodeEvent scenarioJson).2 = false := by
  decide

/-- Field names are matched without regard to letter case, and the long s and
the Kelvin sign count as `s` and `k`. -/
theorem findField_examples :
    findField eventFields (str "body") = some (str "body") ∧
    findField eventFields (str "BODY") = some (str "body") ∧
    findField eventFields (str "iſBase64Encoded") = some (str "isBase64Encoded") ∧
    findField contextFields (str "Identity") = some (str "identity") ∧
    findField contextFields (str "staKe") = none ∧
    findField eventFields (str "bodyé") = none := by
  decide

theorem call_not_both {U : Type} (o : Outcome (HttpRequest U)) (ho : o ≠ .panic) :
    ∃ request err, o.call = .returns request err ∧ ¬ (request.isSome = true ∧ err.isSome = true) ∧
      (request.isSome = true ∨ err.isSome = true) := by
  cases o with
  | ok req => exact ⟨some req, none, rfl, by simp, by simp⟩
  | error e => exact ⟨none, some (.corruptInput e), rfl, by simp, by simp⟩
  | panic => exact absurd rfl ho

/-- Claim C12 as stated fails: in the JSON object
`\x7b"body": null, "isBase64Encoded": null\x7d` the member `body` is not a string
and the member `isBase64Encoded` is not a boolean, so the object does not have
the JSON types of the schema, yet `NewRequest` returns a request and no error. -/
theorem newRequest_null_counterexample :
    ¬ ∀ (parseJson : GoString → Option Json) (event : GoString) (j : Json),
      parseJson event = some j → j.hasSchemaTypes = false →
      ∃ err, NewRequest parseJson noParse event = .returns none (some err) := by
  intro h
  obtain ⟨err, he⟩ := h sampleGrammar
    (str "\x7b\"body\": null, \"isBase64Encoded\": null\x7d") nullBodyJson rfl rfl
  have h2 : NewRequest sampleGrammar noParse
      (str "\x7b\"body\": null, \"isBase64Encoded\": null\x7d") =
      .returns (some emptyRequest) none := rfl
  rw [h2] at he
  injection he with h3 h4
  exact absurd h3 (by simp)

/-- Claim C12, amended: for every byte sequence that is not valid JSON, and for
every JSON value that does not have the JSON types of the Incoming Event schema
up to null (a value other than an object and null, or an object with a member
that selects a field, letter case ignored, and whose value is neither null nor
of the type of the field), `NewRequest` returns an error and no request; a value
that has these types up to null causes no error in `json.Unmarshal`, and
`NewRequest` returns what `httpRequest` returns for the decoded event; an error
of `json.Unmarshal` arises only for a text that is not valid JSON or does not
have the types of the schema; for every input `NewRequest` returns (it does not
panic), never both an error and a request, and always one of them; the fields
that no member of a JSON object selects are zero-valued; and the empty object
and null give a request. -/
theorem newRequest_decode_failure {U : Type} (parseJson : GoString → Option Json)
    (urlParse : GoString → Option U) (event : GoString) :
    (parseJson event = none →
      NewRequest parseJson urlParse event = .returns none (some (.unmarshal .malformed))) ∧
    (∀ j, parseJson event = some j → j.hasSchemaTypesOrNull = false →
      NewRequest parseJson urlParse event = .returns none (some (.unmarshal .typeMismatch))) ∧
    (∀ j, parseJson event = some j → j.hasSchemaTypesOrNull = true →
      (Unmarshal parseJson event).2 = none ∧
      NewRequest parseJson urlParse event = ((decodeEvent j).1.httpRequest urlParse).call) ∧
    (∀ e, NewRequest parseJson urlParse event = .returns none (some (.unmarshal e)) →
      parseJson event = none ∨ ∃ j, parseJson event = some j ∧ j.hasSchemaTypes = false) ∧
    (∃ request err, NewRequest parseJson urlParse event = .returns request err ∧
      ¬ (request.isSome = true ∧ err.isSome = true) ∧
      (request.isSome = true ∨ err.isSome = true)) ∧
    (∀ ms, parseJson event = some (.object ms) →
      absentFieldsZero ms (Unmarshal parseJson event).1) ∧
    (parseJson event = some (.object []) ∨ parseJson event = some .null →
      ∃ req, NewRequest parseJson urlParse event = .returns (some req) none) := by
  have hbad : ∀ j, parseJson event = some j → j.hasSchemaTypesOrNull = false →
      NewRequest parseJson urlParse event = .returns none (some (.unmarshal .typeMismatch)) := by
    intro j hj hs
    simp [NewRequest, Unmarshal, hj, decodeEvent_flag, hs]
  have hgood : ∀ j, parseJson event = some j → j.hasSchemaTypesOrNull = true →
      (Unmarshal parseJson event).2 = none ∧
      NewRequest parseJson urlParse event = ((decodeEvent j).1.httpRequest urlParse).call := by
    intro j hj hs
    simp [NewRequest, Unmarshal, hj, decodeEvent_flag, hs]
  have hnone : parseJson event = none →
      NewRequest parseJson urlParse event = .returns none (some (.unmarshal .malformed)) := by
    intro hn
    simp [NewRequest, Unmarshal, hn]
  have hempty : ∀ j, parseJson event = some j → (decodeEvent j).1 = emptyEvent →
      j.hasSchemaTypesOrNull = true →
      ∃ req, NewRequest parseJson urlParse event = .returns (some req) none := by
    intro j hj he hs
    rw [(hgood j hj hs).2, he]
    obtain ⟨req, hreq⟩ := (httpRequest_outcome urlParse emptyEvent).1 (Or.inl rfl)
    exact ⟨req, by rw [hreq]; rfl⟩
  refine ⟨hnone, hbad, hgood, ?_, ?_, ?_, ?_⟩
  · intro e he
    cases hj : parseJson event with
    | none => exact Or.inl rfl
    | some j =>
      right
      refine ⟨j, rfl, ?_⟩
      cases hs : j.hasSchemaTypes with
      | false => rfl
      | true =>
        have h2 := (hgood j hj (hasSchemaTypes_orNull j hs)).2
        rw [h2] at he
        cases hc : (decodeEvent j).1.httpRequest urlParse with
        | ok req => rw [hc] at he; simp [Outcome.call] at he
        | error e2 => rw [hc] at he; simp [Outcome.call] at he
        | panic => rw [hc] at he; simp [Outcome.call] at he
  · cases hj : parseJson event with
    | none => exact ⟨none, _, hnone hj, by simp, by simp⟩
    | some j =>
      cases hs : j.hasSchemaTypesOrNull with
      | false => exact ⟨none, _, hbad j hj hs, by simp, by simp⟩
      | true =>
        rw [(hgood j hj hs).2]
        exact call_not_both _ (httpRequest_no_panic urlParse _)
  · intro ms hj
    have : (Unmarshal parseJson event).1 = (decodeEvent (.object ms)).1 := by
      simp [Unmarshal, hj]
    rw [this]
    exact decodeEvent_absent ms
  · intro hj
    rcases hj with hj | hj
    · exact hempty _ hj rfl rfl
    · exact hempty _ hj rfl rfl

theorem newRequest_decode_failure_witness :
    sampleGrammar (str "not json") = none ∧
    NewRequest sampleGrammar noParse (str "not json") =
      .returns none (some (.unmarshal .malformed)) ∧
    sampleGrammar (str "\x7b\"body\": 5\x7d") = some numberBodyJson ∧
    numberBodyJson.hasSchemaTypesOrNull = false ∧
    NewRequest sampleGrammar noParse (str "\x7b\"body\": 5\x7d") =
      .returns none (some (.unmarshal .typeMismatch)) ∧
    sampleGrammar (str "\x7b\"BODY\": 5\x7d") = some upperBodyJson ∧
    upperBodyJson.hasSchemaTypesOrNull = false ∧
    NewRequest sampleGrammar noParse (str "\x7b\"BODY\": 5\x7d") =
      .returns none (some (.unmarshal .typeMismatch)) ∧
    sampleGrammar (str "\x7b\"body\": null, \"isBase64Encoded\": null\x7d") =
      some nullBodyJson ∧
    nullBodyJson.hasSchemaTypesOrNull = true ∧ nullBodyJson.hasSchemaTypes = false ∧
    (Unmarshal sampleGrammar (str "\x7b\"body\": null, \"isBase64Encoded\": null\x7d")).2 =
      none ∧
    sampleGrammar (str "\x7b\x7d") = some (.object []) ∧
    ∃ req, NewRequest sampleGrammar noParse (str "\x7b\x7d") = .returns (some req) none :=
  ⟨rfl, (newRequest_decode_failure sampleGrammar noParse (str "not json")).1 rfl,
    rfl, rfl,
    (newRequest_decode_failure sampleGrammar noParse (str "\x7b\"body\": 5\x7d")).2.1
      numberBodyJson rfl rfl,
    rfl, rfl,
    (newRequest_decode_failure sampleGrammar noParse (str "\x7b\"BODY\": 5\x7d")).2.1
      upperBodyJson rfl rfl,
    rfl, rfl, rfl,
    ((newRequest_decode_failure sampleGrammar noParse
      (str "\x7b\"body\": null, \"isBase64Encoded\": null\x7d")).2.2.1 nullBodyJson rfl rfl).1,
    rfl,
    (newRequest_decode_failure sampleGrammar noParse (str "\x7b\x7d")).2.2.2.2.2.2 (Or.inl rfl)⟩

end ProxyIntegration
